import Mathlib

/-!
Task_App: the task / user assignment workflow.

A shallow embedding of the two implementations of the task workflow
(the flat package `models` + `controllers`, and the layered package
`internal/...`) over one relational store with the tables `users`, `tasks`
and `user_tasks`.

Conventions of the embedding:
* a Go `error` is `Option Err` (`none` is `nil`); a Go `(T, error)` is `Except Err T`;
* a function that touches the store takes the store and returns the store it leaves;
  a transaction works on a copy that replaces the store at `Commit` only;
* a method with a pointer receiver returns the receiver as it leaves it;
* `time.Now()` and `uuid.New()` are read from the arguments `now` and `fresh`;
* connection-level failures of the store are outside the model: a query fails only
  with `sql.ErrNoRows` or with a key violation.
-/

set_option autoImplicit false

namespace TaskApp

/-! ## Basic values -/

namespace uuid

/-- Identifiers of package `github.com/google/uuid`; `0` is `uuid.Nil`. -/
abbrev UUID := Nat

end uuid

/-- Instants of `time.Time`; `0` is the zero time. -/
abbrev Time := Nat

/-- Error values: `errors.New`, `fmt.Errorf` with a wrapped error,
`sql.ErrNoRows`, and the key violation reported by the store. -/
inductive Err where
  | new (msg : String)
  | wrapf (msg : String) (inner : Err)
  | noRows
  | duplicateKey
  deriving DecidableEq, Repr

/-- Text of an error, as `err.Error()`. -/
def Err.Error : Err → String
  | .new msg => msg
  | .wrapf msg inner => msg ++ ": " ++ inner.Error
  | .noRows => "sql: no rows in result set"
  | .duplicateKey => "ERROR: duplicate key value violates unique constraint"

/-! ## Tables -/

/-- Columns of table `users` (`persistence.User`, `models.User`). -/
structure UserRow where
  ID : Nat
  UUID : uuid.UUID
  Name : String
  Email : String
  Password : String
  CreatedAt : Time
  UpdatedAt : Time
  DeletedAt : Option Time
  deriving DecidableEq, Repr

/-- Columns of table `tasks` (`persistence.Task`, `models.Task`). -/
structure TaskRow where
  ID : Nat
  UUID : uuid.UUID
  Title : String
  Description : String
  Completed : Bool
  CreatedAt : Time
  UpdatedAt : Time
  DeletedAt : Option Time
  CreatedByID : uuid.UUID
  AssignedToID : Option uuid.UUID
  deriving DecidableEq, Repr

/-- Columns of table `user_tasks` (`models.UserTask`). -/
structure UserTask where
  TaskID : Nat
  UserID : Nat
  deriving DecidableEq, Repr

/-- Modelled from the spec: the declaration of `persistence.UserTask` is not among the
sources. The spec's "uniqueness enforced, a user cannot be assigned twice" is read as the
composite key (task_id, user_id) that `models.UserTask` declares for the same table. -/
def UserTask.sameKey (a b : UserTask) : Bool :=
  a.TaskID == b.TaskID && a.UserID == b.UserID

/-- The relational store. -/
structure DB where
  users : List UserRow
  tasks : List TaskRow
  user_tasks : List UserTask
  deriving DecidableEq, Repr

namespace DB

/-- Rows of `users` seen by a model query: the soft-delete filter `deleted_at IS NULL`. -/
def liveUsers (db : DB) : List UserRow :=
  db.users.filter (fun u => u.DeletedAt.isNone)

/-- Rows of `tasks` seen by a model query: the soft-delete filter `deleted_at IS NULL`. -/
def liveTasks (db : DB) : List TaskRow :=
  db.tasks.filter (fun t => t.DeletedAt.isNone)

/-- Query `NewSelect().Model(&user).Where("uuid = ?", u).Scan(ctx)`. -/
def scanUserByUUID (db : DB) (u : uuid.UUID) : Except Err UserRow :=
  match db.liveUsers.find? (fun r => r.UUID == u) with
  | some r => .ok r
  | none => .error .noRows

/-- Query `NewSelect().Model(&task).Where("uuid = ?", u).Scan(ctx)`. -/
def scanTaskByUUID (db : DB) (u : uuid.UUID) : Except Err TaskRow :=
  match db.liveTasks.find? (fun r => r.UUID == u) with
  | some r => .ok r
  | none => .error .noRows

/-- Relation `Users` (`m2m:user_tasks`) of the task with key `taskID`: the live users
joined through `user_tasks`, in the order of the `user_tasks` rows. -/
def relUsers (db : DB) (taskID : Nat) : List UserRow :=
  (db.user_tasks.filter (fun ut => ut.TaskID == taskID)).flatMap
    (fun ut => db.liveUsers.filter (fun u => u.ID == ut.UserID))

/-- Relation `belongs-to` joined on `users.uuid`. -/
def relUser (db : DB) (u : uuid.UUID) : Option UserRow :=
  db.liveUsers.find? (fun r => r.UUID == u)

/-- Query `Model((*UserTask)(nil)).Where("task_id = ? AND user_id = ?", t, u).Exists(ctx)`. -/
def existsUserTask (db : DB) (taskID userID : Nat) : Bool :=
  db.user_tasks.any (fun ut => ut.TaskID == taskID && ut.UserID == userID)

/-- Next value of the `autoincrement` key of `tasks`. -/
def nextTaskID (db : DB) : Nat :=
  (db.tasks.map (fun t => t.ID)).foldr max 0 + 1

/-- Statement `NewInsert().Model(task).Exec(ctx)`: the key is generated, a zero
`created_at` / `updated_at` (`nullzero`, `default:current_timestamp`) is filled with `now`.
Returns the store and the inserted row. -/
def insertTask (db : DB) (now : Time) (t : TaskRow) : DB × TaskRow :=
  let row : TaskRow :=
    { t with
      ID := db.nextTaskID
      CreatedAt := if t.CreatedAt = 0 then now else t.CreatedAt
      UpdatedAt := if t.UpdatedAt = 0 then now else t.UpdatedAt }
  ({ db with tasks := db.tasks ++ [row] }, row)

/-- Statement `NewInsert().Model(userTask).Exec(ctx)` under the key of `user_tasks`. -/
def insertUserTask (db : DB) (ut : UserTask) : Except Err DB :=
  if db.user_tasks.any (fun r => r.sameKey ut) then .error .duplicateKey
  else .ok { db with user_tasks := db.user_tasks ++ [ut] }

/-- Statement `NewUpdate().Model(task)...WherePK().Exec(ctx)`: the live row with key `id`
is replaced by `f row`. -/
def updateTaskWherePK (db : DB) (id : Nat) (f : TaskRow → TaskRow) : DB :=
  { db with tasks := db.tasks.map (fun r => if r.ID == id && r.DeletedAt.isNone then f r else r) }

/-- Statement `NewDelete().Model(task).WherePK().Exec(ctx)` on a model with a
`soft_delete` column: the live row with key `id` gets `deleted_at = now`. -/
def deleteTaskWherePK (db : DB) (now : Time) (id : Nat) : DB :=
  db.updateTaskWherePK id (fun r => { r with DeletedAt := some now })

end DB

/-! ## Layered implementation: entities -/

namespace entity

/-- Struct `entity.User` (the `Tasks` slice is never filled by the code below). -/
structure User where
  ID : Nat := 0
  UUID : uuid.UUID := 0
  Name : String := ""
  Email : String := ""
  Password : String := ""
  CreatedAt : Time := 0
  UpdatedAt : Time := 0
  DeletedAt : Option Time := none
  deriving DecidableEq, Repr

/-- Struct `entity.Task`. -/
structure Task where
  ID : Nat := 0
  UUID : uuid.UUID := 0
  Title : String := ""
  Description : String := ""
  Completed : Bool := false
  CreatedAt : Time := 0
  UpdatedAt : Time := 0
  DeletedAt : Option Time := none
  CreatedByID : uuid.UUID := 0
  AssignedToID : Option uuid.UUID := none
  CreatedBy : Option User := none
  AssignedTo : Option User := none
  Users : List User := []
  deriving DecidableEq, Repr

/-- Function `entity.NewTask`. -/
def NewTask (title description : String) (createdByID : uuid.UUID)
    (now : Time) (fresh : uuid.UUID) : Except Err Task :=
  if title = "" then .error (.new "task title is required")
  else .ok
    { UUID := fresh
      Title := title
      Description := description
      Completed := false
      CreatedAt := now
      UpdatedAt := now
      CreatedByID := createdByID }

/-- Method `(*entity.Task).Complete`. -/
def Task.Complete (t : Task) (now : Time) : Option Err × Task :=
  if t.Completed then (some (.new "task is already completed"), t)
  else (none, { t with Completed := true, UpdatedAt := now })

/-- Method `(*entity.Task).CanBeModifiedBy`. -/
def Task.CanBeModifiedBy (t : Task) (userID : uuid.UUID) : Bool :=
  if t.CreatedByID = userID then true
  else t.Users.any (fun user => user.UUID == userID)

/-- Method `(*entity.Task).AssignTo`. -/
def Task.AssignTo (t : Task) (userID : uuid.UUID) (now : Time) : Task :=
  { t with AssignedToID := some userID, UpdatedAt := now }

/-- Method `(*entity.Task).AddUser`. -/
def Task.AddUser (t : Task) (user : User) (now : Time) : Task :=
  if t.Users.any (fun u => u.UUID == user.UUID) then t
  else { t with Users := t.Users ++ [user], UpdatedAt := now }

end entity

/-! ## Layered implementation: persistence models and repositories -/

namespace persistence

/-- Struct `persistence.Task`: the columns of `tasks` and the relations a query may load. -/
structure Task extends TaskRow where
  CreatedBy : Option UserRow := none
  AssignedTo : Option UserRow := none
  Users : List UserRow := []
  deriving DecidableEq, Repr

end persistence

/-- Query `NewSelect().Model(task).Relation("Users").Relation("CreatedBy").
Relation("AssignedTo").Where("task.uuid = ?", u).Scan(ctx)`. -/
def DB.scanTaskWithRelations (db : DB) (u : uuid.UUID) : Except Err persistence.Task :=
  match db.scanTaskByUUID u with
  | .error e => .error e
  | .ok row =>
    .ok
      { toTaskRow := row
        CreatedBy := db.relUser row.CreatedByID
        AssignedTo := row.AssignedToID.bind db.relUser
        Users := db.relUsers row.ID }

namespace UserRepository

/-- Method `(*UserRepository).GetByUUID`. -/
def GetByUUID (db : DB) (uuid : uuid.UUID) : Except Err entity.User :=
  match db.scanUserByUUID uuid with
  | .error err => .error err
  | .ok dbUser =>
    .ok
      { ID := dbUser.ID
        UUID := dbUser.UUID
        Name := dbUser.Name
        Email := dbUser.Email
        Password := dbUser.Password
        CreatedAt := dbUser.CreatedAt
        UpdatedAt := dbUser.UpdatedAt
        DeletedAt := dbUser.DeletedAt }

end UserRepository

namespace TaskRepository

/-- Conversion of a related user in `GetByUUID`: key, identifier, name and email only. -/
def relatedUser (user : UserRow) : entity.User :=
  { ID := user.ID, UUID := user.UUID, Name := user.Name, Email := user.Email }

/-- Conversion of a loaded `persistence.Task` to the domain entity, as in `GetByUUID`. -/
def toEntity (dbTask : persistence.Task) : entity.Task :=
  { ID := dbTask.ID
    UUID := dbTask.UUID
    Title := dbTask.Title
    Description := dbTask.Description
    Completed := dbTask.Completed
    CreatedAt := dbTask.CreatedAt
    UpdatedAt := dbTask.UpdatedAt
    DeletedAt := dbTask.DeletedAt
    CreatedByID := dbTask.CreatedByID
    AssignedToID := dbTask.AssignedToID
    CreatedBy := dbTask.CreatedBy.map relatedUser
    AssignedTo := dbTask.AssignedTo.map relatedUser
    Users := dbTask.Users.map relatedUser }

/-- Method `(*TaskRepository).GetByUUID`. -/
def GetByUUID (db : DB) (uuid : uuid.UUID) : Except Err entity.Task :=
  match db.scanTaskWithRelations uuid with
  | .error err => .error err
  | .ok dbTask => .ok (toEntity dbTask)

/-- Loop of `(*TaskRepository).Create` over `task.Users`, inside the transaction. -/
def Create.addUsers (taskID : Nat) : List entity.User → DB → Except Err DB
  | [], tx => .ok tx
  | user :: rest, tx =>
    match tx.scanUserByUUID user.UUID with
    | .error err => .error err
    | .ok dbUser =>
      match tx.insertUserTask { TaskID := taskID, UserID := dbUser.ID } with
      | .error err => .error err
      | .ok tx => Create.addUsers taskID rest tx

/-- Method `(*TaskRepository).Create`. -/
def Create (db : DB) (now : Time) (task : entity.Task) : Option Err × entity.Task × DB :=
  let dbTask : TaskRow :=
    { ID := 0
      UUID := task.UUID
      Title := task.Title
      Description := task.Description
      Completed := task.Completed
      CreatedAt := 0
      UpdatedAt := 0
      DeletedAt := none
      CreatedByID := task.CreatedByID
      AssignedToID := none }
  let (tx, dbTask) := db.insertTask now dbTask
  let task := { task with ID := dbTask.ID }
  if task.Users ≠ [] then
    match Create.addUsers dbTask.ID task.Users tx with
    | .error err => (some err, task, db)
    | .ok tx =>
      if task.AssignedToID.isSome then
        (none, task,
          tx.updateTaskWherePK dbTask.ID (fun r => { r with AssignedToID := task.AssignedToID }))
      else (none, task, tx)
  else (none, task, tx)

/-- Method `(*TaskRepository).Update`. -/
def Update (db : DB) (task : entity.Task) : Option Err × DB :=
  (none,
    db.updateTaskWherePK task.ID (fun r =>
      { r with
        Title := task.Title
        Description := task.Description
        Completed := task.Completed
        UpdatedAt := task.UpdatedAt
        AssignedToID := task.AssignedToID }))

/-- Method `(*TaskRepository).Delete`. -/
def Delete (db : DB) (now : Time) (uuid : uuid.UUID) : Option Err × DB :=
  match db.scanTaskByUUID uuid with
  | .error err => (some err, db)
  | .ok dbTask => (none, db.deleteTaskWherePK now dbTask.ID)

/-- Method `(*TaskRepository).AssignTaskToUser`. -/
def AssignTaskToUser (db : DB) (taskUUID userUUID : uuid.UUID) : Option Err × DB :=
  match db.scanTaskByUUID taskUUID with
  | .error err => (some err, db)
  | .ok dbTask =>
    match db.scanUserByUUID userUUID with
    | .error err => (some err, db)
    | .ok dbUser =>
      let tx := db
      let isAssigned := tx.existsUserTask dbTask.ID dbUser.ID
      match (if !isAssigned then tx.insertUserTask { TaskID := dbTask.ID, UserID := dbUser.ID }
             else .ok tx) with
      | .error err => (some err, db)
      | .ok tx =>
        (none, tx.updateTaskWherePK dbTask.ID (fun r => { r with AssignedToID := some userUUID }))

/-- Method `(*TaskRepository).CompleteTask`. -/
def CompleteTask (db : DB) (taskUUID : uuid.UUID) : Option Err × DB :=
  match db.scanTaskByUUID taskUUID with
  | .error err => (some err, db)
  | .ok dbTask =>
    if dbTask.Completed then (some (.new "task is already completed"), db)
    else (none, db.updateTaskWherePK dbTask.ID (fun r => { r with Completed := true }))

/-- Method `(*TaskRepository).AddUserToTask`. -/
def AddUserToTask (db : DB) (taskUUID userUUID : uuid.UUID) : Option Err × DB :=
  match db.scanTaskByUUID taskUUID with
  | .error err => (some err, db)
  | .ok dbTask =>
    match db.scanUserByUUID userUUID with
    | .error err => (some err, db)
    | .ok dbUser =>
      if db.existsUserTask dbTask.ID dbUser.ID then
        (some (.new "user is already assigned to this task"), db)
      else
        match db.insertUserTask { TaskID := dbTask.ID, UserID := dbUser.ID } with
        | .error err => (some err, db)
        | .ok db => (none, db)

end TaskRepository

/-! ## Layered implementation: domain services -/

namespace UserService

/-- Method `(*UserService).GetUserByUUID`. -/
def GetUserByUUID (db : DB) (uuid : uuid.UUID) : Except Err entity.User :=
  UserRepository.GetByUUID db uuid

end UserService

namespace TaskService

/-- Method `(*TaskService).CreateTask`. -/
def CreateTask (db : DB) (now : Time) (task : entity.Task) : Option Err × entity.Task × DB :=
  match UserRepository.GetByUUID db task.CreatedByID with
  | .error _ => (some (.new "creator not found"), task, db)
  | .ok creator => TaskRepository.Create db now { task with CreatedBy := some creator }

/-- Method `(*TaskService).GetTaskByUUID`. -/
def GetTaskByUUID (db : DB) (taskUUID : uuid.UUID) : Except Err entity.Task :=
  TaskRepository.GetByUUID db taskUUID

/-- Method `(*TaskService).AssignTask`. -/
def AssignTask (db : DB) (taskUUID userUUID requestorUUID : uuid.UUID) : Option Err × DB :=
  match TaskRepository.GetByUUID db taskUUID with
  | .error _ => (some (.new "task not found"), db)
  | .ok task =>
    if task.CreatedByID ≠ requestorUUID then
      (some (.new "only the task creator can assign users"), db)
    else
      match UserRepository.GetByUUID db userUUID with
      | .error _ => (some (.new "user not found"), db)
      | .ok _ => TaskRepository.AssignTaskToUser db taskUUID userUUID

/-- Method `(*TaskService).CompleteTask`. -/
def CompleteTask (db : DB) (now : Time) (taskUUID userUUID : uuid.UUID) : Option Err × DB :=
  match TaskRepository.GetByUUID db taskUUID with
  | .error _ => (some (.new "task not found"), db)
  | .ok task =>
    if !task.CanBeModifiedBy userUUID then
      (some (.new "you are not authorized to complete this task"), db)
    else
      match task.Complete now with
      | (some err, _) => (some err, db)
      | (none, task) => TaskRepository.Update db task

/-- Method `(*TaskService).DeleteTask`. -/
def DeleteTask (db : DB) (now : Time) (taskUUID userUUID : uuid.UUID) : Option Err × DB :=
  match TaskRepository.GetByUUID db taskUUID with
  | .error _ => (some (.new "task not found"), db)
  | .ok task =>
    if task.CreatedByID ≠ userUUID then
      (some (.new "only the task creator can delete the task"), db)
    else TaskRepository.Delete db now taskUUID

end TaskService

/-! ## Layered implementation: DTOs, presenter and use case -/

namespace dto

/-- Struct `dto.UserAssign`: the identifier is the text sent by the client. -/
structure UserAssign where
  ID : String
  deriving DecidableEq, Repr

/-- Struct `dto.CreateTaskRequest`. -/
structure CreateTaskRequest where
  Title : String
  Description : String
  Users : List UserAssign
  deriving DecidableEq, Repr

/-- Struct `dto.UserSummary`. -/
structure UserSummary where
  ID : uuid.UUID := 0
  Name : String := ""
  Email : String := ""
  deriving DecidableEq, Repr

/-- Struct `dto.TaskResponse`. -/
structure TaskResponse where
  ID : uuid.UUID
  Title : String
  Description : String
  Completed : Bool
  CreatedAt : Time
  UpdatedAt : Time
  DeletedAt : Option Time
  CreatedBy : UserSummary
  AssignedTo : Option UserSummary
  Users : List UserSummary
  deriving DecidableEq, Repr

end dto

namespace TaskPresenter

/-- Summary of a user, as built three times in `(*TaskPresenter).ToDTO`. -/
def summary (user : entity.User) : dto.UserSummary :=
  { ID := user.UUID, Name := user.Name, Email := user.Email }

/-- Method `(*TaskPresenter).ToDTO`; `none` is the `nil` task and the `nil` response. -/
def ToDTO : Option entity.Task → Option dto.TaskResponse
  | none => none
  | some task =>
    some
      { ID := task.UUID
        Title := task.Title
        Description := task.Description
        Completed := task.Completed
        CreatedAt := task.CreatedAt
        UpdatedAt := task.UpdatedAt
        DeletedAt := task.DeletedAt
        CreatedBy := match task.CreatedBy with
          | some user => summary user
          | none => {}
        AssignedTo := task.AssignedTo.map summary
        Users := task.Users.map summary }

end TaskPresenter

namespace TaskUseCase

/-- First loop of `(*TaskUseCase).CreateTask`: the texts that do not parse or do not
resolve are collected in `invalidUsers`, the others in `validUsers`. -/
def CreateTask.validate (parse : String → Option uuid.UUID) (db : DB)
    (users : List dto.UserAssign) : List String × List uuid.UUID :=
  users.foldl
    (fun acc userAssign =>
      match parse userAssign.ID with
      | none => (acc.1 ++ [userAssign.ID ++ " (invalid format)"], acc.2)
      | some userUUID =>
        match UserService.GetUserByUUID db userUUID with
        | .error _ => (acc.1 ++ [userAssign.ID ++ " (not found)"], acc.2)
        | .ok _ => (acc.1, acc.2 ++ [userUUID]))
    ([], [])

/-- Second loop of `(*TaskUseCase).CreateTask`: one `AssignTask` per valid user, stopping
at the first error. -/
def CreateTask.assignAll (taskUUID creatorUUID : uuid.UUID) :
    List uuid.UUID → DB → Option Err × DB
  | [], db => (none, db)
  | userUUID :: rest, db =>
    match TaskService.AssignTask db taskUUID userUUID creatorUUID with
    | (some err, db) =>
      (some (.wrapf ("failed to assign task to user " ++ toString userUUID) err), db)
    | (none, db) => CreateTask.assignAll taskUUID creatorUUID rest db

/-- Method `(*TaskUseCase).CreateTask`; `parse` is `uuid.Parse`. -/
def CreateTask (parse : String → Option uuid.UUID) (db : DB) (now : Time) (fresh : uuid.UUID)
    (req : dto.CreateTaskRequest) (creatorUUID : uuid.UUID) :
    Except Err (Option dto.TaskResponse) × DB :=
  match entity.NewTask req.Title req.Description creatorUUID now fresh with
  | .error err => (.error err, db)
  | .ok task =>
    match TaskService.CreateTask db now task with
    | (some err, _, db) => (.error err, db)
    | (none, task, db) =>
      let assigned : Option Err × DB :=
        if req.Users.length > 0 then
          let (invalidUsers, validUsers) := CreateTask.validate parse db req.Users
          if invalidUsers.length > 0 then
            (some (.new ("some users could not be assigned to the task: "
              ++ ", ".intercalate invalidUsers)), db)
          else CreateTask.assignAll task.UUID creatorUUID validUsers db
        else (none, db)
      match assigned with
      | (some err, db) => (.error err, db)
      | (none, db) =>
        match TaskService.GetTaskByUUID db task.UUID with
        | .error err => (.error err, db)
        | .ok createdTask => (.ok (TaskPresenter.ToDTO (some createdTask)), db)

/-- Method `(*TaskUseCase).GetTaskByUUID`. -/
def GetTaskByUUID (db : DB) (taskUUID : uuid.UUID) : Except Err (Option dto.TaskResponse) :=
  match TaskService.GetTaskByUUID db taskUUID with
  | .error err => .error err
  | .ok task => .ok (TaskPresenter.ToDTO (some task))

end TaskUseCase

/-! ## Flat implementation: package `models` -/

namespace models

/-- Struct `models.Task`: the columns of `tasks` and the relations a query may load. -/
structure Task extends TaskRow where
  CreatedBy : Option UserRow := none
  AssignedTo : Option UserRow := none
  Users : List UserRow := []
  deriving DecidableEq, Repr

/-- Function `models.FetchTaskByUUID`. -/
def FetchTaskByUUID (db : DB) (taskUUID : uuid.UUID) : Except Err Task :=
  match db.scanTaskByUUID taskUUID with
  | .error err => .error err
  | .ok row =>
    .ok
      { toTaskRow := row
        CreatedBy := db.relUser row.CreatedByID
        AssignedTo := row.AssignedToID.bind db.relUser
        Users := db.relUsers row.ID }

/-- Method `(*models.Task).updateTask`: every column of the live row with the key of
`task` is written from `task`. -/
def Task.updateTask (task : Task) (db : DB) : Option Err × DB :=
  (none, db.updateTaskWherePK task.ID (fun _ => task.toTaskRow))

/-- Count of the query
`TableExpr("user_tasks ut").Join("users u ON u.id = ut.user_id").
Where("ut.task_id = ? AND u.uuid = ?", taskID, userUUID)`; the join is written by hand,
so no soft-delete filter is added. -/
def countAssignments (db : DB) (taskID : Nat) (userUUID : uuid.UUID) : Nat :=
  ((db.user_tasks.filter (fun ut => ut.TaskID == taskID)).flatMap
    (fun ut => db.users.filter (fun u => u.ID == ut.UserID && u.UUID == userUUID))).length

/-- Method `(*models.Task).Complete`. -/
def Task.Complete (task : Task) (db : DB) (userUUID : uuid.UUID) : Option Err × Task × DB :=
  if task.Completed then (some (.new "task is already completed"), task, db)
  else
    match db.scanTaskByUUID task.UUID with
    | .error _ => (some (.new "task not found"), task, db)
    | .ok row =>
      let task : Task := { task with toTaskRow := row, Users := db.relUsers row.ID }
      if task.CreatedByID ≠ userUUID ∧ countAssignments db task.ID userUUID = 0 then
        (some (.new "you are not authorized to complete this task"), task, db)
      else
        let task : Task := { task with Completed := true }
        let (err, db) := task.updateTask db
        (err, task, db)

/-- Loop of `(*models.Task).ValidateAndCreateTask` over `task.Users`, inside the
transaction. -/
def Task.ValidateAndCreateTask.addUsers (taskID : Nat) : List UserRow → DB → Except Err DB
  | [], tx => .ok tx
  | user :: rest, tx =>
    match tx.scanUserByUUID user.UUID with
    | .error err =>
      .error (.wrapf ("user with UUID " ++ toString user.UUID ++ " not found") err)
    | .ok dbUser =>
      match tx.insertUserTask { TaskID := taskID, UserID := dbUser.ID } with
      | .error err => .error (.wrapf "failed to insert user_task relation" err)
      | .ok tx => Task.ValidateAndCreateTask.addUsers taskID rest tx

/-- Method `(*models.Task).ValidateAndCreateTask`. -/
def Task.ValidateAndCreateTask (task : Task) (db : DB) (now : Time) (fresh : uuid.UUID)
    (userUUID : uuid.UUID) : Option Err × Task × DB :=
  if task.Title = "" then (some (.new "task title is required"), task, db)
  else
    let task : Task := { task with UUID := fresh, CreatedAt := now, UpdatedAt := now }
    match db.scanUserByUUID userUUID with
    | .error err => (some (.wrapf "creator user not found" err), task, db)
    | .ok _ =>
      let task : Task := { task with CreatedByID := userUUID }
      let (tx, row) := db.insertTask now task.toTaskRow
      let task : Task := { task with ID := row.ID }
      match Task.ValidateAndCreateTask.addUsers task.ID task.Users tx with
      | .error err => (some err, task, db)
      | .ok tx => (none, task, tx)

/-- Method `(*models.Task).DeleteTask`. -/
def Task.DeleteTask (task : Task) (db : DB) (now : Time) (userUUID : uuid.UUID) :
    Option Err × DB :=
  if task.CreatedByID ≠ userUUID then
    (some (.new "unauthorized: you can only delete your own tasks"), db)
  else (none, db.deleteTaskWherePK now task.ID)

/-- Query of `ValidateAndAssignTask`:
`Model((*UserTask)(nil)).Where("task_id = ?", taskID).
Where("user_id IN (SELECT id FROM users WHERE uuid = ?)", userUUID).Exists(ctx)`;
the subquery is written by hand, so no soft-delete filter is added. -/
def alreadyAssigned (db : DB) (taskID : Nat) (userUUID : uuid.UUID) : Bool :=
  db.user_tasks.any (fun ut =>
    ut.TaskID == taskID && db.users.any (fun u => u.UUID == userUUID && u.ID == ut.UserID))

/-- Method `(*models.Task).ValidateAndAssignTask`; `none` is the `nil` receiver. -/
def Task.ValidateAndAssignTask (task : Option Task) (db : DB)
    (creatorUUID assignedUserUUID : uuid.UUID) : Option Err × Option Task × DB :=
  match task with
  | none => (some (.new "task cannot be nil"), none, db)
  | some task =>
    if task.CreatedByID ≠ creatorUUID then
      (some (.new "unauthorized: only the task creator can assign users"), some task, db)
    else if alreadyAssigned db task.ID assignedUserUUID then
      (some (.new "user is already assigned to this task"), some task, db)
    else
      match db.scanUserByUUID assignedUserUUID with
      | .error err => (some (.wrapf "assigned user not found" err), some task, db)
      | .ok assignedUser =>
        match db.insertUserTask { TaskID := task.ID, UserID := assignedUser.ID } with
        | .error err =>
          (some (.wrapf "failed to insert into user_tasks" err), some task, db)
        | .ok tx =>
          let task : Task := { task with AssignedToID := some assignedUserUUID }
          (none, some task,
            tx.updateTaskWherePK task.ID (fun r => { r with AssignedToID := task.AssignedToID }))

end models

/-! ## Flat implementation: request schema and the task-creation handler -/

namespace schemas

/-- Struct `schemas.UserAssign`: the identifier is decoded by the binding middleware. -/
structure UserAssign where
  ID : uuid.UUID
  deriving DecidableEq, Repr

/-- Struct `schemas.CreateTaskRequest`. -/
structure CreateTaskRequest where
  Title : String
  Description : String
  Users : List UserAssign
  deriving DecidableEq, Repr

end schemas

namespace controllers

/-- What a task handler passes to `helperFunc.RespondJSON`: the status code, the error text
and, when the text is empty, the task under the key "task". -/
structure Response where
  status : Nat
  errMsg : String
  task : Option models.Task
  deriving DecidableEq, Repr

/-- First loop of `(*Tasks).CreateTask`: every listed identifier must resolve to a user;
`users` collects a `models.User` carrying the identifier only. `none` is the early return. -/
def Tasks.CreateTask.lookup (db : DB) :
    List schemas.UserAssign → List UserRow → Option (List UserRow)
  | [], users => some users
  | userAssign :: rest, users =>
    match db.scanUserByUUID userAssign.ID with
    | .error _ => none
    | .ok _ =>
      Tasks.CreateTask.lookup db rest
        (users ++ [{ ID := 0, UUID := userAssign.ID, Name := "", Email := "", Password := "",
                     CreatedAt := 0, UpdatedAt := 0, DeletedAt := none }])

/-- Lines 66 to 94 of `(*Tasks).CreateTask`: the task built from the request, with the
listed users and the first of them as primary assignee; `none` is the early return
after a listed identifier that resolves to no user. -/
def Tasks.CreateTask.build (db : DB) (taskReq : schemas.CreateTaskRequest) :
    Option models.Task :=
  let task : models.Task :=
    { ID := 0, UUID := 0, Title := taskReq.Title, Description := taskReq.Description,
      Completed := false, CreatedAt := 0, UpdatedAt := 0, DeletedAt := none,
      CreatedByID := 0, AssignedToID := none }
  if taskReq.Users.length > 0 then
    match Tasks.CreateTask.lookup db taskReq.Users [] with
    | none => none
    | some users =>
      some { task with
             Users := users
             AssignedToID := match users with
               | first :: _ => some first.UUID
               | [] => task.AssignedToID }
  else some task

/-- Method `(*Tasks).CreateTask`; `val` is the value bound to the request context, `none`
when it is not a `*schemas.CreateTaskRequest`. -/
def Tasks.CreateTask (db : DB) (now : Time) (fresh : uuid.UUID) (userUUID : uuid.UUID)
    (val : Option schemas.CreateTaskRequest) : Response × DB :=
  match val with
  | none => ({ status := 400, errMsg := "Invalid request body", task := none }, db)
  | some taskReq =>
    match Tasks.CreateTask.build db taskReq with
    | none =>

      ({ status := 400, errMsg := "One or more assigned users do not exist", task := none }, db)
    | some task =>
      match task.ValidateAndCreateTask db now fresh userUUID with
      | (some err, _, db) => ({ status := 400, errMsg := err.Error, task := none }, db)
      | (none, task, db) =>
        match models.FetchTaskByUUID db task.UUID with
        | .error _ =>
          ({ status := 500, errMsg := "Failed to fetch created task", task := none }, db)
        | .ok createdTask => ({ status := 201, errMsg := "", task := some createdTask }, db)

end controllers

/-! ## Users: statements on table `users` -/

namespace DB

/-- Query `NewSelect().Model(&user).Where("email = ?", e).Scan(ctx)`. -/
def scanUserByEmail (db : DB) (e : String) : Except Err UserRow :=
  match db.liveUsers.find? (fun r => r.Email == e) with
  | some r => .ok r
  | none => .error .noRows

/-- Query `NewSelect().Model((*User)(nil)).Where("email = ?", e).Exists(ctx)`. -/
def existsUserEmail (db : DB) (e : String) : Bool :=
  db.liveUsers.any (fun r => r.Email == e)

/-- Next value of the `autoincrement` key of `users`. -/
def nextUserID (db : DB) : Nat :=
  (db.users.map (fun u => u.ID)).foldr max 0 + 1

/-- Statement `NewInsert().Model(user).Exec(ctx)`: the key is generated, a zero
`created_at` / `updated_at` is filled with `now`; the `unique` column `email` rejects a
value that any row of the table carries, soft-deleted or not. -/
def insertUser (db : DB) (now : Time) (u : UserRow) : Except Err (DB × UserRow) :=
  if db.users.any (fun r => r.Email == u.Email) then .error .duplicateKey
  else
    let row : UserRow :=
      { u with
        ID := db.nextUserID
        CreatedAt := if u.CreatedAt = 0 then now else u.CreatedAt
        UpdatedAt := if u.UpdatedAt = 0 then now else u.UpdatedAt }
    .ok ({ db with users := db.users ++ [row] }, row)

/-- Statement `NewUpdate().Model(user)...WherePK().Exec(ctx)`: the live row with key `id` is
replaced by `f row`, unless the new `email` is carried by a row that the statement does
not touch (the `unique` column). -/
def updateUserWherePK (db : DB) (id : Nat) (f : UserRow → UserRow) : Except Err DB :=
  if db.users.any (fun r => (r.ID == id && r.DeletedAt.isNone) &&
      db.users.any (fun r2 => !(r2.ID == id && r2.DeletedAt.isNone) && r2.Email == (f r).Email))
  then .error .duplicateKey
  else
    .ok { db with
          users := db.users.map (fun r => if r.ID == id && r.DeletedAt.isNone then f r else r) }

end DB

/-! ## Layered implementation: users -/

namespace entity

/-- Function `entity.NewUser`. -/
def NewUser (name email hashedPassword : String) (now : Time) (fresh : uuid.UUID) :
    Except Err User :=
  if name = "" ∨ email = "" ∨ hashedPassword = "" then
    .error (.new "name, email, and password are required")
  else
    .ok
      { UUID := fresh
        Name := name
        Email := email
        Password := hashedPassword
        CreatedAt := now
        UpdatedAt := now }

/-- Method `(*entity.User).UpdateName`. -/
def User.UpdateName (u : User) (name : String) (now : Time) : Option Err × User :=
  if name = "" then (some (.new "name cannot be empty"), u)
  else (none, { u with Name := name, UpdatedAt := now })

/-- Method `(*entity.User).UpdateEmail`. -/
def User.UpdateEmail (u : User) (email : String) (now : Time) : Option Err × User :=
  if email = "" then (some (.new "email cannot be empty"), u)
  else (none, { u with Email := email, UpdatedAt := now })

end entity

namespace UserRepository

/-- Conversion of a row of `users` to the domain entity, as in `GetByUUID` and `GetByEmail`. -/
def toEntity (dbUser : UserRow) : entity.User :=
  { ID := dbUser.ID
    UUID := dbUser.UUID
    Name := dbUser.Name
    Email := dbUser.Email
    Password := dbUser.Password
    CreatedAt := dbUser.CreatedAt
    UpdatedAt := dbUser.UpdatedAt
    DeletedAt := dbUser.DeletedAt }

/-- Method `(*UserRepository).Create`: the columns uuid, name, email and password are
inserted; the entity gets the generated key. -/
def Create (db : DB) (now : Time) (user : entity.User) : Option Err × entity.User × DB :=
  match db.insertUser now
      { ID := 0, UUID := user.UUID, Name := user.Name, Email := user.Email,
        Password := user.Password, CreatedAt := 0, UpdatedAt := 0, DeletedAt := none } with
  | .error err => (some err, user, db)
  | .ok (db, dbUser) => (none, { user with ID := dbUser.ID }, db)

/-- Method `(*UserRepository).GetByEmail`. -/
def GetByEmail (db : DB) (email : String) : Except Err entity.User :=
  match db.scanUserByEmail email with
  | .error err => .error err
  | .ok dbUser => .ok (toEntity dbUser)

/-- Method `(*UserRepository).Update`. -/
def Update (db : DB) (user : entity.User) : Option Err × DB :=
  match db.updateUserWherePK user.ID (fun r =>
      { r with
        Name := user.Name
        Email := user.Email
        Password := user.Password
        UpdatedAt := user.UpdatedAt }) with
  | .error err => (some err, db)
  | .ok db => (none, db)

/-- Method `(*UserRepository).EmailExists`. -/
def EmailExists (db : DB) (email : String) : Except Err Bool :=
  .ok (db.existsUserEmail email)

end UserRepository

namespace UserService

/-- Method `(*UserService).CreateUser`. -/
def CreateUser (db : DB) (now : Time) (user : entity.User) : Option Err × entity.User × DB :=
  match UserRepository.EmailExists db user.Email with
  | .error err => (some err, user, db)
  | .ok isTaken =>
    if isTaken then (some (.new "email already registered"), user, db)
    else UserRepository.Create db now user

/-- Method `(*UserService).GetUserByEmail`. -/
def GetUserByEmail (db : DB) (email : String) : Except Err entity.User :=
  UserRepository.GetByEmail db email

/-- Method `(*UserService).UpdateUser`. -/
def UpdateUser (db : DB) (user : entity.User) : Option Err × DB :=
  match UserRepository.GetByUUID db user.UUID with
  | .error _ => (some (.new "user not found"), db)
  | .ok _ =>
    let taken : Bool :=
      if user.Email ≠ "" then
        match UserRepository.GetByEmail db user.Email with
        | .ok existingUser => existingUser.UUID != user.UUID
        | .error _ => false
      else false
    if taken then (some (.new "email already registered by another user"), db)
    else UserRepository.Update db user

end UserService

namespace dto

/-- Struct `dto.CreateUserRequest`. -/
structure CreateUserRequest where
  Name : String
  Email : String
  Password : String
  deriving DecidableEq, Repr

/-- Struct `dto.LoginRequest`. -/
structure LoginRequest where
  Email : String
  Password : String
  deriving DecidableEq, Repr

/-- Struct `dto.UserResponse`. -/
structure UserResponse where
  ID : uuid.UUID
  Name : String
  Email : String
  CreatedAt : Time
  UpdatedAt : Time
  DeletedAt : Option Time
  deriving DecidableEq, Repr

/-- Struct `dto.LoginResponse`. -/
structure LoginResponse where
  User : UserResponse
  Token : String
  deriving DecidableEq, Repr

end dto

namespace UserPresenter

/-- Method `(*UserPresenter).ToDTO` on a non-nil user. -/
def ToDTO (user : entity.User) : dto.UserResponse :=
  { ID := user.UUID
    Name := user.Name
    Email := user.Email
    CreatedAt := user.CreatedAt
    UpdatedAt := user.UpdatedAt
    DeletedAt := user.DeletedAt }

end UserPresenter

namespace usecase

/-- Interface `usecase.AuthService`: the token issuer and the password hasher / verifier. -/
structure AuthService where
  GenerateToken : uuid.UUID → Except Err String
  ValidatePassword : String → String → Bool
  HashPassword : String → Except Err String

/-- The part of `*email.EmailService` that the use case calls: `SendRegistrationEmail`,
which answers with its error; it holds no handle on the store. -/
structure EmailService where
  SendRegistrationEmail : String → String → Option Err

end usecase

namespace UserUseCase

/-- Method `(*UserUseCase).CreateUser`; `emailService` is `none` when `SetEmailService` was
not called. The registration email is sent from a goroutine whose result is dropped:
the second component of the result is what the sender answered, which nothing reads. -/
def CreateUser (authService : usecase.AuthService) (emailService : Option usecase.EmailService)
    (db : DB) (now : Time) (fresh : uuid.UUID) (req : dto.CreateUserRequest) :
    Except Err dto.UserResponse × DB :=
  match authService.HashPassword req.Password with
  | .error err => (.error err, db)
  | .ok hashedPassword =>
    match entity.NewUser req.Name req.Email hashedPassword now fresh with
    | .error err => (.error err, db)
    | .ok user =>
      match UserService.CreateUser db now user with
      | (some err, _, db) => (.error err, db)
      | (none, user, db) =>
        let _sent : Option Err :=
          match emailService with
          | some service => service.SendRegistrationEmail user.Email user.Name
          | none => none
        (.ok (UserPresenter.ToDTO user), db)

/-- Method `(*UserUseCase).Login`. -/
def Login (authService : usecase.AuthService) (db : DB) (req : dto.LoginRequest) :
    Except Err dto.LoginResponse :=
  match UserService.GetUserByEmail db req.Email with
  | .error _ => .error (.new "invalid email or password")
  | .ok user =>
    if !authService.ValidatePassword user.Password req.Password then
      .error (.new "invalid email or password")
    else
      match authService.GenerateToken user.UUID with
      | .error err => .error err
      | .ok token => .ok { User := UserPresenter.ToDTO user, Token := token }

/-- Method `(*UserUseCase).UpdateUser`. -/
def UpdateUser (db : DB) (now : Time) (userUUID : uuid.UUID) (req : dto.UserResponse) :
    Except Err dto.UserResponse × DB :=
  match UserService.GetUserByUUID db userUUID with
  | .error err => (.error err, db)
  | .ok user =>
    match (if req.Name ≠ "" then user.UpdateName req.Name now else (none, user)) with
    | (some err, _) => (.error err, db)
    | (none, user) =>
      match (if req.Email ≠ "" ∧ req.Email ≠ user.Email then user.UpdateEmail req.Email now
             else (none, user)) with
      | (some err, _) => (.error err, db)
      | (none, user) =>
        match UserService.UpdateUser db user with
        | (some err, db) => (.error err, db)
        | (none, db) => (.ok (UserPresenter.ToDTO user), db)

end UserUseCase

/-! ## Flat implementation: users -/

namespace helperFunc

/-- Function `helperFunc.HashPassword`; `bcryptGenerate` is `bcrypt.GenerateFromPassword`,
`none` when it fails. -/
def HashPassword (bcryptGenerate : String → Option String) (password : String) :
    Except Err String :=
  match bcryptGenerate password with
  | none => .error (.new "error hashing password")
  | some hashedPassword => .ok hashedPassword

/-- Function `helperFunc.VerifyPassword`; `bcryptCompare` is `bcrypt.CompareHashAndPassword`,
`true` when it returns no error. -/
def VerifyPassword (bcryptCompare : String → String → Bool)
    (hashedPassword inputPassword : String) : Option Err :=
  if bcryptCompare hashedPassword inputPassword then none
  else some (.new "Invalid email or password")

end helperFunc

namespace models

/-- Method `(*models.User).CreateUser`. -/
def User.CreateUser (bcryptGenerate : String → Option String) (db : DB) (now : Time)
    (fresh : uuid.UUID) (name email password : String) : Except Err UserRow × DB :=
  if name = "" ∨ email = "" ∨ password = "" then (.error (.new "all fields are required"), db)
  else
    match helperFunc.HashPassword bcryptGenerate password with
    | .error err => (.error (.new ("error hashing password: " ++ err.Error)), db)
    | .ok hashedPassword =>
      match db.scanUserByEmail email with
      | .ok _ => (.error (.new "email already registered"), db)
      | .error _ =>
        match db.insertUser now
            { ID := 0, UUID := fresh, Name := name, Email := email, Password := hashedPassword,
              CreatedAt := 0, UpdatedAt := 0, DeletedAt := none } with
        | .error err => (.error (.new ("failed to create user: " ++ err.Error)), db)
        | .ok (db, user) => (.ok user, db)

/-- Function `models.GetUserByEmail`. -/
def GetUserByEmail (db : DB) (email : String) : Except Err UserRow :=
  match db.scanUserByEmail email with
  | .error _ => .error (.new "invalid email or password")
  | .ok user => .ok user

end models

namespace schemas

/-- Struct `schemas.LoginRequest`. -/
structure LoginRequest where
  Email : String
  Password : String
  deriving DecidableEq, Repr

end schemas

namespace controllers

/-- What a user handler passes to `helperFunc.RespondJSON`: the status code, the error text

and, when the text is empty, the values under the keys "user" and "token". -/
structure UserAnswer where
  status : Nat
  errMsg : String
  user : Option UserRow
  token : Option String
  deriving DecidableEq, Repr

/-- Method `(*Users).Signup`; `val` is the value bound to the request context, `none` when
it is not a `*models.User`; `sendSignupEmail` is `helperFunc.SendSignupEmail`. -/
def Users.Signup (bcryptGenerate : String → Option String)
    (sendSignupEmail : String → String → Option Err)
    (db : DB) (now : Time) (fresh : uuid.UUID) (val : Option UserRow) : UserAnswer × DB :=
  match val with
  | none => ({ status := 400, errMsg := "Invalid request body", user := none, token := none }, db)
  | some userReq =>
    match models.User.CreateUser bcryptGenerate db now fresh
        userReq.Name userReq.Email userReq.Password with
    | (.error err, db) =>
      if err.Error = "email already registered" then
        ({ status := 409, errMsg := err.Error, user := none, token := none }, db)
      else ({ status := 500, errMsg := err.Error, user := none, token := none }, db)
    | (.ok user, db) =>
      match sendSignupEmail user.Name user.Email with
      | some _ =>
        ({ status := 500, errMsg := "Failed to send email", user := none, token := none }, db)
      | none => ({ status := 201, errMsg := "", user := some user, token := none }, db)

/-- Method `(*Users).Login`; `val` is the value bound to the request context, `none` when it
is not a `*schemas.LoginRequest`; `generateJWTToken` is `helperFunc.GenerateJWTToken` at
the expiry of `helperFunc.GetTokenExpiration`. -/
def Users.Login (bcryptCompare : String → String → Bool)
    (generateJWTToken : uuid.UUID → Except Err String)
    (db : DB) (val : Option schemas.LoginRequest) : UserAnswer :=

  match val with
  | none => { status := 400, errMsg := "Invalid request body", user := none, token := none }
  | some loginReq =>
    match models.GetUserByEmail db loginReq.Email with
    | .error _ =>
      { status := 401, errMsg := "Invalid email or password", user := none, token := none }
    | .ok user =>
      match helperFunc.VerifyPassword bcryptCompare user.Password loginReq.Password with
      | some _ =>
        { status := 401, errMsg := "Invalid email or password", user := none, token := none }
      | none =>
        match generateJWTToken user.UUID with
        | .error _ =>
          { status := 500, errMsg := "Failed to generate token", user := none, token := none }
        | .ok tokenString =>
          { status := 200, errMsg := "", user := some user, token := some tokenString }

end controllers

/-! ## Sequences of operations on stored tasks -/

/-- One call that writes to a stored task, by any requestor and with any arguments:
`TaskService.AssignTask`, `TaskService.CompleteTask`, `TaskRepository.Update`, and the flat
`Task.ValidateAndAssignTask` and `Task.Complete` on any in-memory task. -/
inductive TaskOp where
  | assign (taskUUID userUUID requestorUUID : uuid.UUID)
  | complete (now : Time) (taskUUID userUUID : uuid.UUID)
  | update (task : entity.Task)
  | legacyAssign (task : Option models.Task) (creatorUUID assignedUserUUID : uuid.UUID)
  | legacyComplete (task : models.Task) (userUUID : uuid.UUID)

/-- The store that a call leaves, whether it succeeds or fails. -/
def TaskOp.run : TaskOp → DB → DB
  | .assign taskUUID userUUID requestorUUID, db =>
    (TaskService.AssignTask db taskUUID userUUID requestorUUID).2
  | .complete now taskUUID userUUID, db => (TaskService.CompleteTask db now taskUUID userUUID).2
  | .update task, db => (TaskRepository.Update db task).2
  | .legacyAssign task creatorUUID assignedUserUUID, db =>
    (models.Task.ValidateAndAssignTask task db creatorUUID assignedUserUUID).2.2
  | .legacyComplete task userUUID, db => (models.Task.Complete task db userUUID).2.2

/-- The store after a sequence of calls, first call first. -/
def TaskOp.runAll (ops : List TaskOp) (db : DB) : DB :=
  ops.foldl (fun db op => op.run db) db

/-- Calls issued through the services and the flat methods: every call but a bare
`TaskRepository.Update`, which only `TaskService.CompleteTask` issues. -/
def TaskOp.viaServices : TaskOp → Bool
  | .update _ => false
  | _ => true

/-! ## Sequences of operations on stored users -/

/-- One call that writes to the stored users: `UserService.CreateUser`,
`UserService.UpdateUser` and `UserUseCase.UpdateUser`, with any arguments. -/
inductive UserOp where
  | create (now : Time) (user : entity.User)
  | update (user : entity.User)
  | updateProfile (now : Time) (userUUID : uuid.UUID) (req : dto.UserResponse)

/-- The store that a call leaves, whether it succeeds or fails. -/
def UserOp.run : UserOp → DB → DB
  | .create now user, db => (UserService.CreateUser db now user).2.2
  | .update user, db => (UserService.UpdateUser db user).2
  | .updateProfile now userUUID req, db => (UserUseCase.UpdateUser db now userUUID req).2

/-- The store after a sequence of calls, first call first. -/
def UserOp.runAll (ops : List UserOp) (db : DB) : DB :=
  ops.foldl (fun db op => op.run db) db


/-! ## Lists of tasks by primary assignee -/

/-- Query `NewSelect().Model(&tasks).Where("assigned_to_id = ?", u).
Order("created_at DESC").Scan(ctx)`: the rows of `tasks` that are not soft-deleted and
whose column `assigned_to_id` is `u`, newest first. Rows with equal `created_at`, whose
order the statement leaves open, keep the order of the table. -/
def DB.selectTasksAssignedTo (db : DB) (u : uuid.UUID) : List TaskRow :=
  (db.liveTasks.filter (fun r => r.AssignedToID == some u)).insertionSort
    (fun a b => b.CreatedAt ≤ a.CreatedAt)

/-- Method `(*TaskRepository).GetTasksAssignedToUser`: the selected rows with their
relations `Users`, `CreatedBy` and `AssignedTo`, converted field by field as in
`GetByUUID`. -/
def TaskRepository.GetTasksAssignedToUser (db : DB) (userUUID : uuid.UUID) :
    Except Err (List entity.Task) :=
  .ok ((db.selectTasksAssignedTo userUUID).map (fun row =>
    TaskRepository.toEntity
      { toTaskRow := row
        CreatedBy := db.relUser row.CreatedByID
        AssignedTo := row.AssignedToID.bind db.relUser
        Users := db.relUsers row.ID }))

/-- Method `(*TaskService).GetTasksAssignedToUser`. -/
def TaskService.GetTasksAssignedToUser (db : DB) (userUUID : uuid.UUID) :
    Except Err (List entity.Task) :=
  TaskRepository.GetTasksAssignedToUser db userUUID

/-- Function `models.GetTasksAssignedToUser`. -/
def models.GetTasksAssignedToUser (db : DB) (userUUID : uuid.UUID) :
    Except Err (List models.Task) :=
  if userUUID = 0 then .error (.new "invalid user UUID")
  else
    .ok ((db.selectTasksAssignedTo userUUID).map (fun row =>
      { toTaskRow := row
        CreatedBy := db.relUser row.CreatedByID
        AssignedTo := row.AssignedToID.bind db.relUser
        Users := db.relUsers row.ID }))


/-! ## Layered implementation: the task service over the repository interfaces -/

/-- Function `errors.Is`: the error or one of the errors it wraps is the target. Errors
are compared by content here, where Go compares `errors.New` values by identity; two
errors that differ here differ in Go. -/
def Err.Is : Err → Err → Bool
  | .wrapf msg inner, target => Err.wrapf msg inner == target || inner.Is target
  | err, target => err == target

namespace repository

/-- Interface `repository.TaskRepository`, the methods that the task service calls, over
a store of type `σ`: a method takes the store and returns what it answers and, when it
writes, the store it leaves. -/
structure TaskRepository (σ : Type) where
  Create : σ → entity.Task → Option Err × entity.Task × σ
  GetByUUID : σ → uuid.UUID → Except Err entity.Task
  Update : σ → entity.Task → Option Err × σ
  Delete : σ → uuid.UUID → Option Err × σ
  AssignTaskToUser : σ → uuid.UUID → uuid.UUID → Option Err × σ

/-- Interface `repository.UserRepository`, the method that the task service calls. -/
structure UserRepository (σ : Type) where
  GetByUUID : σ → uuid.UUID → Except Err entity.User

end repository

namespace service

/-- Struct `service.TaskService`: the two repositories behind their interfaces. -/
structure TaskService (σ : Type) where
  taskRepo : repository.TaskRepository σ
  userRepo : repository.UserRepository σ

/-- Method `(*TaskService).CreateTask`, for any repositories. -/
def TaskService.CreateTask {σ : Type} (s : TaskService σ) (st : σ) (task : entity.Task) :
    Option Err × entity.Task × σ :=
  match s.userRepo.GetByUUID st task.CreatedByID with
  | .error _ => (some (.new "creator not found"), task, st)
  | .ok creator => s.taskRepo.Create st { task with CreatedBy := some creator }

/-- Method `(*TaskService).AssignTask`, for any repositories. -/
def TaskService.AssignTask {σ : Type} (s : TaskService σ) (st : σ)
    (taskUUID userUUID requestorUUID : uuid.UUID) : Option Err × σ :=
  match s.taskRepo.GetByUUID st taskUUID with
  | .error _ => (some (.new "task not found"), st)
  | .ok task =>
    if task.CreatedByID ≠ requestorUUID then
      (some (.new "only the task creator can assign users"), st)
    else
      match s.userRepo.GetByUUID st userUUID with
      | .error _ => (some (.new "user not found"), st)
      | .ok _ => s.taskRepo.AssignTaskToUser st taskUUID userUUID

/-- Method `(*TaskService).CompleteTask`, for any repositories. -/
def TaskService.CompleteTask {σ : Type} (s : TaskService σ) (st : σ) (now : Time)
    (taskUUID userUUID : uuid.UUID) : Option Err × σ :=
  match s.taskRepo.GetByUUID st taskUUID with
  | .error _ => (some (.new "task not found"), st)
  | .ok task =>
    if !task.CanBeModifiedBy userUUID then
      (some (.new "you are not authorized to complete this task"), st)
    else
      match task.Complete now with
      | (some err, _) => (some err, st)
      | (none, task) => s.taskRepo.Update st task

/-- Method `(*TaskService).DeleteTask`, for any repositories. -/
def TaskService.DeleteTask {σ : Type} (s : TaskService σ) (st : σ) (taskUUID userUUID : uuid.UUID) :
    Option Err × σ :=
  match s.taskRepo.GetByUUID st taskUUID with
  | .error _ => (some (.new "task not found"), st)
  | .ok task =>
    if task.CreatedByID ≠ userUUID then
      (some (.new "only the task creator can delete the task"), st)
    else s.taskRepo.Delete st taskUUID

/-- The service that `NewTaskService` builds on the two bun repositories of this
development; `now` is the clock that the insert and the soft delete read. -/
def bunTaskService (now : Time) : TaskService DB :=
  { taskRepo :=
      { Create := fun db task => TaskApp.TaskRepository.Create db now task
        GetByUUID := TaskApp.TaskRepository.GetByUUID
        Update := TaskApp.TaskRepository.Update
        Delete := fun db u => TaskApp.TaskRepository.Delete db now u
        AssignTaskToUser := TaskApp.TaskRepository.AssignTaskToUser }
    userRepo := { GetByUUID := TaskApp.UserRepository.GetByUUID } }

end service


/-! ## Two registrations that run concurrently -/

/-- Where a `CreateUser` request stands: before its lookup by email, between the lookup
and the insert (with the password hash it is about to store), or finished with the error
it returns (`none` on success). -/
inductive CreateUserPC where
  | start
  | checked (hashedPassword : String)
  | done (err : Option Err)
  deriving DecidableEq, Repr

/-- One `CreateUser` request: `UserService.CreateUser` with its arguments, or the flat
`User.CreateUser` with its arguments. -/
inductive CreateUserCall where
  | layered (now : Time) (user : entity.User)
  | flat (bcryptGenerate : String → Option String) (now : Time) (fresh : uuid.UUID)
      (name email password : String)

/-- The email that the request registers. -/
def CreateUserCall.email : CreateUserCall → String
  | .layered _ user => user.Email
  | .flat _ _ _ _ email _ => email

/-- One statement of a request on the store; each of the two statements, the lookup and
the insert, is atomic, and the code around them does not touch the store.
`UserService.CreateUser`: `EmailExists`, then `Create`. Flat `User.CreateUser`: the
checks on the fields and the hashing, then the select by email; then the insert. -/
def CreateUserCall.step : CreateUserCall → DB → CreateUserPC → DB × CreateUserPC
  | _, db, .done err => (db, .done err)
  | .layered _ user, db, .start =>
    match UserRepository.EmailExists db user.Email with
    | .error err => (db, .done (some err))
    | .ok isTaken =>
      if isTaken then (db, .done (some (.new "email already registered")))
      else (db, .checked user.Password)
  | .layered now user, db, .checked _ =>
    match UserRepository.Create db now user with
    | (err, _, db) => (db, .done err)
  | .flat bcryptGenerate _ _ name email password, db, .start =>
    if name = "" ∨ email = "" ∨ password = "" then
      (db, .done (some (.new "all fields are required")))
    else
      match helperFunc.HashPassword bcryptGenerate password with
      | .error err => (db, .done (some (.new ("error hashing password: " ++ err.Error))))
      | .ok hashedPassword =>
        match db.scanUserByEmail email with
        | .ok _ => (db, .done (some (.new "email already registered")))
        | .error _ => (db, .checked hashedPassword)
  | .flat _ now fresh name email _, db, .checked hashedPassword =>
    match db.insertUser now
        { ID := 0, UUID := fresh, Name := name, Email := email, Password := hashedPassword,
          CreatedAt := 0, UpdatedAt := 0, DeletedAt := none } with
    | .error err => (db, .done (some (.new ("failed to create user: " ++ err.Error))))
    | .ok (db, _) => (db, .done none)

/-- State of two requests that share the store. -/
structure Race where
  db : DB
  first : CreateUserPC
  second : CreateUserPC
  deriving DecidableEq, Repr

/-- One turn: the scheduler lets the first request (`true`) or the second (`false`) run
its next statement. -/
def Race.turn (a b : CreateUserCall) (s : Race) (who : Bool) : Race :=
  if who then
    let (db, pc) := a.step s.db s.first
    { s with db := db, first := pc }
  else
    let (db, pc) := b.step s.db s.second
    { s with db := db, second := pc }

/-- The two requests under a schedule, from the store `db`. -/
def Race.run (a b : CreateUserCall) (db : DB) (schedule : List Bool) : Race :=
  schedule.foldl (Race.turn a b) { db := db, first := .start, second := .start }

/-- Whether a request has finished without error. -/
def CreateUserPC.succeeded : CreateUserPC → Bool
  | .done none => true
  | _ => false


/-! ## Layered implementation: what the user use case returns -/

namespace dto

/-- Struct `dto.UsersResponse`. -/
structure UsersResponse where
  Users : List UserResponse
  deriving DecidableEq, Repr

end dto

namespace UserPresenter

/-- Method `(*UserPresenter).ToSummary` on a non-nil user. -/
def ToSummary (user : entity.User) : dto.UserSummary :=
  { ID := user.UUID, Name := user.Name, Email := user.Email }

/-- Method `(*UserPresenter).ToDTOList`; the `nil` slice and the empty slice both give the
empty list. -/
def ToDTOList (users : List entity.User) : dto.UsersResponse :=
  { Users := users.map ToDTO }

end UserPresenter

/-- Method `(*UserRepository).GetAll`: the rows that are not soft-deleted, in the order
of the table (the statement has no `ORDER BY`). -/
def UserRepository.GetAll (db : DB) : Except Err (List entity.User) :=
  .ok (db.liveUsers.map UserRepository.toEntity)

/-- Method `(*UserService).GetAllUsers`. -/
def UserService.GetAllUsers (db : DB) : Except Err (List entity.User) :=
  UserRepository.GetAll db

/-- Method `(*UserUseCase).GetUserByUUID`. -/
def UserUseCase.GetUserByUUID (db : DB) (userUUID : uuid.UUID) : Except Err dto.UserResponse :=
  match UserService.GetUserByUUID db userUUID with
  | .error err => .error err
  | .ok user => .ok (UserPresenter.ToDTO user)

/-- Method `(*UserUseCase).GetAllUsers`. -/
def UserUseCase.GetAllUsers (db : DB) : Except Err dto.UsersResponse :=
  match UserService.GetAllUsers db with
  | .error err => .error err
  | .ok users => .ok (UserPresenter.ToDTOList users)

/-! ## Sequences of public workflow operations -/

/-- One public workflow operation, with any arguments: a registration
(`UserService.CreateUser`, flat `User.CreateUser`), a task creation with or without
assignees (`TaskUseCase.CreateTask`, the flat handler `Tasks.CreateTask`), an assignment
(`TaskService.AssignTask`, flat `Task.ValidateAndAssignTask`) or a completion
(`TaskService.CompleteTask`, flat `Task.Complete`). -/
inductive WorkflowOp where
  | createUser (now : Time) (user : entity.User)
  | legacyCreateUser (bcryptGenerate : String → Option String) (now : Time)
      (fresh : uuid.UUID) (name email password : String)
  | createTask (parse : String → Option uuid.UUID) (now : Time) (fresh : uuid.UUID)
      (req : dto.CreateTaskRequest) (creatorUUID : uuid.UUID)
  | legacyCreateTask (now : Time) (fresh userUUID : uuid.UUID)
      (val : Option schemas.CreateTaskRequest)
  | assign (taskUUID userUUID requestorUUID : uuid.UUID)
  | legacyAssign (task : Option models.Task) (creatorUUID assignedUserUUID : uuid.UUID)
  | complete (now : Time) (taskUUID userUUID : uuid.UUID)
  | legacyComplete (task : models.Task) (userUUID : uuid.UUID)

/-- The store that an operation leaves, whether it succeeds or fails. -/
def WorkflowOp.run : WorkflowOp → DB → DB
  | .createUser now user, db => (UserService.CreateUser db now user).2.2
  | .legacyCreateUser bcryptGenerate now fresh name email password, db =>
    (models.User.CreateUser bcryptGenerate db now fresh name email password).2
  | .createTask parse now fresh req creatorUUID, db =>
    (TaskUseCase.CreateTask parse db now fresh req creatorUUID).2
  | .legacyCreateTask now fresh userUUID val, db =>
    (controllers.Tasks.CreateTask db now fresh userUUID val).2
  | .assign taskUUID userUUID requestorUUID, db =>
    (TaskService.AssignTask db taskUUID userUUID requestorUUID).2
  | .legacyAssign task creatorUUID assignedUserUUID, db =>
    (models.Task.ValidateAndAssignTask task db creatorUUID assignedUserUUID).2.2
  | .complete now taskUUID userUUID, db => (TaskService.CompleteTask db now taskUUID userUUID).2
  | .legacyComplete task userUUID, db => (models.Task.Complete task db userUUID).2.2

/-- The store after a sequence of operations, first operation first. -/
def WorkflowOp.runAll (ops : List WorkflowOp) (db : DB) : DB :=
  ops.foldl (fun db op => op.run db) db

/-- The empty store. -/
def DB.empty : DB :=
  { users := [], tasks := [], user_tasks := [] }

/-- The primary assignee of every task is in its assignment set: a row of `tasks` whose
`assigned_to_id` is set has a row in `user_tasks` that joins it to a user, not
soft-deleted, with that identifier. -/
def DB.PrimaryAssigned (db : DB) : Prop :=
  ∀ row ∈ db.tasks, ∀ u, row.AssignedToID = some u →
    ∃ urow ∈ db.liveUsers, urow.UUID = u ∧
      ∃ ut ∈ db.user_tasks, ut.TaskID = row.ID ∧ ut.UserID = urow.ID

/-! ## Integrity conditions of the store -/

/-- Primary key of `users`: no two rows share `id`. -/
def DB.UsersPK (db : DB) : Prop :=
  (db.users.map (fun u => u.ID)).Nodup

/-- Every row of `user_tasks` refers to a row of `tasks`. -/
def DB.UserTasksRefTasks (db : DB) : Prop :=
  ∀ ut ∈ db.user_tasks, ∃ t ∈ db.tasks, t.ID = ut.TaskID

/-- Primary key of `tasks`: no two rows share `id`. -/
def DB.TasksPK (db : DB) : Prop :=
  (db.tasks.map (fun t => t.ID)).Nodup

/-- No two rows of `tasks` share `uuid` (the identifiers come from `uuid.New`). -/
def DB.TaskUUIDsUnique (db : DB) : Prop :=
  (db.tasks.map (fun t => t.UUID)).Nodup

/-- What a write leaves of a stored task, row by row: the new row `r'` has the key, the
identifier, the creator and the soft-delete mark of the old row `r`; with `oneWay` set, a
completed flag that was raised is still raised. -/
def TaskRow.Kept (oneWay : Bool) (r r' : TaskRow) : Prop :=
  r'.ID = r.ID ∧ r'.UUID = r.UUID ∧ r'.CreatedByID = r.CreatedByID
    ∧ r'.DeletedAt = r.DeletedAt ∧ (oneWay = true → r.Completed = true → r'.Completed = true)

/-- No two rows of `users` that are not soft-deleted share `email`. -/

def DB.EmailUnique (db : DB) : Prop :=
  (db.liveUsers.map (fun u => u.Email)).Nodup


/-! ## Sample store -/

namespace Sample

/-- User alice, key 1. -/
def alice : UserRow :=
  { ID := 1, UUID := 101, Name := "alice", Email := "alice@example.com", Password := "h-a",
    CreatedAt := 10, UpdatedAt := 10, DeletedAt := none }

/-- User bob, key 2. -/
def bob : UserRow :=
  { ID := 2, UUID := 102, Name := "bob", Email := "bob@example.com", Password := "h-b",
    CreatedAt := 11, UpdatedAt := 11, DeletedAt := none }

/-- User carol, key 3. -/
def carol : UserRow :=
  { ID := 3, UUID := 103, Name := "carol", Email := "carol@example.com", Password := "h-c",
    CreatedAt := 12, UpdatedAt := 12, DeletedAt := none }

/-- Open task created by alice, bob assigned and primary assignee. -/
def taskT : TaskRow :=
  { ID := 1, UUID := 201, Title := "T", Description := "d", Completed := false,
    CreatedAt := 20, UpdatedAt := 20, DeletedAt := none,
    CreatedByID := 101, AssignedToID := some 102 }

/-- Completed task created by alice, bob assigned and primary assignee. -/
def taskDone : TaskRow :=
  { ID := 2, UUID := 202, Title := "done", Description := "", Completed := true,
    CreatedAt := 21, UpdatedAt := 22, DeletedAt := none,
    CreatedByID := 101, AssignedToID := some 102 }

/-- Store with three users and two tasks, bob assigned to both. -/
def db : DB :=
  { users := [alice, bob, carol]
    tasks := [taskT, taskDone]
    user_tasks := [{ TaskID := 1, UserID := 2 }, { TaskID := 2, UserID := 2 }] }

/-- Reading of `uuid.Parse` on the texts used below: the identifiers 101 to 104 are
well formed, every other text is malformed. -/
def parse (s : String) : Option uuid.UUID :=
  if s = "101" then some 101
  else if s = "102" then some 102
  else if s = "103" then some 103
  else if s = "104" then some 104
  else none

/-- The store `db` after alice has assigned carol to task 201. -/
def dbCarolAssigned : DB :=
  { users := [alice, bob, carol]
    tasks := [{ taskT with AssignedToID := some 103 }, taskDone]
    user_tasks := [{ TaskID := 1, UserID := 2 }, { TaskID := 2, UserID := 2 },
                   { TaskID := 1, UserID := 3 }] }

/-- Stand-in for `bcrypt.GenerateFromPassword`: fails on the empty input only. -/
def bcryptGenerate (password : String) : Option String :=
  if password = "" then none else some ("h-" ++ password)

/-- Stand-in for `bcrypt.CompareHashAndPassword`, matching `bcryptGenerate`. -/
def bcryptCompare (hashedPassword password : String) : Bool :=
  hashedPassword == "h-" ++ password

/-- Store whose only user, alice, is soft-deleted. -/
def aliceDeleted : DB :=
  { users := [{ alice with DeletedAt := some 15 }], tasks := [], user_tasks := [] }

/-- Stand-in for the token issuer: mints the text "tok-" followed by the identifier. -/
def mint (userUUID : uuid.UUID) : Except Err String :=
  .ok ("tok-" ++ toString userUUID)

/-- An `AuthService` made of the stand-ins. -/
def authService : usecase.AuthService :=
  { GenerateToken := mint
    ValidatePassword := bcryptCompare
    HashPassword := fun password =>
      match bcryptGenerate password with
      | some hashedPassword => .ok hashedPassword
      | none => .error (.new "bcrypt: password length invalid") }

/-- Store with the three users only. -/
def usersOnly : DB :=
  { users := [alice, bob, carol], tasks := [], user_tasks := [] }

/-- A task repository whose store is out of reach: every method answers `failure`. The
store type is `Unit`. -/
def failingTaskRepository (failure : Err) : repository.TaskRepository Unit :=
  { Create := fun st task => (some failure, task, st)
    GetByUUID := fun _ _ => .error failure
    Update := fun st _ => (some failure, st)
    Delete := fun st _ => (some failure, st)
    AssignTaskToUser := fun st _ _ => (some failure, st) }

/-- A user repository whose store is out of reach. -/
def failingUserRepository (failure : Err) : repository.UserRepository Unit :=
  { GetByUUID := fun _ _ => .error failure }

end Sample

/-! ## Shared lemmas on the queries -/

theorem GetByUUID_ok_row {db : DB} {u : uuid.UUID} {t : entity.Task}
    (h : TaskRepository.GetByUUID db u = .ok t) :
    ∃ row, db.scanTaskByUUID u = .ok row ∧
      t = TaskRepository.toEntity
        { toTaskRow := row
          CreatedBy := db.relUser row.CreatedByID
          AssignedTo := row.AssignedToID.bind db.relUser
          Users := db.relUsers row.ID } := by
  unfold TaskRepository.GetByUUID DB.scanTaskWithRelations at h
  cases hrow : db.scanTaskByUUID u with
  | error e => simp [hrow] at h
  | ok row =>
    simp only [hrow, Except.ok.injEq] at h
    exact ⟨row, rfl, h.symm⟩

theorem FetchTaskByUUID_ok_row {db : DB} {u : uuid.UUID} {lt : models.Task}
    (h : models.FetchTaskByUUID db u = .ok lt) :
    ∃ row, db.scanTaskByUUID u = .ok row ∧
      lt =
        { toTaskRow := row
          CreatedBy := db.relUser row.CreatedByID
          AssignedTo := row.AssignedToID.bind db.relUser
          Users := db.relUsers row.ID } := by
  unfold models.FetchTaskByUUID at h
  cases hrow : db.scanTaskByUUID u with
  | error e => simp [hrow] at h
  | ok row =>
    simp only [hrow, Except.ok.injEq] at h
    exact ⟨row, rfl, h.symm⟩

theorem find?_map_update {α : Type} (p : α → Bool) (g : α → α) (a : α) (l : List α)
    (h : l.find? p = some a)
    (hg : ∀ x ∈ l, p (g x) = true → p x = true ∨ g x = g a)
    (ha : p (g a) = true) : (l.map g).find? p = some (g a) := by
  induction l with
  | nil => simp at h
  | cons x xs ih =>
    by_cases hx : p x = true
    · have hxa : x = a := by simpa [List.find?, hx] using h
      subst hxa
      simp [List.find?, ha]
    · have hrest : xs.find? p = some a := by simpa [List.find?, hx] using h
      by_cases hgx : p (g x) = true
      · rcases hg x (List.mem_cons_self _ _) hgx with h1 | h1
        · exact absurd h1 hx
        · rw [List.map_cons, List.find?_cons, hgx, h1]
      · have := ih hrest (fun y hy => hg y (List.mem_cons_of_mem _ hy))
        simpa [List.find?, hgx] using this

theorem scanTaskByUUID_ok_iff {db : DB} {u : uuid.UUID} {row : TaskRow} :
    db.scanTaskByUUID u = .ok row ↔
      db.tasks.find? (fun r => r.DeletedAt.isNone && r.UUID == u) = some row := by
  unfold DB.scanTaskByUUID DB.liveTasks
  rw [List.find?_filter]
  simp only [Bool.decide_and, Bool.decide_eq_true]
  cases h : db.tasks.find? (fun r => r.DeletedAt.isNone && r.UUID == u) with
  | none => simp
  | some r => simp

theorem scanTaskByUUID_props {db : DB} {u : uuid.UUID} {row : TaskRow}
    (h : db.scanTaskByUUID u = .ok row) :
    row.DeletedAt = none ∧ row.UUID = u ∧ row ∈ db.tasks := by
  rw [scanTaskByUUID_ok_iff] at h
  have h1 := List.find?_some h
  have h2 := List.mem_of_find?_eq_some h
  simp only [Bool.and_eq_true, Option.isNone_iff_eq_none, beq_iff_eq] at h1
  exact ⟨h1.1, h1.2, h2⟩

theorem scanUserByUUID_props {db : DB} {u : uuid.UUID} {row : UserRow}
    (h : db.scanUserByUUID u = .ok row) :
    row.DeletedAt = none ∧ row.UUID = u ∧ row ∈ db.users ∧ row ∈ db.liveUsers := by
  unfold DB.scanUserByUUID at h
  cases hf : db.liveUsers.find? (fun r => r.UUID == u) with
  | none => simp [hf] at h
  | some r =>
    simp only [hf, Except.ok.injEq] at h
    subst h
    have h1 := List.find?_some hf
    have h2 := List.mem_of_find?_eq_some hf
    have h3 := h2
    simp only [DB.liveUsers, List.mem_filter, Option.isNone_iff_eq_none] at h3
    simp only [beq_iff_eq] at h1
    exact ⟨h3.2, h1, h3.1, h2⟩

/-- Scan after an update of the row that the scan returns: the row is found updated,
when the updated row still matches and every other row with its key turns into a match
only if it was one or becomes the same row. -/
theorem scanTaskByUUID_update {db : DB} {u : uuid.UUID} {row : TaskRow} (f : TaskRow → TaskRow)
    (h : db.scanTaskByUUID u = .ok row)
    (ha : (f row).DeletedAt = none ∧ (f row).UUID = u)
    (hf : ∀ r ∈ db.tasks, r.ID = row.ID → r.DeletedAt = none →
      (f r).DeletedAt = none → (f r).UUID = u → (r.UUID = u ∨ f r = f row)) :
    (db.updateTaskWherePK row.ID f).scanTaskByUUID u = .ok (f row) := by
  obtain ⟨hlive, huuid, hmem⟩ := scanTaskByUUID_props h
  rw [scanTaskByUUID_ok_iff] at h ⊢
  have key := find?_map_update (fun r : TaskRow => r.DeletedAt.isNone && r.UUID == u)
    (fun r => if r.ID == row.ID && r.DeletedAt.isNone then f r else r) row db.tasks h
  have hgrow : (if row.ID == row.ID && row.DeletedAt.isNone then f row else row) = f row := by
    simp [hlive]
  beta_reduce at key
  rw [hgrow] at key
  show List.find? _ (List.map
    (fun r => if (r.ID == row.ID && r.DeletedAt.isNone) = true then f r else r) db.tasks)
      = some (f row)
  apply key
  · intro x hx hpx
    by_cases hc : (x.ID == row.ID && x.DeletedAt.isNone) = true
    · simp only [hc, if_true] at hpx ⊢
      simp only [Bool.and_eq_true, beq_iff_eq, Option.isNone_iff_eq_none] at hc hpx
      rcases hf x hx hc.1 hc.2 hpx.1 hpx.2 with h1 | h1
      · left; simp [hc.2, h1]
      · right; exact h1
    · simp only [hc] at hpx ⊢
      left; simpa using hpx
  · simp [ha.1, ha.2]

theorem relUsers_updateTask (db : DB) (id : Nat) (f : TaskRow → TaskRow) (k : Nat) :
    (db.updateTaskWherePK id f).relUsers k = db.relUsers k := rfl

theorem relUser_updateTask (db : DB) (id : Nat) (f : TaskRow → TaskRow) (u : uuid.UUID) :
    (db.updateTaskWherePK id f).relUser u = db.relUser u := rfl

theorem filter_key_eq_singleton {α : Type} (f : α → Nat) (l : List α) (a : α)
    (hnd : (l.map f).Nodup) (ha : a ∈ l) : l.filter (fun x => f x == f a) = [a] := by
  induction l with
  | nil => simp at ha
  | cons x xs ih =>
    rw [List.map_cons, List.nodup_cons] at hnd
    rcases List.mem_cons.mp ha with hax | hax
    · subst hax
      have hnone : xs.filter (fun x => f x == f a) = [] := by
        rw [List.filter_eq_nil_iff]
        intro y hy hfy
        exact hnd.1 (by rw [← beq_iff_eq.mp hfy]; exact List.mem_map_of_mem f hy)
      simp [List.filter_cons, hnone]
    · have hne : ¬ f x = f a := fun h => hnd.1 (by rw [h]; exact List.mem_map_of_mem f hax)
      simp [List.filter_cons, hne, ih hnd.2 hax]

theorem liveUsers_filter_ID {db : DB} (hpk : db.UsersPK) {urow : UserRow}
    (h : urow ∈ db.liveUsers) : db.liveUsers.filter (fun u => u.ID == urow.ID) = [urow] := by
  apply filter_key_eq_singleton (fun u : UserRow => u.ID) db.liveUsers urow _ h
  exact List.Nodup.sublist ((List.filter_sublist db.users).map _) hpk

theorem relUsers_insert (db : DB) (ut : UserTask) (k : Nat) :
    DB.relUsers { db with user_tasks := db.user_tasks ++ [ut] } k
      = db.relUsers k ++
        (if ut.TaskID = k then db.liveUsers.filter (fun u => u.ID == ut.UserID) else []) := by
  unfold DB.relUsers DB.liveUsers
  by_cases h : ut.TaskID = k
  · simp [List.filter_append, List.filter_cons, h]
  · simp [List.filter_append, List.filter_cons, h]

/-- A user found by the scan and not among the loaded `Users` has no row in `user_tasks`
for the task. -/
theorem not_exists_of_not_rel {db : DB} {k : Nat} {u : uuid.UUID} {urow : UserRow}
    (hu : db.scanUserByUUID u = .ok urow) (hnot : ∀ x ∈ db.relUsers k, x.UUID ≠ u) :
    ∀ ut ∈ db.user_tasks, ¬ (ut.TaskID = k ∧ ut.UserID = urow.ID) := by
  obtain ⟨_, huu, _, hlive⟩ := scanUserByUUID_props hu
  rintro ut hut ⟨h1, h2⟩
  apply hnot urow _ huu
  unfold DB.relUsers
  simp only [List.mem_flatMap, List.mem_filter, beq_iff_eq]
  exact ⟨ut, ⟨hut, h1⟩, hlive, h2.symm⟩

theorem insertUserTask_ok {db : DB} {ut : UserTask}
    (h : ∀ r ∈ db.user_tasks, ¬ (r.TaskID = ut.TaskID ∧ r.UserID = ut.UserID)) :
    db.insertUserTask ut = .ok { db with user_tasks := db.user_tasks ++ [ut] } := by
  unfold DB.insertUserTask
  have : db.user_tasks.any (fun r => r.sameKey ut) = false := by
    rw [List.any_eq_false]
    intro r hr
    simpa [UserTask.sameKey] using h r hr
  simp [this]

theorem existsUserTask_false {db : DB} {k uid : Nat}
    (h : ∀ r ∈ db.user_tasks, ¬ (r.TaskID = k ∧ r.UserID = uid)) :
    db.existsUserTask k uid = false := by
  unfold DB.existsUserTask
  rw [List.any_eq_false]
  intro r hr
  simpa using h r hr

theorem relUser_of_scan {db : DB} {u : uuid.UUID} {urow : UserRow}
    (hu : db.scanUserByUUID u = .ok urow) : db.relUser u = some urow := by
  unfold DB.scanUserByUUID at hu
  unfold DB.relUser
  cases hf : db.liveUsers.find? (fun r => r.UUID == u) with
  | none => simp [hf] at hu
  | some r => simpa [hf] using hu

theorem UserRepository_GetByUUID_ok {db : DB} {u : uuid.UUID} {user : entity.User}
    (h : UserRepository.GetByUUID db u = .ok user) :
    ∃ urow, db.scanUserByUUID u = .ok urow ∧ user.ID = urow.ID ∧ user.UUID = urow.UUID
      ∧ user.Name = urow.Name ∧ user.Email = urow.Email := by
  unfold UserRepository.GetByUUID at h
  cases hs : db.scanUserByUUID u with
  | error e => simp [hs] at h
  | ok urow =>
    simp only [hs, Except.ok.injEq] at h
    subst h
    exact ⟨urow, rfl, rfl, rfl, rfl, rfl⟩

/-! ## C1: assignment by a requestor who is not the creator -/

/-- C1. For a stored task (returned by `GetByUUID` / `FetchTaskByUUID`), any user and any
requestor other than the creator, `TaskService.AssignTask` and the flat
`Task.ValidateAndAssignTask` fail with their authorization error and leave the store
(hence the assignment set and the primary-assignee pointer) and the in-memory task
as they were; nothing is assumed about the user to assign. -/
theorem C1_assign_by_non_creator_is_forbidden (db : DB)
    (taskUUID userUUID requestor : uuid.UUID) (t : entity.Task) (lt : models.Task)
    (ht : TaskRepository.GetByUUID db taskUUID = .ok t)
    (hlt : models.FetchTaskByUUID db taskUUID = .ok lt)
    (hr : requestor ≠ t.CreatedByID) :
    TaskService.AssignTask db taskUUID userUUID requestor
        = (some (.new "only the task creator can assign users"), db)
      ∧ models.Task.ValidateAndAssignTask (some lt) db requestor userUUID
        = (some (.new "unauthorized: only the task creator can assign users"), some lt, db) := by
  obtain ⟨row, hrow, rfl⟩ := GetByUUID_ok_row ht
  obtain ⟨row2, hrow2, rfl⟩ := FetchTaskByUUID_ok_row hlt
  have hrr : row2 = row := by
    rw [hrow] at hrow2
    exact (Except.ok.inj hrow2).symm
  subst hrr
  have hne : ¬ row2.CreatedByID = requestor := fun h => hr (by simp [TaskRepository.toEntity, h])
  constructor
  · simp [TaskService.AssignTask, ht, TaskRepository.toEntity, hne]
  · simp [models.Task.ValidateAndAssignTask, hne]

/-- Witness of C1 on the sample store: carol is not the creator of task 201. -/
theorem C1_assign_by_non_creator_is_forbidden_witness :
    TaskService.AssignTask Sample.db 201 102 103
        = (some (.new "only the task creator can assign users"), Sample.db)
      ∧ models.Task.ValidateAndAssignTask
          (some { toTaskRow := Sample.taskT, CreatedBy := some Sample.alice,
                  AssignedTo := some Sample.bob, Users := [Sample.bob] })
          Sample.db 103 102
        = (some (.new "unauthorized: only the task creator can assign users"),
            some { toTaskRow := Sample.taskT, CreatedBy := some Sample.alice,
                   AssignedTo := some Sample.bob, Users := [Sample.bob] },
            Sample.db) :=
  C1_assign_by_non_creator_is_forbidden Sample.db 201 102 103
    (TaskRepository.toEntity
      { toTaskRow := Sample.taskT, CreatedBy := some Sample.alice,
        AssignedTo := some Sample.bob, Users := [Sample.bob] })
    { toTaskRow := Sample.taskT, CreatedBy := some Sample.alice,
      AssignedTo := some Sample.bob, Users := [Sample.bob] }
    rfl rfl (by decide)

/-! ## C2: deletion by a requestor who is not the creator -/

/-- C2. For a stored task and any requestor other than the creator,
`TaskService.DeleteTask` and the flat `Task.DeleteTask` fail with their authorization
error, the store is left as it was, and the task is returned unchanged by
`GetByUUID` / `FetchTaskByUUID` afterwards. -/
theorem C2_delete_by_non_creator_is_forbidden (db : DB) (now : Time)
    (taskUUID requestor : uuid.UUID) (t : entity.Task) (lt : models.Task)
    (ht : TaskRepository.GetByUUID db taskUUID = .ok t)
    (hlt : models.FetchTaskByUUID db taskUUID = .ok lt)
    (hr : requestor ≠ t.CreatedByID) :
    TaskService.DeleteTask db now taskUUID requestor
        = (some (.new "only the task creator can delete the task"), db)
      ∧ TaskRepository.GetByUUID (TaskService.DeleteTask db now taskUUID requestor).2 taskUUID
        = .ok t
      ∧ models.Task.DeleteTask lt db now requestor
        = (some (.new "unauthorized: you can only delete your own tasks"), db)
      ∧ models.FetchTaskByUUID (models.Task.DeleteTask lt db now requestor).2 taskUUID
        = .ok lt := by
  obtain ⟨row, hrow, rfl⟩ := GetByUUID_ok_row ht
  obtain ⟨row2, hrow2, rfl⟩ := FetchTaskByUUID_ok_row hlt
  have hrr : row2 = row := by
    rw [hrow] at hrow2
    exact (Except.ok.inj hrow2).symm
  subst hrr
  have hne : ¬ row2.CreatedByID = requestor := fun h => hr (by simp [TaskRepository.toEntity, h])
  have h1 : TaskService.DeleteTask db now taskUUID requestor
      = (some (.new "only the task creator can delete the task"), db) := by
    simp [TaskService.DeleteTask, ht, TaskRepository.toEntity, hne]
  have h2 : models.Task.DeleteTask
      { toTaskRow := row2, CreatedBy := db.relUser row2.CreatedByID,
        AssignedTo := row2.AssignedToID.bind db.relUser, Users := db.relUsers row2.ID }
      db now requestor
      = (some (.new "unauthorized: you can only delete your own tasks"), db) := by
    simp [models.Task.DeleteTask, hne]
  refine ⟨h1, ?_, h2, ?_⟩
  · rw [h1]; exact ht
  · rw [h2]; exact hlt

/-- Witness of C2 on the sample store: bob is not the creator of task 201. -/
theorem C2_delete_by_non_creator_is_forbidden_witness :
    TaskService.DeleteTask Sample.db 30 201 102
        = (some (.new "only the task creator can delete the task"), Sample.db)
      ∧ TaskRepository.GetByUUID (TaskService.DeleteTask Sample.db 30 201 102).2 201
        = .ok (TaskRepository.toEntity
            { toTaskRow := Sample.taskT, CreatedBy := some Sample.alice,
              AssignedTo := some Sample.bob, Users := [Sample.bob] })
      ∧ models.Task.DeleteTask
          { toTaskRow := Sample.taskT, CreatedBy := some Sample.alice,
            AssignedTo := some Sample.bob, Users := [Sample.bob] }
          Sample.db 30 102
        = (some (.new "unauthorized: you can only delete your own tasks"), Sample.db)
      ∧ models.FetchTaskByUUID
          (models.Task.DeleteTask
            { toTaskRow := Sample.taskT, CreatedBy := some Sample.alice,
              AssignedTo := some Sample.bob, Users := [Sample.bob] }
            Sample.db 30 102).2 201
        = .ok { toTaskRow := Sample.taskT, CreatedBy := some Sample.alice,
                AssignedTo := some Sample.bob, Users := [Sample.bob] } :=
  C2_delete_by_non_creator_is_forbidden Sample.db 30 201 102
    (TaskRepository.toEntity
      { toTaskRow := Sample.taskT, CreatedBy := some Sample.alice,
        AssignedTo := some Sample.bob, Users := [Sample.bob] })
    { toTaskRow := Sample.taskT, CreatedBy := some Sample.alice,
      AssignedTo := some Sample.bob, Users := [Sample.bob] }
    rfl rfl (by decide)

/-! ## C3: completing a completed task -/

/-- C3, as claimed, fails in the layered service: on the sample store task 202 is completed
and carol is neither its creator nor assigned; `TaskService.CompleteTask` answers with the
authorization error, not with the already-completed error. -/
theorem C3_counterexample_unauthorized_on_completed :
    (TaskRepository.GetByUUID Sample.db 202).map (fun t => t.Completed) = .ok true
      ∧ TaskService.CompleteTask Sample.db 30 202 103
        = (some (.new "you are not authorized to complete this task"), Sample.db)
      ∧ (TaskService.CompleteTask Sample.db 30 202 103).1
        ≠ some (.new "task is already completed") := by
  refine ⟨rfl, rfl, ?_⟩
  decide

/-- C3, amended. For a stored task with `Completed = true` and every requestor, the call
fails and the store is left as it was. The flat `Task.Complete` answers "task is already
completed" for every requestor and leaves the in-memory task as it was;
`TaskService.CompleteTask` answers "task is already completed" when the requestor may
modify the task (creator or assigned) and the authorization error otherwise. -/
theorem C3_complete_on_completed_task_fails (db : DB) (now : Time)
    (taskUUID requestor : uuid.UUID) (t : entity.Task) (lt : models.Task)
    (ht : TaskRepository.GetByUUID db taskUUID = .ok t)
    (hlt : models.FetchTaskByUUID db taskUUID = .ok lt)
    (hdone : t.Completed = true) :
    TaskService.CompleteTask db now taskUUID requestor
        = (some (if t.CanBeModifiedBy requestor then .new "task is already completed"
                 else .new "you are not authorized to complete this task"), db)
      ∧ models.Task.Complete lt db requestor
        = (some (.new "task is already completed"), lt, db) := by
  obtain ⟨row, hrow, rfl⟩ := GetByUUID_ok_row ht
  obtain ⟨row2, hrow2, rfl⟩ := FetchTaskByUUID_ok_row hlt
  have hrr : row2 = row := by
    rw [hrow] at hrow2
    exact (Except.ok.inj hrow2).symm
  subst hrr
  have hc : row2.Completed = true := by simpa [TaskRepository.toEntity] using hdone
  constructor
  · simp only [TaskService.CompleteTask, ht]
    split_ifs with h1 h2 h2
    · simp [h2] at h1
    · rfl
    · simp [entity.Task.Complete, hdone]
    · simp [h2] at h1
  · simp [models.Task.Complete, hc]

/-- Witness of amended C3 on the sample store: alice, the creator of the completed task 202. -/
theorem C3_complete_on_completed_task_fails_witness :
    TaskService.CompleteTask Sample.db 30 202 101
        = (some (.new "task is already completed"), Sample.db)
      ∧ models.Task.Complete
          { toTaskRow := Sample.taskDone, CreatedBy := some Sample.alice,
            AssignedTo := some Sample.bob, Users := [Sample.bob] }
          Sample.db 101
        = (some (.new "task is already completed"),
            { toTaskRow := Sample.taskDone, CreatedBy := some Sample.alice,
              AssignedTo := some Sample.bob, Users := [Sample.bob] },
            Sample.db) :=
  C3_complete_on_completed_task_fails Sample.db 30 202 101
    (TaskRepository.toEntity
      { toTaskRow := Sample.taskDone, CreatedBy := some Sample.alice,
        AssignedTo := some Sample.bob, Users := [Sample.bob] })
    { toTaskRow := Sample.taskDone, CreatedBy := some Sample.alice,
      AssignedTo := some Sample.bob, Users := [Sample.bob] }
    rfl rfl rfl

/-! ## C4: who may complete an open task -/

theorem CanBeModifiedBy_iff (t : entity.Task) (r : uuid.UUID) :
    t.CanBeModifiedBy r = true ↔ (r = t.CreatedByID ∨ ∃ u ∈ t.Users, u.UUID = r) := by
  unfold entity.Task.CanBeModifiedBy
  by_cases h : t.CreatedByID = r
  · simp [h]
  · have h2 : ¬ r = t.CreatedByID := fun e => h e.symm
    simp [h, h2]

/-- The hand-written count of `Task.Complete` is positive exactly when the user is among
the loaded `Users`, as long as no soft-deleted user carries the identifier. -/
theorem countAssignments_eq_zero_iff (db : DB) (taskID : Nat) (r : uuid.UUID)
    (hlive : ∀ u ∈ db.users, u.UUID = r → u.DeletedAt = none) :
    models.countAssignments db taskID r = 0 ↔ ¬ ∃ u ∈ db.relUsers taskID, u.UUID = r := by
  unfold models.countAssignments DB.relUsers DB.liveUsers
  rw [List.length_eq_zero, List.eq_nil_iff_forall_not_mem]
  constructor
  · rintro h ⟨u, hu, hur⟩
    simp only [List.mem_flatMap, List.mem_filter, beq_iff_eq,
      Option.isNone_iff_eq_none] at hu
    obtain ⟨ut, hut, ⟨hmem, _⟩, hid⟩ := hu
    apply h u
    simp only [List.mem_flatMap, List.mem_filter, beq_iff_eq, Bool.and_eq_true]
    exact ⟨ut, hut, hmem, hid, hur⟩
  · intro h u hu
    simp only [List.mem_flatMap, List.mem_filter, beq_iff_eq, Bool.and_eq_true] at hu
    obtain ⟨ut, hut, hmem, hid, hur⟩ := hu
    apply h
    refine ⟨u, ?_, hur⟩
    simp only [List.mem_flatMap, List.mem_filter, beq_iff_eq, Option.isNone_iff_eq_none]
    exact ⟨ut, hut, ⟨hmem, hlive u hmem hur⟩, hid⟩

/-- C4. For a stored task that is not completed and every requestor: `Task.CanBeModifiedBy`
is exactly "creator, or identifier of a user in the loaded assignment set";
`TaskService.CompleteTask` returns no error exactly in that case, and then the task read
back is the old one with `Completed = true` and `UpdatedAt = now`; otherwise it returns the
authorization error and leaves the store as it was. The flat `Task.Complete` behaves the same
way on the fetched task (read back: the old task with `Completed = true`), for a requestor
whose identifier is not carried by a soft-deleted user. -/
theorem C4_complete_iff_creator_or_assigned (db : DB) (now : Time)
    (taskUUID r : uuid.UUID) (t : entity.Task) (lt : models.Task)
    (ht : TaskRepository.GetByUUID db taskUUID = .ok t)
    (hlt : models.FetchTaskByUUID db taskUUID = .ok lt)
    (hopen : t.Completed = false)
    (hlive : ∀ u ∈ db.users, u.UUID = r → u.DeletedAt = none) :
    (t.CanBeModifiedBy r = true ↔ (r = t.CreatedByID ∨ ∃ u ∈ t.Users, u.UUID = r))
      ∧ ((TaskService.CompleteTask db now taskUUID r).1 = none
          ↔ (r = t.CreatedByID ∨ ∃ u ∈ t.Users, u.UUID = r))
      ∧ ((r = t.CreatedByID ∨ ∃ u ∈ t.Users, u.UUID = r) →
          TaskRepository.GetByUUID (TaskService.CompleteTask db now taskUUID r).2 taskUUID
            = .ok { t with Completed := true, UpdatedAt := now })
      ∧ (¬ (r = t.CreatedByID ∨ ∃ u ∈ t.Users, u.UUID = r) →
          TaskService.CompleteTask db now taskUUID r
            = (some (.new "you are not authorized to complete this task"), db))
      ∧ ((models.Task.Complete lt db r).1 = none
          ↔ (r = lt.CreatedByID ∨ ∃ u ∈ lt.Users, u.UUID = r))
      ∧ ((r = lt.CreatedByID ∨ ∃ u ∈ lt.Users, u.UUID = r) →
          (models.Task.Complete lt db r).2.1 = { lt with Completed := true }
            ∧ models.FetchTaskByUUID (models.Task.Complete lt db r).2.2 taskUUID
              = .ok { lt with Completed := true })
      ∧ (¬ (r = lt.CreatedByID ∨ ∃ u ∈ lt.Users, u.UUID = r) →
          models.Task.Complete lt db r
            = (some (.new "you are not authorized to complete this task"), lt, db)) := by
  obtain ⟨row, hrow, rfl⟩ := GetByUUID_ok_row ht
  obtain ⟨row2, hrow2, rfl⟩ := FetchTaskByUUID_ok_row hlt
  have hrr : row2 = row := by
    rw [hrow] at hrow2
    exact (Except.ok.inj hrow2).symm
  subst hrr
  obtain ⟨hlv, huuid, hmem⟩ := scanTaskByUUID_props hrow
  have hc : row2.Completed = false := by simpa [TaskRepository.toEntity] using hopen
  have hA := CanBeModifiedBy_iff (TaskRepository.toEntity
    { toTaskRow := row2, CreatedBy := db.relUser row2.CreatedByID,
      AssignedTo := row2.AssignedToID.bind db.relUser, Users := db.relUsers row2.ID }) r
  -- layered service
  have hok : (r = row2.CreatedByID ∨ ∃ u ∈ (db.relUsers row2.ID).map TaskRepository.relatedUser,
        u.UUID = r) →
      TaskService.CompleteTask db now taskUUID r
        = (none, db.updateTaskWherePK row2.ID
            (fun x => { x with Completed := true, UpdatedAt := now,
                               Title := row2.Title, Description := row2.Description,
                               AssignedToID := row2.AssignedToID })) := by
    intro hP
    have hcan := hA.mpr hP
    simp only [TaskService.CompleteTask, ht, hcan, entity.Task.Complete, hopen]
    simp [TaskRepository.Update, TaskRepository.toEntity]
  have hno : ¬ (r = row2.CreatedByID ∨ ∃ u ∈ (db.relUsers row2.ID).map TaskRepository.relatedUser,
        u.UUID = r) →
      TaskService.CompleteTask db now taskUUID r
        = (some (.new "you are not authorized to complete this task"), db) := by
    intro hP
    have hcan : (TaskRepository.toEntity
      { toTaskRow := row2, CreatedBy := db.relUser row2.CreatedByID,
        AssignedTo := row2.AssignedToID.bind db.relUser,
        Users := db.relUsers row2.ID }).CanBeModifiedBy r = false := by
      rw [← Bool.not_eq_true]
      exact fun h => hP (hA.mp h)
    simp [TaskService.CompleteTask, ht, hcan]
  have hread : TaskRepository.GetByUUID
      (db.updateTaskWherePK row2.ID
        (fun x => { x with Completed := true, UpdatedAt := now,
                           Title := row2.Title, Description := row2.Description,
                           AssignedToID := row2.AssignedToID })) taskUUID
      = .ok { (TaskRepository.toEntity
          { toTaskRow := row2, CreatedBy := db.relUser row2.CreatedByID,
            AssignedTo := row2.AssignedToID.bind db.relUser,
            Users := db.relUsers row2.ID }) with Completed := true, UpdatedAt := now } := by
    have hscan := scanTaskByUUID_update
      (fun x : TaskRow =>
        { x with Completed := true, UpdatedAt := now, Title := row2.Title,
                 Description := row2.Description, AssignedToID := row2.AssignedToID })
      hrow ⟨hlv, huuid⟩ (fun x _ _ _ _ hxu => Or.inl hxu)
    simp only [TaskRepository.GetByUUID, DB.scanTaskWithRelations, hscan,
      relUsers_updateTask, relUser_updateTask]
    rfl
  -- flat implementation
  have hcount := countAssignments_eq_zero_iff db row2.ID r hlive
  have hlok : (r = row2.CreatedByID ∨ ∃ u ∈ db.relUsers row2.ID, u.UUID = r) →
      models.Task.Complete
          { toTaskRow := row2, CreatedBy := db.relUser row2.CreatedByID,
            AssignedTo := row2.AssignedToID.bind db.relUser, Users := db.relUsers row2.ID }
          db r
        = (none,
            { toTaskRow := { row2 with Completed := true },
              CreatedBy := db.relUser row2.CreatedByID,
              AssignedTo := row2.AssignedToID.bind db.relUser, Users := db.relUsers row2.ID },
            db.updateTaskWherePK row2.ID (fun _ => { row2 with Completed := true })) := by
    intro hP
    have hcond : ¬ (row2.CreatedByID ≠ r ∧ models.countAssignments db row2.ID r = 0) := by
      rintro ⟨h1, h2⟩
      rcases hP with hP | hP
      · exact h1 hP.symm
      · exact (hcount.mp h2) hP
    simp only [models.Task.Complete, hc, huuid, hrow]
    simp [hcond, models.Task.updateTask]
  have hlno : ¬ (r = row2.CreatedByID ∨ ∃ u ∈ db.relUsers row2.ID, u.UUID = r) →
      models.Task.Complete
          { toTaskRow := row2, CreatedBy := db.relUser row2.CreatedByID,
            AssignedTo := row2.AssignedToID.bind db.relUser, Users := db.relUsers row2.ID }
          db r
        = (some (.new "you are not authorized to complete this task"),
            { toTaskRow := row2, CreatedBy := db.relUser row2.CreatedByID,
              AssignedTo := row2.AssignedToID.bind db.relUser, Users := db.relUsers row2.ID },
            db) := by
    intro hP
    have hcond : row2.CreatedByID ≠ r ∧ models.countAssignments db row2.ID r = 0 :=
      ⟨fun h => hP (Or.inl h.symm), hcount.mpr (fun h => hP (Or.inr h))⟩
    simp only [models.Task.Complete, hc, huuid, hrow]
    simp [hcond]
  have hlread : models.FetchTaskByUUID
      (db.updateTaskWherePK row2.ID (fun _ => { row2 with Completed := true })) taskUUID
      = .ok { toTaskRow := { row2 with Completed := true },
              CreatedBy := db.relUser row2.CreatedByID,
              AssignedTo := row2.AssignedToID.bind db.relUser,
              Users := db.relUsers row2.ID } := by
    have hscan := scanTaskByUUID_update (fun _ : TaskRow => { row2 with Completed := true })
      hrow ⟨hlv, huuid⟩ (fun x _ _ _ _ _ => Or.inr rfl)
    simp only [models.FetchTaskByUUID, hscan, relUsers_updateTask, relUser_updateTask]
  refine ⟨hA, ?_, ?_, hno, ?_, ?_, hlno⟩
  · constructor
    · intro h
      by_contra hP
      rw [hno hP] at h
      simp at h
    · intro hP
      rw [hok hP]
  · intro hP
    rw [hok hP]
    exact hread
  · constructor
    · intro h
      by_contra hP
      rw [hlno hP] at h
      simp at h
    · intro hP
      rw [hlok hP]
  · intro hP
    rw [hlok hP]
    exact ⟨rfl, hlread⟩

/-- Witness of C4 on the sample store, following the scenario of the claim: carol, who is
not assigned to the open task 201, is rejected by both implementations; alice assigns
carol; on the store this leaves, carol completes the task with both implementations. -/
theorem C4_complete_iff_creator_or_assigned_witness :
    TaskService.CompleteTask Sample.db 30 201 103
        = (some (.new "you are not authorized to complete this task"), Sample.db)
      ∧ (models.Task.Complete
          { toTaskRow := Sample.taskT, CreatedBy := some Sample.alice,
            AssignedTo := some Sample.bob, Users := [Sample.bob] }
          Sample.db 103).1 = some (.new "you are not authorized to complete this task")
      ∧ TaskService.AssignTask Sample.db 201 103 101 = (none, Sample.dbCarolAssigned)
      ∧ (TaskService.CompleteTask Sample.dbCarolAssigned 30 201 103).1 = none
      ∧ (models.Task.Complete
          { toTaskRow := { Sample.taskT with AssignedToID := some 103 },
            CreatedBy := some Sample.alice, AssignedTo := some Sample.carol,
            Users := [Sample.bob, Sample.carol] }
          Sample.dbCarolAssigned 103).1 = none :=
  have before := C4_complete_iff_creator_or_assigned Sample.db 30 201 103
    (TaskRepository.toEntity
      { toTaskRow := Sample.taskT, CreatedBy := some Sample.alice,
        AssignedTo := some Sample.bob, Users := [Sample.bob] })
    { toTaskRow := Sample.taskT, CreatedBy := some Sample.alice,
      AssignedTo := some Sample.bob, Users := [Sample.bob] }
    rfl rfl rfl (by decide)
  have after := C4_complete_iff_creator_or_assigned Sample.dbCarolAssigned 30 201 103
    (TaskRepository.toEntity
      { toTaskRow := { Sample.taskT with AssignedToID := some 103 },
        CreatedBy := some Sample.alice, AssignedTo := some Sample.carol,
        Users := [Sample.bob, Sample.carol] })
    { toTaskRow := { Sample.taskT with AssignedToID := some 103 },
      CreatedBy := some Sample.alice, AssignedTo := some Sample.carol,
      Users := [Sample.bob, Sample.carol] }
    rfl rfl rfl (by decide)
  ⟨before.2.2.2.1 (by decide),
    congrArg Prod.fst (before.2.2.2.2.2.2 (by decide)),
    rfl,
    after.2.1.mpr (Or.inr ⟨TaskRepository.relatedUser Sample.carol, by decide, rfl⟩),
    after.2.2.2.2.1.mpr (Or.inr ⟨Sample.carol, by decide, rfl⟩)⟩

/-! ## C5: round trip of the layered task creation -/

/-- C5 fails on the code. On a store with the users alice, bob and carol, alice creates a
task with the assignee list [bob, carol] through `TaskUseCase.CreateTask`: the call
succeeds, the task read back by `TaskUseCase.GetTaskByUUID` has exactly bob and carol as
`Users`, and its primary assignee is carol, the last entry of the list, not bob. -/
theorem C5_layered_create_primary_is_last_listed :
    (TaskUseCase.CreateTask Sample.parse Sample.usersOnly 30 201
        { Title := "X", Description := "", Users := [⟨"102"⟩, ⟨"103"⟩] } 101).1.map
        (fun r => r.map (fun r => (r.Users.map (fun u => u.ID), r.AssignedTo.map (fun u => u.ID))))
        = .ok (some ([102, 103], some 103))
      ∧ (TaskUseCase.GetTaskByUUID
          (TaskUseCase.CreateTask Sample.parse Sample.usersOnly 30 201
            { Title := "X", Description := "", Users := [⟨"102"⟩, ⟨"103"⟩] } 101).2 201).map
        (fun r => r.map (fun r => (r.Users.map (fun u => u.ID), r.AssignedTo.map (fun u => u.ID))))
        = .ok (some ([102, 103], some 103))
      ∧ (TaskRepository.GetByUUID
          (TaskUseCase.CreateTask Sample.parse Sample.usersOnly 30 201
            { Title := "X", Description := "", Users := [⟨"102"⟩, ⟨"103"⟩] } 101).2 201).map
        (fun t => t.AssignedToID)
        = .ok (some 103) := by
  refine ⟨rfl, rfl, rfl⟩

/-! ## C6: round trip of the flat task creation -/

theorem lookup_ok (db : DB) :
    ∀ (l : List schemas.UserAssign) (acc : List UserRow),
      (∀ a ∈ l, ∃ r, db.scanUserByUUID a.ID = .ok r) →
      controllers.Tasks.CreateTask.lookup db l acc
        = some (acc ++ l.map (fun a =>
            { ID := 0, UUID := a.ID, Name := "", Email := "", Password := "",
              CreatedAt := 0, UpdatedAt := 0, DeletedAt := none })) := by
  intro l
  induction l with
  | nil => intro acc _; simp [controllers.Tasks.CreateTask.lookup]
  | cons a rest ih =>
    intro acc h
    obtain ⟨r, hr⟩ := h a (List.mem_cons_self _ _)
    simp only [controllers.Tasks.CreateTask.lookup, hr]
    rw [ih _ (fun b hb => h b (List.mem_cons_of_mem _ hb))]
    simp

theorem nextTaskID_gt (db : DB) : ∀ t ∈ db.tasks, t.ID < db.nextTaskID := by
  unfold DB.nextTaskID
  generalize db.tasks = l
  induction l with
  | nil => intro t ht; simp at ht
  | cons x xs ih =>
    intro t ht
    simp only [List.map_cons, List.foldr_cons]
    rcases List.mem_cons.mp ht with h | h
    · subst h; omega
    · have := ih t h; omega

theorem legacy_addUsers_ok (tid : Nat) :
    ∀ (users : List UserRow) (tx : DB), tx.UsersPK →
      (∀ u ∈ users, ∃ r, tx.scanUserByUUID u.UUID = .ok r) →
      (users.map (fun u => u.UUID)).Nodup →
      (∀ ut ∈ tx.user_tasks, ut.TaskID = tid →
        ∀ u ∈ users, ∀ r, tx.scanUserByUUID u.UUID = .ok r → ut.UserID ≠ r.ID) →
      ∃ tx' rows, models.Task.ValidateAndCreateTask.addUsers tid users tx = .ok tx'
        ∧ tx'.users = tx.users ∧ tx'.tasks = tx.tasks
        ∧ tx'.relUsers tid = tx.relUsers tid ++ rows
        ∧ rows.map (fun u => u.UUID) = users.map (fun u => u.UUID) := by
  intro users
  induction users with
  | nil =>
    intro tx _ _ _ _
    exact ⟨tx, [], rfl, rfl, rfl, by simp, rfl⟩
  | cons u us ih =>
    intro tx hpk hex hnd hinv
    obtain ⟨r, hr⟩ := hex u (List.mem_cons_self _ _)
    obtain ⟨_, hru, hrmem, hrlive⟩ := scanUserByUUID_props hr
    rw [List.map_cons, List.nodup_cons] at hnd
    have hins := @insertUserTask_ok tx { TaskID := tid, UserID := r.ID }
      (fun ut hut hc => hinv ut hut hc.1 u (List.mem_cons_self _ _) r hr hc.2)
    have hinv1 : ∀ ut ∈ (tx.user_tasks ++ [{ TaskID := tid, UserID := r.ID }]), ut.TaskID = tid →
        ∀ v ∈ us, ∀ r', tx.scanUserByUUID v.UUID = .ok r' → ut.UserID ≠ r'.ID := by
      intro ut hut hk v hv r' hr'
      rcases List.mem_append.mp hut with h | h
      · exact hinv ut h hk v (List.mem_cons_of_mem _ hv) r' hr'
      · simp only [List.mem_singleton] at h
        subst h
        obtain ⟨_, hr'u, hr'mem, _⟩ := scanUserByUUID_props hr'
        intro hid
        have heq : r = r' := List.inj_on_of_nodup_map hpk hrmem hr'mem hid
        apply hnd.1
        rw [← hru, heq, hr'u]
        exact List.mem_map_of_mem _ hv
    obtain ⟨tx', rows, h1, h2, h3, h4, h5⟩ :=
      ih { tx with user_tasks := tx.user_tasks ++ [{ TaskID := tid, UserID := r.ID }] }
        hpk (fun v hv => hex v (List.mem_cons_of_mem _ hv)) hnd.2 hinv1
    refine ⟨tx', r :: rows, ?_, h2, h3, ?_, ?_⟩
    · simp only [models.Task.ValidateAndCreateTask.addUsers, hr, hins]
      exact h1
    · rw [h4, relUsers_insert]
      simp [liveUsers_filter_ID hpk hrlive]
    · simp [h5, hru]

theorem relUsers_nextTaskID {db : DB} (href : db.UserTasksRefTasks) :
    db.relUsers db.nextTaskID = [] := by
  unfold DB.relUsers
  have : db.user_tasks.filter (fun ut => ut.TaskID == db.nextTaskID) = [] := by
    rw [List.filter_eq_nil_iff]
    intro ut hut hc
    obtain ⟨t, ht, hid⟩ := href ut hut
    have := nextTaskID_gt db t ht
    simp only [beq_iff_eq] at hc
    omega
  simp [this]

theorem relUser_congr {tx db : DB} (h : tx.users = db.users) (u : uuid.UUID) :
    tx.relUser u = db.relUser u := by
  unfold DB.relUser DB.liveUsers
  rw [h]

/-- C6. For a request with a non-empty title and a list of distinct identifiers of existing
users, sent by an existing user, the flat handler `Tasks.CreateTask` answers 201 with the
created task; `FetchTaskByUUID` on the store it leaves returns that task, whose `Users`
are exactly the listed users, in the order of the list, and whose `AssignedToID` is the
first entry of the list (none for an empty list). The store is assumed to keep `users.id`
unique and every `user_tasks` row pointing to a task, and `fresh` to be unused. -/
theorem C6_legacy_create_round_trip (db : DB) (now : Time) (fresh userUUID : uuid.UUID)
    (req : schemas.CreateTaskRequest)
    (htitle : req.Title ≠ "")
    (hdistinct : (req.Users.map (fun a => a.ID)).Nodup)
    (hexist : ∀ a ∈ req.Users, ∃ r, db.scanUserByUUID a.ID = .ok r)
    (hcreator : ∃ c, db.scanUserByUUID userUUID = .ok c)
    (hfresh : ∀ t ∈ db.tasks, t.UUID ≠ fresh)
    (hpk : db.UsersPK)
    (href : db.UserTasksRefTasks) :
    ∃ created,
      (controllers.Tasks.CreateTask db now fresh userUUID (some req)).1
          = { status := 201, errMsg := "", task := some created }
        ∧ models.FetchTaskByUUID
            (controllers.Tasks.CreateTask db now fresh userUUID (some req)).2 fresh
          = .ok created
        ∧ created.Users.map (fun u => u.UUID) = req.Users.map (fun a => a.ID)
        ∧ created.AssignedToID = req.Users.head?.map (fun a => a.ID)
        ∧ created.UUID = fresh ∧ created.Title = req.Title
        ∧ created.Description = req.Description ∧ created.CreatedByID = userUUID
        ∧ created.Completed = false := by
  obtain ⟨c, hc⟩ := hcreator
  -- the task handed to ValidateAndCreateTask
  have hprep : controllers.Tasks.CreateTask.build db req
      = some { ID := 0, UUID := 0, Title := req.Title, Description := req.Description,
               Completed := false, CreatedAt := 0, UpdatedAt := 0, DeletedAt := none,
               CreatedByID := 0, AssignedToID := req.Users.head?.map (fun a => a.ID),
               Users := req.Users.map (fun a =>
                 { ID := 0, UUID := a.ID, Name := "", Email := "", Password := "",
                   CreatedAt := 0, UpdatedAt := 0, DeletedAt := none }) } := by
    unfold controllers.Tasks.CreateTask.build
    rw [lookup_ok db req.Users [] hexist]
    cases hU : req.Users with
    | nil => simp
    | cons a rest => simp
  have hnone : ∀ ut ∈ db.user_tasks, ut.TaskID ≠ db.nextTaskID := by
    intro ut hut hk
    obtain ⟨t, ht, hid⟩ := href ut hut
    have := nextTaskID_gt db t ht
    omega
  obtain ⟨tx', rows, h1, h2, h3, h4, h5⟩ := legacy_addUsers_ok db.nextTaskID
    (req.Users.map (fun a =>
      ({ ID := 0, UUID := a.ID, Name := "", Email := "", Password := "",
         CreatedAt := 0, UpdatedAt := 0, DeletedAt := none } : UserRow)))
    { db with tasks := db.tasks ++
        [{ ID := db.nextTaskID, UUID := fresh, Title := req.Title,
           Description := req.Description, Completed := false, CreatedAt := now,
           UpdatedAt := now, DeletedAt := none, CreatedByID := userUUID,
           AssignedToID := req.Users.head?.map (fun a => a.ID) }] }
    hpk
    (by
      intro u hu
      simp only [List.mem_map] at hu
      obtain ⟨a, ha, rfl⟩ := hu
      exact hexist a ha)
    (by simpa [List.map_map, Function.comp_def] using hdistinct)
    (fun ut hut hk => absurd hk (hnone ut hut))
  have hVC : models.Task.ValidateAndCreateTask
      { ID := 0, UUID := 0, Title := req.Title, Description := req.Description,
        Completed := false, CreatedAt := 0, UpdatedAt := 0, DeletedAt := none,
        CreatedByID := 0, AssignedToID := req.Users.head?.map (fun a => a.ID),
        Users := req.Users.map (fun a =>
          { ID := 0, UUID := a.ID, Name := "", Email := "", Password := "",
            CreatedAt := 0, UpdatedAt := 0, DeletedAt := none }) }
      db now fresh userUUID
      = (none,
          { ID := db.nextTaskID, UUID := fresh, Title := req.Title,
            Description := req.Description, Completed := false, CreatedAt := now,
            UpdatedAt := now, DeletedAt := none, CreatedByID := userUUID,
            AssignedToID := req.Users.head?.map (fun a => a.ID),
            Users := req.Users.map (fun a =>
              { ID := 0, UUID := a.ID, Name := "", Email := "", Password := "",
                CreatedAt := 0, UpdatedAt := 0, DeletedAt := none }) },
          tx') := by
    simp only [models.Task.ValidateAndCreateTask, htitle, if_false, hc, DB.insertTask, ite_self]
    rw [h1]
  have hfetch : models.FetchTaskByUUID tx' fresh
      = .ok { ID := db.nextTaskID, UUID := fresh, Title := req.Title,
              Description := req.Description, Completed := false, CreatedAt := now,
              UpdatedAt := now, DeletedAt := none, CreatedByID := userUUID,
              AssignedToID := req.Users.head?.map (fun a => a.ID),
              CreatedBy := db.relUser userUUID,
              AssignedTo := (req.Users.head?.map (fun a => a.ID)).bind db.relUser,
              Users := rows } := by
    have hscan : tx'.scanTaskByUUID fresh
        = .ok { ID := db.nextTaskID, UUID := fresh, Title := req.Title,
                Description := req.Description, Completed := false, CreatedAt := now,
                UpdatedAt := now, DeletedAt := none, CreatedByID := userUUID,
                AssignedToID := req.Users.head?.map (fun a => a.ID) } := by
      rw [scanTaskByUUID_ok_iff, h3, List.find?_append]
      have : db.tasks.find? (fun r => r.DeletedAt.isNone && r.UUID == fresh) = none := by
        rw [List.find?_eq_none]
        intro x hx
        simp [hfresh x hx]
      simp [this]
    have hrel : tx'.relUsers db.nextTaskID = rows := by
      rw [h4]
      have : DB.relUsers { db with tasks := db.tasks ++
        [{ ID := db.nextTaskID, UUID := fresh, Title := req.Title,
           Description := req.Description, Completed := false, CreatedAt := now,
           UpdatedAt := now, DeletedAt := none, CreatedByID := userUUID,
           AssignedToID := req.Users.head?.map (fun a => a.ID) }] } db.nextTaskID
          = db.relUsers db.nextTaskID := rfl
      rw [this, relUsers_nextTaskID href, List.nil_append]
    have hru : ∀ x, tx'.relUser x = db.relUser x := fun x => relUser_congr h2 x
    simp only [models.FetchTaskByUUID, hscan, hrel, hru]
  have hout : controllers.Tasks.CreateTask db now fresh userUUID (some req)
      = ({ status := 201, errMsg := "",
           task := some
            { ID := db.nextTaskID, UUID := fresh, Title := req.Title,
              Description := req.Description, Completed := false, CreatedAt := now,
              UpdatedAt := now, DeletedAt := none, CreatedByID := userUUID,
              AssignedToID := req.Users.head?.map (fun a => a.ID),
              CreatedBy := db.relUser userUUID,
              AssignedTo := (req.Users.head?.map (fun a => a.ID)).bind db.relUser,
              Users := rows } }, tx') := by
    simp only [controllers.Tasks.CreateTask]
    rw [hprep]
    simp only [hVC, hfetch]
  rw [hout]
  exact ⟨_, rfl, hfetch, h5.trans (by simp [List.map_map, Function.comp_def]),
    rfl, rfl, rfl, rfl, rfl, rfl⟩

/-- Witness of C6 on the store with the three users: alice creates a task for bob and
carol; the task read back lists bob and carol and has bob as primary assignee. -/
theorem C6_legacy_create_round_trip_witness :
    (models.FetchTaskByUUID
        (controllers.Tasks.CreateTask Sample.usersOnly 30 201 101
          (some { Title := "X", Description := "d", Users := [⟨102⟩, ⟨103⟩] })).2 201).map
        (fun t => (t.Users.map (fun u => u.UUID), t.AssignedToID))
      = .ok ([102, 103], some 102) := by
  obtain ⟨created, _, hf, hu, ha, _⟩ := C6_legacy_create_round_trip Sample.usersOnly 30 201 101
    { Title := "X", Description := "d", Users := [⟨102⟩, ⟨103⟩] }
    (by decide) (by decide)
    (by
      intro a ha
      simp only [List.mem_cons, List.mem_singleton, List.not_mem_nil, or_false] at ha
      rcases ha with rfl | rfl
      · exact ⟨Sample.bob, rfl⟩
      · exact ⟨Sample.carol, rfl⟩)
    ⟨Sample.alice, rfl⟩
    (by decide)
    (by unfold DB.UsersPK; decide)
    (by unfold DB.UserTasksRefTasks; decide)
  rw [hf]
  simp only [Except.map, hu, ha]
  rfl

/-! ## C7: assignment by the creator of a user who is not assigned yet -/

/-- C7. For a stored task (completed or not), its creator as requestor and an existing user
who is not in the loaded assignment set, `TaskService.AssignTask` and the flat
`Task.ValidateAndAssignTask` return no error, and the task read back is the old one with
the user appended to `Users` (nobody dropped) and `AssignedToID` / `AssignedTo` set to that
user; every other field (completed flag, title, description, creator) is as before.
The store is assumed to keep `users.id` unique and, for the flat path, to hold no
soft-deleted user with the identifier. -/
theorem C7_creator_assigns_new_user (db : DB) (taskUUID userUUID : uuid.UUID)
    (t : entity.Task) (lt : models.Task) (urow : UserRow)
    (ht : TaskRepository.GetByUUID db taskUUID = .ok t)
    (hlt : models.FetchTaskByUUID db taskUUID = .ok lt)
    (hu : db.scanUserByUUID userUUID = .ok urow)
    (hnot : ∀ x ∈ t.Users, x.UUID ≠ userUUID)
    (hpk : db.UsersPK)
    (hlive : ∀ x ∈ db.users, x.UUID = userUUID → x.DeletedAt = none) :
    (TaskService.AssignTask db taskUUID userUUID t.CreatedByID).1 = none
      ∧ TaskRepository.GetByUUID
          (TaskService.AssignTask db taskUUID userUUID t.CreatedByID).2 taskUUID
        = .ok { t with
                AssignedToID := some userUUID
                AssignedTo := some (TaskRepository.relatedUser urow)
                Users := t.Users ++ [TaskRepository.relatedUser urow] }
      ∧ (models.Task.ValidateAndAssignTask (some lt) db lt.CreatedByID userUUID).1 = none
      ∧ (models.Task.ValidateAndAssignTask (some lt) db lt.CreatedByID userUUID).2.1
        = some { lt with AssignedToID := some userUUID }
      ∧ models.FetchTaskByUUID
          (models.Task.ValidateAndAssignTask (some lt) db lt.CreatedByID userUUID).2.2 taskUUID
        = .ok { lt with
                AssignedToID := some userUUID
                AssignedTo := some urow
                Users := lt.Users ++ [urow] } := by
  obtain ⟨row, hrow, rfl⟩ := GetByUUID_ok_row ht
  obtain ⟨row2, hrow2, rfl⟩ := FetchTaskByUUID_ok_row hlt
  have hrr : row2 = row := by
    rw [hrow] at hrow2
    exact (Except.ok.inj hrow2).symm
  subst hrr
  obtain ⟨hlv, huuid, hmem⟩ := scanTaskByUUID_props hrow
  obtain ⟨hul, huu, humem, hulive⟩ := scanUserByUUID_props hu
  have hnot2 : ∀ x ∈ db.relUsers row2.ID, x.UUID ≠ userUUID := by
    intro x hx
    exact hnot (TaskRepository.relatedUser x)
      (by simp only [TaskRepository.toEntity]; exact List.mem_map_of_mem _ hx)
  have hnorow := not_exists_of_not_rel hu hnot2
  have hex := existsUserTask_false hnorow
  have hins := @insertUserTask_ok db { TaskID := row2.ID, UserID := urow.ID } hnorow
  have hrepo : UserRepository.GetByUUID db userUUID = .ok
      { ID := urow.ID, UUID := urow.UUID, Name := urow.Name, Email := urow.Email,
        Password := urow.Password, CreatedAt := urow.CreatedAt, UpdatedAt := urow.UpdatedAt,
        DeletedAt := urow.DeletedAt } := by
    simp [UserRepository.GetByUUID, hu]
  -- the store after a successful assignment, in both implementations
  have hscan := @scanTaskByUUID_update
    { db with user_tasks := db.user_tasks ++ [{ TaskID := row2.ID, UserID := urow.ID }] }
    taskUUID row2 (fun x : TaskRow => { x with AssignedToID := some userUUID })
    hrow ⟨hlv, huuid⟩ (fun x _ _ _ _ hxu => Or.inl hxu)
  have hrel : DB.relUsers { db with user_tasks := db.user_tasks ++
      [{ TaskID := row2.ID, UserID := urow.ID }] } row2.ID = db.relUsers row2.ID ++ [urow] := by
    rw [relUsers_insert]
    simp [liveUsers_filter_ID hpk hulive]
  have hassign : TaskService.AssignTask db taskUUID userUUID row2.CreatedByID
      = (none, DB.updateTaskWherePK
          { db with user_tasks := db.user_tasks ++ [{ TaskID := row2.ID, UserID := urow.ID }] }
          row2.ID (fun x => { x with AssignedToID := some userUUID })) := by
    simp [TaskService.AssignTask, ht, hrepo, TaskRepository.AssignTaskToUser, hrow, hu, hex,
      hins, TaskRepository.toEntity]
  have hread : TaskRepository.GetByUUID (DB.updateTaskWherePK
          { db with user_tasks := db.user_tasks ++ [{ TaskID := row2.ID, UserID := urow.ID }] }
          row2.ID (fun x => { x with AssignedToID := some userUUID })) taskUUID
      = .ok { (TaskRepository.toEntity
            { toTaskRow := row2, CreatedBy := db.relUser row2.CreatedByID,
              AssignedTo := row2.AssignedToID.bind db.relUser,
              Users := db.relUsers row2.ID }) with
          AssignedToID := some userUUID
          AssignedTo := some (TaskRepository.relatedUser urow)
          Users := (db.relUsers row2.ID).map TaskRepository.relatedUser
            ++ [TaskRepository.relatedUser urow] } := by
    simp only [TaskRepository.GetByUUID, DB.scanTaskWithRelations, hscan,
      relUsers_updateTask, relUser_updateTask, hrel]
    have hru : DB.relUser { db with user_tasks := db.user_tasks ++
        [{ TaskID := row2.ID, UserID := urow.ID }] } userUUID = some urow := relUser_of_scan hu
    simp [TaskRepository.toEntity, hru]
    rfl
  -- flat implementation
  have hnotyet : models.alreadyAssigned db row2.ID userUUID = false := by
    unfold models.alreadyAssigned
    rw [List.any_eq_false]
    intro ut hut hc
    simp only [Bool.and_eq_true, beq_iff_eq, List.any_eq_true] at hc
    obtain ⟨hk, x, hx, hxu, hxid⟩ := hc
    apply hnot2 x _ hxu
    unfold DB.relUsers DB.liveUsers
    simp only [List.mem_flatMap, List.mem_filter, beq_iff_eq, Option.isNone_iff_eq_none]
    exact ⟨ut, ⟨hut, hk⟩, ⟨hx, hlive x hx hxu⟩, hxid⟩
  have hlassign : models.Task.ValidateAndAssignTask
      (some { toTaskRow := row2, CreatedBy := db.relUser row2.CreatedByID,
              AssignedTo := row2.AssignedToID.bind db.relUser, Users := db.relUsers row2.ID })
      db row2.CreatedByID userUUID
      = (none,
          some { toTaskRow := { row2 with AssignedToID := some userUUID },
                 CreatedBy := db.relUser row2.CreatedByID,
                 AssignedTo := row2.AssignedToID.bind db.relUser,
                 Users := db.relUsers row2.ID },
          DB.updateTaskWherePK
            { db with user_tasks := db.user_tasks ++ [{ TaskID := row2.ID, UserID := urow.ID }] }
            row2.ID (fun x => { x with AssignedToID := some userUUID })) := by
    simp [models.Task.ValidateAndAssignTask, hnotyet, hu, hins]
  have hlread : models.FetchTaskByUUID (DB.updateTaskWherePK
          { db with user_tasks := db.user_tasks ++ [{ TaskID := row2.ID, UserID := urow.ID }] }
          row2.ID (fun x => { x with AssignedToID := some userUUID })) taskUUID
      = .ok { toTaskRow := { row2 with AssignedToID := some userUUID },
              CreatedBy := db.relUser row2.CreatedByID,
              AssignedTo := some urow,
              Users := db.relUsers row2.ID ++ [urow] } := by
    simp only [models.FetchTaskByUUID, hscan, relUsers_updateTask, relUser_updateTask, hrel]
    have hru : DB.relUser { db with user_tasks := db.user_tasks ++
        [{ TaskID := row2.ID, UserID := urow.ID }] } userUUID = some urow := relUser_of_scan hu
    simp [hru]
    rfl
  refine ⟨?_, ?_, ?_, ?_, ?_⟩
  · show (TaskService.AssignTask db taskUUID userUUID row2.CreatedByID).1 = none
    rw [hassign]
  · show TaskRepository.GetByUUID
      (TaskService.AssignTask db taskUUID userUUID row2.CreatedByID).2 taskUUID = _
    rw [hassign]
    exact hread
  · rw [hlassign]
  · rw [hlassign]
  · rw [hlassign]
    exact hlread


/-- Witness of C7 on the sample store: alice assigns carol to task 201, where bob is. -/
theorem C7_creator_assigns_new_user_witness :
    (TaskService.AssignTask Sample.db 201 103 101).1 = none
      ∧ (TaskRepository.GetByUUID (TaskService.AssignTask Sample.db 201 103 101).2 201).map
          (fun t => (t.Users.map (fun x => x.UUID), t.AssignedToID))
        = .ok ([102, 103], some 103) :=
  have h := C7_creator_assigns_new_user Sample.db 201 103
    (TaskRepository.toEntity
      { toTaskRow := Sample.taskT, CreatedBy := some Sample.alice,
        AssignedTo := some Sample.bob, Users := [Sample.bob] })
    { toTaskRow := Sample.taskT, CreatedBy := some Sample.alice,
      AssignedTo := some Sample.bob, Users := [Sample.bob] }
    Sample.carol rfl rfl rfl (by decide) (by unfold DB.UsersPK; decide) (by decide)
  ⟨h.1, (congrArg _ h.2.1).trans rfl⟩

/-! ## C8: the layered service on a user who is assigned already -/

/-- C8, as claimed, fails: on the sample store bob is in the assignment set of task 201,
and `TaskService.AssignTask` by the creator alice returns no error. -/
theorem C8_counterexample_duplicate_assign_succeeds :
    (TaskRepository.GetByUUID Sample.db 201).map (fun t => t.Users.map (fun x => x.UUID))
        = .ok [102]
      ∧ (TaskService.AssignTask Sample.db 201 102 101).1 = none
      ∧ ∀ msg, (TaskService.AssignTask Sample.db 201 102 101).1 ≠ some (.new msg) := by
  refine ⟨rfl, rfl, ?_⟩
  intro msg h
  have h2 : (TaskService.AssignTask Sample.db 201 102 101).1 = none := rfl
  rw [h2] at h
  exact Option.noConfusion h

/-- C8, amended. For a stored task whose loaded assignment set already holds the user that
the identifier resolves to, `TaskService.AssignTask` by the creator returns no error; the
task read back has the same `Users` and every other field as before, except that
`AssignedToID` / `AssignedTo` point to that user. -/
theorem C8_duplicate_assign_repoints_primary (db : DB) (taskUUID userUUID : uuid.UUID)
    (t : entity.Task) (u : entity.User)
    (ht : TaskRepository.GetByUUID db taskUUID = .ok t)
    (hu : UserRepository.GetByUUID db userUUID = .ok u)
    (hin : ∃ x ∈ t.Users, x.ID = u.ID) :
    (TaskService.AssignTask db taskUUID userUUID t.CreatedByID).1 = none
      ∧ TaskRepository.GetByUUID
          (TaskService.AssignTask db taskUUID userUUID t.CreatedByID).2 taskUUID
        = .ok { t with
                AssignedToID := some userUUID
                AssignedTo := some { ID := u.ID, UUID := u.UUID, Name := u.Name,
                                     Email := u.Email } } := by
  obtain ⟨row, hrow, rfl⟩ := GetByUUID_ok_row ht
  obtain ⟨urow, hurow, hid, huuid', hname, hemail⟩ := UserRepository_GetByUUID_ok hu
  obtain ⟨hlv, huuid, hmem⟩ := scanTaskByUUID_props hrow
  have hex : db.existsUserTask row.ID urow.ID = true := by
    obtain ⟨x, hx, hxid⟩ := hin
    simp only [TaskRepository.toEntity, List.mem_map] at hx
    obtain ⟨y, hy, rfl⟩ := hx
    unfold DB.relUsers at hy
    simp only [List.mem_flatMap, List.mem_filter, beq_iff_eq] at hy
    obtain ⟨ut, ⟨hut, hk⟩, _, hyid⟩ := hy
    unfold DB.existsUserTask
    rw [List.any_eq_true]
    refine ⟨ut, hut, ?_⟩
    have : y.ID = urow.ID := by
      rw [← hid]; simpa [TaskRepository.relatedUser] using hxid
    simp [hk, ← hyid, this]
  have hscan := scanTaskByUUID_update
    (fun x : TaskRow => { x with AssignedToID := some userUUID })
    hrow ⟨hlv, huuid⟩ (fun x _ _ _ _ hxu => Or.inl hxu)
  have hassign : TaskService.AssignTask db taskUUID userUUID row.CreatedByID
      = (none, db.updateTaskWherePK row.ID (fun x => { x with AssignedToID := some userUUID })) := by
    simp [TaskService.AssignTask, ht, hu, TaskRepository.AssignTaskToUser, hrow, hurow, hex,
      TaskRepository.toEntity]
  constructor
  · show (TaskService.AssignTask db taskUUID userUUID row.CreatedByID).1 = none
    rw [hassign]
  · show TaskRepository.GetByUUID
      (TaskService.AssignTask db taskUUID userUUID row.CreatedByID).2 taskUUID = _
    rw [hassign]
    simp only [TaskRepository.GetByUUID, DB.scanTaskWithRelations, hscan,
      relUsers_updateTask, relUser_updateTask]
    simp [TaskRepository.toEntity, relUser_of_scan hurow, TaskRepository.relatedUser,
      hid, huuid', hname, hemail]

/-- Witness of amended C8 on the sample store: alice assigns bob to task 201 again. -/
theorem C8_duplicate_assign_repoints_primary_witness :
    (TaskService.AssignTask Sample.db 201 102 101).1 = none
      ∧ (TaskRepository.GetByUUID (TaskService.AssignTask Sample.db 201 102 101).2 201).map
          (fun t => (t.Users.map (fun x => x.UUID), t.AssignedToID))
        = .ok ([102], some 102) :=
  have h := C8_duplicate_assign_repoints_primary Sample.db 201 102
    (TaskRepository.toEntity
      { toTaskRow := Sample.taskT, CreatedBy := some Sample.alice,
        AssignedTo := some Sample.bob, Users := [Sample.bob] })
    { ID := 2, UUID := 102, Name := "bob", Email := "bob@example.com", Password := "h-b",
      CreatedAt := 11, UpdatedAt := 11, DeletedAt := none }
    rfl rfl ⟨TaskRepository.relatedUser Sample.bob, by decide, rfl⟩
  ⟨h.1, (congrArg _ h.2).trans rfl⟩

/-! ## C9: the flat path and `AddUserToTask` on a user who is assigned already -/

/-- C9. For a stored task whose loaded assignment set holds the user that the identifier
resolves to, the flat `Task.ValidateAndAssignTask` called by the creator fails with
"user is already assigned to this task", and the store (no new `user_tasks` row, same
`assigned_to_id`) and the in-memory task (same `AssignedToID`) are as before;
`TaskRepository.AddUserToTask` fails with the same error and leaves the store as it was. -/
theorem C9_legacy_duplicate_assign_is_reported (db : DB) (taskUUID userUUID : uuid.UUID)
    (lt : models.Task) (urow : UserRow)
    (hlt : models.FetchTaskByUUID db taskUUID = .ok lt)
    (hu : db.scanUserByUUID userUUID = .ok urow)
    (hin : urow ∈ lt.Users) :
    models.Task.ValidateAndAssignTask (some lt) db lt.CreatedByID userUUID
        = (some (.new "user is already assigned to this task"), some lt, db)
      ∧ TaskRepository.AddUserToTask db taskUUID userUUID
        = (some (.new "user is already assigned to this task"), db) := by
  obtain ⟨row, hrow, rfl⟩ := FetchTaskByUUID_ok_row hlt
  obtain ⟨_, huu, humem, _⟩ := scanUserByUUID_props hu
  have hin2 : urow ∈ db.relUsers row.ID := hin
  unfold DB.relUsers at hin2
  simp only [List.mem_flatMap, List.mem_filter, beq_iff_eq] at hin2
  obtain ⟨ut, ⟨hut, hk⟩, _, hid⟩ := hin2
  have hal : models.alreadyAssigned db row.ID userUUID = true := by
    unfold models.alreadyAssigned
    rw [List.any_eq_true]
    refine ⟨ut, hut, ?_⟩
    simp only [Bool.and_eq_true, beq_iff_eq, List.any_eq_true]
    exact ⟨hk, urow, humem, huu, hid⟩
  have hex : db.existsUserTask row.ID urow.ID = true := by
    unfold DB.existsUserTask
    rw [List.any_eq_true]
    exact ⟨ut, hut, by simp [hk, hid]⟩
  constructor
  · simp [models.Task.ValidateAndAssignTask, hal]
  · simp [TaskRepository.AddUserToTask, hrow, hu, hex]

/-- Witness of C9 on the sample store: bob is assigned to task 201 already. -/
theorem C9_legacy_duplicate_assign_is_reported_witness :
    models.Task.ValidateAndAssignTask
        (some { toTaskRow := Sample.taskT, CreatedBy := some Sample.alice,
                AssignedTo := some Sample.bob, Users := [Sample.bob] })
        Sample.db 101 102
        = (some (.new "user is already assigned to this task"),
            some { toTaskRow := Sample.taskT, CreatedBy := some Sample.alice,
                   AssignedTo := some Sample.bob, Users := [Sample.bob] },
            Sample.db)
      ∧ TaskRepository.AddUserToTask Sample.db 201 102
        = (some (.new "user is already assigned to this task"), Sample.db) :=
  C9_legacy_duplicate_assign_is_reported Sample.db 201 102
    { toTaskRow := Sample.taskT, CreatedBy := some Sample.alice,
      AssignedTo := some Sample.bob, Users := [Sample.bob] }
    Sample.bob rfl rfl (by decide)

/-! ## C10: a layered task creation that fails on its assignee list -/

/-- C10 fails on the code. On a store with the users alice, bob and carol, alice calls
`TaskUseCase.CreateTask` with the assignee list [bob, "zzz"], where "zzz" is malformed:
the call returns the error, and the store it leaves is not the store before the call;
it holds the new task, with no assignee. The same happens for the well-formed identifier
104 that resolves to no user. -/
theorem C10_layered_create_error_keeps_task :
    TaskUseCase.CreateTask Sample.parse Sample.usersOnly 30 201
        { Title := "X", Description := "", Users := [⟨"102"⟩, ⟨"zzz"⟩] } 101
        = (.error (.new "some users could not be assigned to the task: zzz (invalid format)"),
            { Sample.usersOnly with
              tasks := [{ ID := 1, UUID := 201, Title := "X", Description := "",
                          Completed := false, CreatedAt := 30, UpdatedAt := 30,
                          DeletedAt := none, CreatedByID := 101, AssignedToID := none }] })
      ∧ (TaskUseCase.CreateTask Sample.parse Sample.usersOnly 30 201
          { Title := "X", Description := "", Users := [⟨"102"⟩, ⟨"zzz"⟩] } 101).2
        ≠ Sample.usersOnly
      ∧ (TaskRepository.GetByUUID
          (TaskUseCase.CreateTask Sample.parse Sample.usersOnly 30 201
            { Title := "X", Description := "", Users := [⟨"102"⟩, ⟨"zzz"⟩] } 101).2 201).map
          (fun t => (t.Title, t.Users))
        = .ok ("X", [])
      ∧ TaskUseCase.CreateTask Sample.parse Sample.usersOnly 30 201
        { Title := "X", Description := "", Users := [⟨"102"⟩, ⟨"104"⟩] } 101
        = (.error (.new "some users could not be assigned to the task: 104 (not found)"),
            { Sample.usersOnly with
              tasks := [{ ID := 1, UUID := 201, Title := "X", Description := "",
                          Completed := false, CreatedAt := 30, UpdatedAt := 30,
                          DeletedAt := none, CreatedByID := 101, AssignedToID := none }] }) := by
  refine ⟨rfl, ?_, rfl, rfl⟩
  decide

/-! ## C12: what task creation requires and stores -/

theorem scanTaskByUUID_appended {db : DB} {fresh : uuid.UUID} (row : TaskRow)
    (hfresh : ∀ t ∈ db.tasks, t.UUID ≠ fresh) (hu : row.UUID = fresh)
    (hl : row.DeletedAt = none) :
    DB.scanTaskByUUID { db with tasks := db.tasks ++ [row] } fresh = .ok row := by
  rw [scanTaskByUUID_ok_iff]
  show List.find? _ (db.tasks ++ [row]) = some row
  rw [List.find?_append]
  have : db.tasks.find? (fun r => r.DeletedAt.isNone && r.UUID == fresh) = none := by
    rw [List.find?_eq_none]
    intro x hx
    simp [hfresh x hx]
  simp [this, hu, hl]

/-- C12. With an empty title `TaskUseCase.CreateTask` (through `entity.NewTask`) and the flat
`Task.ValidateAndCreateTask` fail with "task title is required" and return the store they
were given, for every creator, description and assignee list. With a non-empty title, an
existing creator and no assignee, both store the same new row: the task read back by
`GetByUUID` / `FetchTaskByUUID` has `Completed = false`, `CreatedByID` the invoker, no
primary assignee and no assigned user. The store is assumed to keep every `user_tasks` row
pointing to a task, and `fresh` to be unused. -/
theorem C12_create_requires_title (parse : String → Option uuid.UUID) (db : DB) (now : Time)
    (fresh creator : uuid.UUID) (title description : String)
    (users : List dto.UserAssign) (task : models.Task) (c : UserRow) :
    (TaskUseCase.CreateTask parse db now fresh
        { Title := "", Description := description, Users := users } creator
        = (.error (.new "task title is required"), db))
      ∧ (task.Title = "" →
          task.ValidateAndCreateTask db now fresh creator
            = (some (.new "task title is required"), task, db))
      ∧ (title ≠ "" → db.scanUserByUUID creator = .ok c →
          (∀ t ∈ db.tasks, t.UUID ≠ fresh) → db.UserTasksRefTasks →
          ∃ db',
            TaskUseCase.CreateTask parse db now fresh
                { Title := title, Description := description, Users := [] } creator
              = (.ok (TaskPresenter.ToDTO (some
                  { ID := db.nextTaskID, UUID := fresh, Title := title,
                    Description := description, Completed := false, CreatedAt := now,
                    UpdatedAt := now, DeletedAt := none, CreatedByID := creator,
                    AssignedToID := none,
                    CreatedBy := some (TaskRepository.relatedUser c),
                    AssignedTo := none, Users := [] })), db')
            ∧ (models.Task.ValidateAndCreateTask
                { ID := 0, UUID := 0, Title := title, Description := description,
                  Completed := false, CreatedAt := 0, UpdatedAt := 0, DeletedAt := none,
                  CreatedByID := 0, AssignedToID := none }
                db now fresh creator).1 = none
            ∧ (models.Task.ValidateAndCreateTask
                { ID := 0, UUID := 0, Title := title, Description := description,
                  Completed := false, CreatedAt := 0, UpdatedAt := 0, DeletedAt := none,
                  CreatedByID := 0, AssignedToID := none }
                db now fresh creator).2.2 = db'
            ∧ TaskRepository.GetByUUID db' fresh
              = .ok { ID := db.nextTaskID, UUID := fresh, Title := title,
                      Description := description, Completed := false, CreatedAt := now,
                      UpdatedAt := now, DeletedAt := none, CreatedByID := creator,
                      AssignedToID := none,
                      CreatedBy := some (TaskRepository.relatedUser c),
                      AssignedTo := none, Users := [] }
            ∧ models.FetchTaskByUUID db' fresh
              = .ok { ID := db.nextTaskID, UUID := fresh, Title := title,
                      Description := description, Completed := false, CreatedAt := now,
                      UpdatedAt := now, DeletedAt := none, CreatedByID := creator,
                      AssignedToID := none, CreatedBy := some c,
                      AssignedTo := none, Users := [] }) := by
  refine ⟨?_, ?_, ?_⟩
  · simp [TaskUseCase.CreateTask, entity.NewTask]
  · intro h
    simp [models.Task.ValidateAndCreateTask, h]
  · intro htitle hc hfresh href
    have hscan := @scanTaskByUUID_appended db fresh
      { ID := db.nextTaskID, UUID := fresh, Title := title, Description := description,
        Completed := false, CreatedAt := now, UpdatedAt := now, DeletedAt := none,
        CreatedByID := creator, AssignedToID := none } hfresh rfl rfl
    have hrel : DB.relUsers { db with tasks := db.tasks ++
        [{ ID := db.nextTaskID, UUID := fresh, Title := title, Description := description,
           Completed := false, CreatedAt := now, UpdatedAt := now, DeletedAt := none,
           CreatedByID := creator, AssignedToID := none }] } db.nextTaskID = [] :=
      relUsers_nextTaskID href
    have hru : DB.relUser { db with tasks := db.tasks ++
        [{ ID := db.nextTaskID, UUID := fresh, Title := title, Description := description,
           Completed := false, CreatedAt := now, UpdatedAt := now, DeletedAt := none,
           CreatedByID := creator, AssignedToID := none }] } creator = some c :=
      relUser_of_scan hc
    have hget : TaskRepository.GetByUUID { db with tasks := db.tasks ++
        [{ ID := db.nextTaskID, UUID := fresh, Title := title, Description := description,
           Completed := false, CreatedAt := now, UpdatedAt := now, DeletedAt := none,
           CreatedByID := creator, AssignedToID := none }] } fresh
        = .ok { ID := db.nextTaskID, UUID := fresh, Title := title,
                Description := description, Completed := false, CreatedAt := now,
                UpdatedAt := now, DeletedAt := none, CreatedByID := creator,
                AssignedToID := none,
                CreatedBy := some (TaskRepository.relatedUser c),
                AssignedTo := none, Users := [] } := by
      simp [TaskRepository.GetByUUID, DB.scanTaskWithRelations, hscan, hrel, hru,
        TaskRepository.toEntity]
    have hfetch : models.FetchTaskByUUID { db with tasks := db.tasks ++
        [{ ID := db.nextTaskID, UUID := fresh, Title := title, Description := description,
           Completed := false, CreatedAt := now, UpdatedAt := now, DeletedAt := none,
           CreatedByID := creator, AssignedToID := none }] } fresh
        = .ok { ID := db.nextTaskID, UUID := fresh, Title := title,
                Description := description, Completed := false, CreatedAt := now,
                UpdatedAt := now, DeletedAt := none, CreatedByID := creator,
                AssignedToID := none, CreatedBy := some c,
                AssignedTo := none, Users := [] } := by
      simp [models.FetchTaskByUUID, hscan, hrel, hru]
    have hlegacy : models.Task.ValidateAndCreateTask
        { ID := 0, UUID := 0, Title := title, Description := description,
          Completed := false, CreatedAt := 0, UpdatedAt := 0, DeletedAt := none,
          CreatedByID := 0, AssignedToID := none }
        db now fresh creator
        = (none,
            { ID := db.nextTaskID, UUID := fresh, Title := title, Description := description,
              Completed := false, CreatedAt := now, UpdatedAt := now, DeletedAt := none,
              CreatedByID := creator, AssignedToID := none },
            { db with tasks := db.tasks ++
              [{ ID := db.nextTaskID, UUID := fresh, Title := title,
                 Description := description, Completed := false, CreatedAt := now,
                 UpdatedAt := now, DeletedAt := none, CreatedByID := creator,
                 AssignedToID := none }] }) := by
      simp [models.Task.ValidateAndCreateTask, htitle, hc, DB.insertTask,
        models.Task.ValidateAndCreateTask.addUsers]
    have hrepo : UserRepository.GetByUUID db creator = .ok (UserRepository.toEntity c) := by
      simp [UserRepository.GetByUUID, hc, UserRepository.toEntity]
    refine ⟨_, ?_, ?_, ?_, hget, hfetch⟩
    · simp only [TaskUseCase.CreateTask, entity.NewTask, htitle, if_false,
        TaskService.CreateTask, hrepo, TaskRepository.Create, DB.insertTask]
      simp [TaskService.GetTaskByUUID, hget]
    · rw [hlegacy]
    · rw [hlegacy]

/-- Witness of C12 on the store with the three users: alice creates the task "X". -/
theorem C12_create_requires_title_witness :
    (TaskRepository.GetByUUID
        (TaskUseCase.CreateTask Sample.parse Sample.usersOnly 30 201
          { Title := "X", Description := "", Users := [] } 101).2 201).map
        (fun t => (t.Completed, t.CreatedByID, t.AssignedToID, t.Users))
      = .ok (false, 101, none, []) := by
  obtain ⟨db', h1, _, _, hget, _⟩ :=
    (C12_create_requires_title Sample.parse Sample.usersOnly 30 201 101 "X" "" []
      { ID := 0, UUID := 0, Title := "", Description := "", Completed := false,
        CreatedAt := 0, UpdatedAt := 0, DeletedAt := none, CreatedByID := 0,
        AssignedToID := none }
      Sample.alice).2.2
      (by decide) rfl (by decide) (by unfold DB.UserTasksRefTasks; decide)
  rw [h1, hget]
  rfl

/-! ## C14: registration with an email that is taken -/

/-- C14, as claimed, fails. On the sample store, where alice holds the email, the flat
`User.CreateUser` called with that email and an empty name answers "all fields are
required", not "email already registered". On the store where alice is soft-deleted,
`UserService.CreateUser` with her email passes the `EmailExists` check and fails on the
`unique` column with the error of the store. -/
theorem C14_counterexample_other_errors :
    models.User.CreateUser Sample.bcryptGenerate Sample.db 30 104 "" "alice@example.com" "secret"
        = (.error (.new "all fields are required"), Sample.db)
      ∧ UserService.CreateUser Sample.aliceDeleted 30
          { UUID := 104, Name := "al", Email := "alice@example.com", Password := "h" }
        = (some .duplicateKey,
            { UUID := 104, Name := "al", Email := "alice@example.com", Password := "h" },
            Sample.aliceDeleted) := by
  exact ⟨rfl, rfl⟩

theorem scanUserByEmail_of_exists {db : DB} {e : String} (h : db.existsUserEmail e = true) :
    ∃ row, db.scanUserByEmail e = .ok row := by
  unfold DB.existsUserEmail at h
  unfold DB.scanUserByEmail
  cases hf : db.liveUsers.find? (fun r => r.Email == e) with
  | some r => exact ⟨r, rfl⟩
  | none =>
    rw [List.find?_eq_none] at hf
    rw [List.any_eq_true] at h
    obtain ⟨x, hx, hxe⟩ := h
    exact absurd hxe (hf x hx)

/-- C14, amended. On a store where a user who is not soft-deleted holds the email,
`UserService.CreateUser` with that email fails with "email already registered" for every
name and password. The flat `User.CreateUser` fails for every name and password: with
"all fields are required" when the name, the email or the password is empty; with
"error hashing password: error hashing password" when none is empty and the password does
not hash; with "email already registered" when none is empty and the password hashes.
Both return the store they were given. -/
theorem C14_duplicate_email_is_rejected (bcryptGenerate : String → Option String)
    (db : DB) (now : Time) (fresh : uuid.UUID) (user : entity.User)
    (name email password : String)
    (hemail : db.existsUserEmail email = true) (huser : user.Email = email) :
    UserService.CreateUser db now user = (some (.new "email already registered"), user, db)
      ∧ (∃ err, models.User.CreateUser bcryptGenerate db now fresh name email password
          = (.error err, db))
      ∧ (name ≠ "" → email ≠ "" → password ≠ "" → (bcryptGenerate password).isSome →
          models.User.CreateUser bcryptGenerate db now fresh name email password
            = (.error (.new "email already registered"), db))
      ∧ (name = "" ∨ email = "" ∨ password = "" →
          models.User.CreateUser bcryptGenerate db now fresh name email password
            = (.error (.new "all fields are required"), db))
      ∧ (name ≠ "" → email ≠ "" → password ≠ "" → bcryptGenerate password = none →
          models.User.CreateUser bcryptGenerate db now fresh name email password
            = (.error (.new "error hashing password: error hashing password"), db)) := by
  obtain ⟨row, hrow⟩ := scanUserByEmail_of_exists hemail
  have hlast : name ≠ "" → email ≠ "" → password ≠ "" → (bcryptGenerate password).isSome →
      models.User.CreateUser bcryptGenerate db now fresh name email password
        = (.error (.new "email already registered"), db) := by
    intro h1 h2 h3 h4
    obtain ⟨hp, hhp⟩ := Option.isSome_iff_exists.mp h4
    simp [models.User.CreateUser, h1, h2, h3, helperFunc.HashPassword, hhp, hrow]
  have hempty : name = "" ∨ email = "" ∨ password = "" →
      models.User.CreateUser bcryptGenerate db now fresh name email password
        = (.error (.new "all fields are required"), db) := by
    intro hreq
    simp only [models.User.CreateUser, hreq, if_true]
  have hhash : name ≠ "" → email ≠ "" → password ≠ "" → bcryptGenerate password = none →
      models.User.CreateUser bcryptGenerate db now fresh name email password
        = (.error (.new "error hashing password: error hashing password"), db) := by
    intro h1 h2 h3 h4
    simp [models.User.CreateUser, h1, h2, h3, helperFunc.HashPassword, h4, Err.Error]
  refine ⟨?_, ?_, hlast, hempty, hhash⟩
  · simp [UserService.CreateUser, UserRepository.EmailExists, huser, hemail]
  · by_cases hreq : name = "" ∨ email = "" ∨ password = ""
    · exact ⟨_, hempty hreq⟩
    · simp only [not_or] at hreq
      cases hh : bcryptGenerate password with
      | none => exact ⟨_, hhash hreq.1 hreq.2.1 hreq.2.2 hh⟩
      | some hp => exact ⟨_, hlast hreq.1 hreq.2.1 hreq.2.2 (by simp [hh])⟩

/-- Witness of amended C14 on the sample store, with the email of alice: with a name and
a password that hashes, with an empty name, and with a password that does not hash. -/
theorem C14_duplicate_email_is_rejected_witness :
    UserService.CreateUser Sample.db 30
        { UUID := 104, Name := "al", Email := "alice@example.com", Password := "h" }
        = (some (.new "email already registered"),
            { UUID := 104, Name := "al", Email := "alice@example.com", Password := "h" },
            Sample.db)
      ∧ models.User.CreateUser Sample.bcryptGenerate Sample.db 30 104
          "al" "alice@example.com" "secret"
        = (.error (.new "email already registered"), Sample.db)
      ∧ models.User.CreateUser Sample.bcryptGenerate Sample.db 30 104
          "" "alice@example.com" "secret"
        = (.error (.new "all fields are required"), Sample.db)
      ∧ models.User.CreateUser (fun _ => none) Sample.db 30 104
          "al" "alice@example.com" "secret"
        = (.error (.new "error hashing password: error hashing password"), Sample.db) :=
  have h := C14_duplicate_email_is_rejected Sample.bcryptGenerate Sample.db 30 104
    { UUID := 104, Name := "al", Email := "alice@example.com", Password := "h" }
    "al" "alice@example.com" "secret" (by decide) rfl
  have h2 := C14_duplicate_email_is_rejected Sample.bcryptGenerate Sample.db 30 104
    { UUID := 104, Name := "al", Email := "alice@example.com", Password := "h" }
    "" "alice@example.com" "secret" (by decide) rfl
  have h3 := C14_duplicate_email_is_rejected (fun _ => none) Sample.db 30 104
    { UUID := 104, Name := "al", Email := "alice@example.com", Password := "h" }
    "al" "alice@example.com" "secret" (by decide) rfl
  ⟨h.1, h.2.2.1 (by decide) (by decide) (by decide) (by decide),
    h2.2.2.2.1 (Or.inl rfl),
    h3.2.2.2.2 (by decide) (by decide) (by decide) rfl⟩

/-! ## C16: login -/

/-- C16. When token minting succeeds for every identifier, `UserUseCase.Login` returns a
response exactly when the query by email finds a stored user and the verifier accepts the
stored hash with the given password; the response then carries that user and the token
minted for the identifier of that user; in every other case the result is the error
"invalid email or password", with no token. The flat handler `Users.Login` answers 200 with
that user and token in the same case and 401 "Invalid email or password" otherwise. -/
theorem C16_login_iff_user_and_password (authService : usecase.AuthService)
    (bcryptCompare : String → String → Bool)
    (generateJWTToken : uuid.UUID → Except Err String)
    (db : DB) (email password : String)
    (hmint : ∀ u, ∃ token, authService.GenerateToken u = .ok token)
    (hjwt : ∀ u, ∃ token, generateJWTToken u = .ok token) :
    ((∃ resp, UserUseCase.Login authService db { Email := email, Password := password }
          = .ok resp)
        ↔ ∃ urow, db.scanUserByEmail email = .ok urow
            ∧ authService.ValidatePassword urow.Password password = true)
      ∧ (∀ urow, db.scanUserByEmail email = .ok urow →
          authService.ValidatePassword urow.Password password = true →
          ∃ token, authService.GenerateToken urow.UUID = .ok token
            ∧ UserUseCase.Login authService db { Email := email, Password := password }
              = .ok { User := UserPresenter.ToDTO (UserRepository.toEntity urow),
                      Token := token })
      ∧ ((¬ ∃ urow, db.scanUserByEmail email = .ok urow
            ∧ authService.ValidatePassword urow.Password password = true) →
          UserUseCase.Login authService db { Email := email, Password := password }
            = .error (.new "invalid email or password"))
      ∧ (∀ urow, db.scanUserByEmail email = .ok urow →
          bcryptCompare urow.Password password = true →
          ∃ token, generateJWTToken urow.UUID = .ok token
            ∧ controllers.Users.Login bcryptCompare generateJWTToken db
                (some { Email := email, Password := password })
              = { status := 200, errMsg := "", user := some urow, token := some token })
      ∧ ((¬ ∃ urow, db.scanUserByEmail email = .ok urow
            ∧ bcryptCompare urow.Password password = true) →
          controllers.Users.Login bcryptCompare generateJWTToken db
              (some { Email := email, Password := password })
            = { status := 401, errMsg := "Invalid email or password", user := none,
                token := none }) := by
  have hok : ∀ urow, db.scanUserByEmail email = .ok urow →
      authService.ValidatePassword urow.Password password = true →
      ∃ token, authService.GenerateToken urow.UUID = .ok token
        ∧ UserUseCase.Login authService db { Email := email, Password := password }
          = .ok { User := UserPresenter.ToDTO (UserRepository.toEntity urow),
                  Token := token } := by
    intro urow hs hv
    obtain ⟨token, ht⟩ := hmint urow.UUID
    refine ⟨token, ht, ?_⟩
    simp [UserUseCase.Login, UserService.GetUserByEmail, UserRepository.GetByEmail, hs,
      UserRepository.toEntity, hv, ht]
  have hno : (¬ ∃ urow, db.scanUserByEmail email = .ok urow
        ∧ authService.ValidatePassword urow.Password password = true) →
      UserUseCase.Login authService db { Email := email, Password := password }
        = .error (.new "invalid email or password") := by
    intro h
    cases hs : db.scanUserByEmail email with
    | error e =>
      simp [UserUseCase.Login, UserService.GetUserByEmail, UserRepository.GetByEmail, hs]
    | ok urow =>
      have hv : authService.ValidatePassword urow.Password password = false := by
        rw [← Bool.not_eq_true]
        exact fun hv => h ⟨urow, hs, hv⟩
      simp [UserUseCase.Login, UserService.GetUserByEmail, UserRepository.GetByEmail, hs,
        UserRepository.toEntity, hv]
  refine ⟨⟨?_, ?_⟩, hok, hno, ?_, ?_⟩
  · rintro ⟨resp, hresp⟩
    by_contra h
    rw [hno h] at hresp
    exact Except.noConfusion hresp
  · rintro ⟨urow, hs, hv⟩
    obtain ⟨token, _, h⟩ := hok urow hs hv
    exact ⟨_, h⟩
  · intro urow hs hv
    obtain ⟨token, ht⟩ := hjwt urow.UUID
    refine ⟨token, ht, ?_⟩
    simp [controllers.Users.Login, models.GetUserByEmail, hs, helperFunc.VerifyPassword,
      hv, ht]
  · intro h
    cases hs : db.scanUserByEmail email with
    | error e => simp [controllers.Users.Login, models.GetUserByEmail, hs]
    | ok urow =>
      have hv : bcryptCompare urow.Password password = false := by
        rw [← Bool.not_eq_true]
        exact fun hv => h ⟨urow, hs, hv⟩
      simp [controllers.Users.Login, models.GetUserByEmail, hs, helperFunc.VerifyPassword, hv]

/-- Witness of C16 on the sample store: bob logs in with the password "b", and is refused
with the password "x". -/
theorem C16_login_iff_user_and_password_witness :
    (∃ resp, UserUseCase.Login Sample.authService Sample.db
        { Email := "bob@example.com", Password := "b" } = .ok resp)
      ∧ UserUseCase.Login Sample.authService Sample.db
          { Email := "bob@example.com", Password := "x" }
        = .error (.new "invalid email or password") :=
  have h := C16_login_iff_user_and_password Sample.authService Sample.bcryptCompare Sample.mint
    Sample.db "bob@example.com" "b" (fun u => ⟨_, rfl⟩) (fun u => ⟨_, rfl⟩)
  have h2 := C16_login_iff_user_and_password Sample.authService Sample.bcryptCompare Sample.mint
    Sample.db "bob@example.com" "x" (fun u => ⟨_, rfl⟩) (fun u => ⟨_, rfl⟩)
  ⟨h.1.mpr ⟨Sample.bob, rfl, by decide⟩,
    h2.2.2.1 (by
      rintro ⟨urow, hs, hv⟩
      have : urow = Sample.bob := (Except.ok.inj hs).symm
      subst this
      exact absurd hv (by decide))⟩

/-! ## C17: the flat registration handler and the notification sender -/

/-- C17, as claimed, fails. On the store with the three users a valid request with an unused
email is sent to `Users.Signup` while `SendSignupEmail` returns an error: the handler
answers 500 "Failed to send email", not 201, and the new user is in the store. -/
theorem C17_counterexample_email_failure_is_reported :
    controllers.Users.Signup Sample.bcryptGenerate (fun _ _ => some (.new "error sending email"))
        Sample.usersOnly 30 104
        (some { ID := 0, UUID := 0, Name := "dave", Email := "dave@example.com",
                Password := "secret", CreatedAt := 0, UpdatedAt := 0, DeletedAt := none })
      = ({ status := 500, errMsg := "Failed to send email", user := none, token := none },
          { Sample.usersOnly with
            users := Sample.usersOnly.users ++
              [{ ID := 4, UUID := 104, Name := "dave", Email := "dave@example.com",
                 Password := "h-secret", CreatedAt := 30, UpdatedAt := 30,
                 DeletedAt := none }] }) := by
  rfl

theorem scanUserByEmail_unused {db : DB} {e : String} (h : ∀ r ∈ db.users, r.Email ≠ e) :
    db.scanUserByEmail e = .error .noRows := by
  unfold DB.scanUserByEmail
  have : db.liveUsers.find? (fun r => r.Email == e) = none := by
    rw [List.find?_eq_none]
    intro x hx
    have hx2 : x ∈ db.users := (List.mem_filter.mp hx).1
    simp [h x hx2]
  rw [this]

theorem insertUser_unused {db : DB} (now : Time) (u : UserRow)
    (h : ∀ r ∈ db.users, r.Email ≠ u.Email) :
    db.insertUser now u
      = .ok ({ db with users := db.users ++
                [{ u with ID := db.nextUserID
                          CreatedAt := if u.CreatedAt = 0 then now else u.CreatedAt
                          UpdatedAt := if u.UpdatedAt = 0 then now else u.UpdatedAt }] },
              { u with ID := db.nextUserID
                       CreatedAt := if u.CreatedAt = 0 then now else u.CreatedAt
                       UpdatedAt := if u.UpdatedAt = 0 then now else u.UpdatedAt }) := by
  unfold DB.insertUser
  have : db.users.any (fun r => r.Email == u.Email) = false := by
    rw [List.any_eq_false]
    intro r hr
    simpa using h r hr
  simp [this]

/-- C17, amended. For a request with non-empty name, email and password, a password that
hashes and an email that no stored user carries, `Users.Signup` stores the user whatever
the notification sender does; it answers 201 with the created user when `SendSignupEmail`
returns no error, and 500 "Failed to send email" when it returns one. -/
theorem C17_signup_reports_email_failure (bcryptGenerate : String → Option String)
    (sendSignupEmail : String → String → Option Err)
    (db : DB) (now : Time) (fresh : uuid.UUID) (userReq : UserRow) (hashed : String)
    (hname : userReq.Name ≠ "") (hemail : userReq.Email ≠ "") (hpw : userReq.Password ≠ "")
    (hhash : bcryptGenerate userReq.Password = some hashed)
    (hunused : ∀ r ∈ db.users, r.Email ≠ userReq.Email) :
    (controllers.Users.Signup bcryptGenerate sendSignupEmail db now fresh (some userReq)).2
        = { db with users := db.users ++
              [{ ID := db.nextUserID, UUID := fresh, Name := userReq.Name,
                 Email := userReq.Email, Password := hashed, CreatedAt := now,
                 UpdatedAt := now, DeletedAt := none }] }
      ∧ (sendSignupEmail userReq.Name userReq.Email = none →
          (controllers.Users.Signup bcryptGenerate sendSignupEmail db now fresh
              (some userReq)).1
            = { status := 201, errMsg := "",
                user := some { ID := db.nextUserID, UUID := fresh, Name := userReq.Name,
                               Email := userReq.Email, Password := hashed, CreatedAt := now,
                               UpdatedAt := now, DeletedAt := none },
                token := none })
      ∧ (sendSignupEmail userReq.Name userReq.Email ≠ none →
          (controllers.Users.Signup bcryptGenerate sendSignupEmail db now fresh
              (some userReq)).1
            = { status := 500, errMsg := "Failed to send email", user := none,
                token := none }) := by
  have hcreate : models.User.CreateUser bcryptGenerate db now fresh
      userReq.Name userReq.Email userReq.Password
      = (.ok { ID := db.nextUserID, UUID := fresh, Name := userReq.Name,
               Email := userReq.Email, Password := hashed, CreatedAt := now,
               UpdatedAt := now, DeletedAt := none },
          { db with users := db.users ++
              [{ ID := db.nextUserID, UUID := fresh, Name := userReq.Name,
                 Email := userReq.Email, Password := hashed, CreatedAt := now,
                 UpdatedAt := now, DeletedAt := none }] }) := by
    have hins := @insertUser_unused db now
      { ID := 0, UUID := fresh, Name := userReq.Name, Email := userReq.Email,
        Password := hashed, CreatedAt := 0, UpdatedAt := 0, DeletedAt := none } hunused
    simp only [if_true] at hins
    simp only [models.User.CreateUser, hname, hemail, hpw, or_self, if_false,
      helperFunc.HashPassword, hhash, scanUserByEmail_unused hunused, hins]
  refine ⟨?_, ?_, ?_⟩
  · simp only [controllers.Users.Signup, hcreate]
    cases hs : sendSignupEmail userReq.Name userReq.Email <;> rfl
  · intro hs
    simp only [controllers.Users.Signup, hcreate, hs]
  · intro hs
    cases hs2 : sendSignupEmail userReq.Name userReq.Email with
    | none => exact absurd hs2 hs
    | some e => simp only [controllers.Users.Signup, hcreate, hs2]

/-- Witness of amended C17 on the store with the three users: dave registers while the
sender fails. -/
theorem C17_signup_reports_email_failure_witness :
    (controllers.Users.Signup Sample.bcryptGenerate
        (fun _ _ => some (.new "error sending email")) Sample.usersOnly 30 104
        (some { ID := 0, UUID := 0, Name := "dave", Email := "dave@example.com",
                Password := "secret", CreatedAt := 0, UpdatedAt := 0, DeletedAt := none })).1
      = { status := 500, errMsg := "Failed to send email", user := none, token := none } :=
  (C17_signup_reports_email_failure Sample.bcryptGenerate
    (fun _ _ => some (.new "error sending email")) Sample.usersOnly 30 104
    { ID := 0, UUID := 0, Name := "dave", Email := "dave@example.com",
      Password := "secret", CreatedAt := 0, UpdatedAt := 0, DeletedAt := none }
    "h-secret" (by decide) (by decide) (by decide) rfl (by decide)).2.2 (by decide)

/-! ## C18: the layered registration and the notification sender -/

/-- C18. The result of `UserUseCase.CreateUser`, the returned user or error and the store,
is the same for any two email services, absent, succeeding or failing, on every request
and store. -/
theorem C18_create_user_ignores_email_service (authService : usecase.AuthService)
    (emailService emailService2 : Option usecase.EmailService)
    (db : DB) (now : Time) (fresh : uuid.UUID) (req : dto.CreateUserRequest) :
    UserUseCase.CreateUser authService emailService db now fresh req
      = UserUseCase.CreateUser authService emailService2 db now fresh req := by
  unfold UserUseCase.CreateUser
  cases authService.HashPassword req.Password with
  | error e => rfl
  | ok hashedPassword =>
    cases entity.NewUser req.Name req.Email hashedPassword now fresh with
    | error e => rfl
    | ok user =>
      rcases UserService.CreateUser db now user with ⟨_ | err, user2, db2⟩ <;> rfl

/-! ## C19: deletion by the creator -/

theorem scanTaskByUUID_eq_find (db : DB) (u : uuid.UUID) :
    db.scanTaskByUUID u =
      match db.tasks.find? (fun r => r.DeletedAt.isNone && r.UUID == u) with
      | some r => .ok r
      | none => .error .noRows := by
  unfold DB.scanTaskByUUID DB.liveTasks
  rw [List.find?_filter]
  simp only [Bool.decide_and, Bool.decide_eq_true]


theorem find?_map_same
 {α : Type} (p : α → Bool) (g : α → α) (l : List α)
    (h : ∀ x ∈ l, (p x = true ∨ p (g x) = true) → g x = x) :
    (l.map g).find? p = l.find? p := by
  induction l with
  | nil => rfl
  | cons x xs ih =>
    have ih2 := ih (fun y hy => h y (List.mem_cons_of_mem _ hy))
    have hx := h x (List.mem_cons_self _ _)
    rw [List.map_cons, List.find?_cons, List.find?_cons, ih2]
    by_cases h1 : p x = true
    · rw [hx (Or.inl h1)]
    · by_cases h2 : p (g x) = true
      · rw [hx (Or.inr h2)]
      · simp only [Bool.not_eq_true] at h1 h2
        rw [h1, h2]

theorem tasksPK_eq {db : DB} (hpk : db.TasksPK) {r row : TaskRow}
    (hr : r ∈ db.tasks) (hrow : row ∈ db.tasks) (hid : r.ID = row.ID) : r = row :=
  List.inj_on_of_nodup_map hpk hr hrow hid

theorem taskUUIDs_eq {db : DB} (hu : db.TaskUUIDsUnique) {r row : TaskRow}
    (hr : r ∈ db.tasks) (hrow : row ∈ db.tasks) (hid : r.UUID = row.UUID) : r = row :=
  List.inj_on_of_nodup_map hu hr hrow hid

theorem scan_deleted {db : DB} {u : uuid.UUID} {row : TaskRow} (now : Time)
    (hrow : db.scanTaskByUUID u = .ok row) (huu : db.TaskUUIDsUnique) :
    (db.deleteTaskWherePK now row.ID).scanTaskByUUID u = .error .noRows := by
  obtain ⟨hlv, huuid, hmem⟩ := scanTaskByUUID_props hrow
  rw [scanTaskByUUID_eq_find]
  have : (db.deleteTaskWherePK now row.ID).tasks.find?
      (fun r => r.DeletedAt.isNone && r.UUID == u) = none := by
    rw [List.find?_eq_none]
    intro x hx
    simp only [DB.deleteTaskWherePK, DB.updateTaskWherePK, List.mem_map] at hx
    obtain ⟨y, hy, rfl⟩ := hx
    by_cases hc : (y.ID == row.ID && y.DeletedAt.isNone) = true
    · simp [hc]
    · simp only [hc]
      intro hp
      simp only [Bool.and_eq_true, Option.isNone_iff_eq_none, beq_iff_eq] at hp
      have hyrow : y = row := taskUUIDs_eq huu hy hmem (hp.2.trans huuid.symm)
      apply hc
      simp [hyrow, hlv]
  rw [this]

theorem scan_other_after_delete {db : DB} {u u2 : uuid.UUID} {row : TaskRow} (now : Time)
    (hrow : db.scanTaskByUUID u = .ok row) (hpk : db.TasksPK) (hne : u2 ≠ u) :
    (db.deleteTaskWherePK now row.ID).scanTaskByUUID u2 = db.scanTaskByUUID u2 := by
  obtain ⟨hlv, huuid, hmem⟩ := scanTaskByUUID_props hrow
  rw [scanTaskByUUID_eq_find, scanTaskByUUID_eq_find]
  have : (db.deleteTaskWherePK now row.ID).tasks.find?
      (fun r => r.DeletedAt.isNone && r.UUID == u2)
      = db.tasks.find? (fun r => r.DeletedAt.isNone && r.UUID == u2) := by
    apply find?_map_same
    intro x hx hp
    by_cases hc : (x.ID == row.ID && x.DeletedAt.isNone) = true
    · exfalso
      simp only [Bool.and_eq_true, beq_iff_eq, Option.isNone_iff_eq_none] at hc
      have hxrow : x = row := tasksPK_eq hpk hx hmem hc.1
      subst hxrow
      simp [hc, huuid, hne.symm, hlv] at hp
    · simp only [hc]
      simp
  rw [this]

/-- C19, as claimed, fails. On the sample store alice deletes her task 201 (key 1), to which
bob is assigned: both implementations return no error and the task is no longer found,
but the row of `user_tasks` that assigns bob to the task is still in the store. -/
theorem C19_counterexample_assignment_rows_remain :
    (TaskService.DeleteTask Sample.db 40 201 101).1 = none
      ∧ TaskRepository.GetByUUID (TaskService.DeleteTask Sample.db 40 201 101).2 201
        = .error .noRows
      ∧ { TaskID := 1, UserID := 2 } ∈ (TaskService.DeleteTask Sample.db 40 201 101).2.user_tasks
      ∧ (models.Task.DeleteTask
          { toTaskRow := Sample.taskT, CreatedBy := some Sample.alice,
            AssignedTo := some Sample.bob, Users := [Sample.bob] }
          Sample.db 40 101).1 = none
      ∧ { TaskID := 1, UserID := 2 } ∈
          (models.Task.DeleteTask
            { toTaskRow := Sample.taskT, CreatedBy := some Sample.alice,
              AssignedTo := some Sample.bob, Users := [Sample.bob] }
            Sample.db 40 101).2.user_tasks := by
  refine ⟨rfl, rfl, ?_, rfl, ?_⟩ <;> decide

/-- C19, amended. For a stored task, `TaskService.DeleteTask` and the flat `Task.DeleteTask`
called by the creator return no error and leave the same store: the row of the task is kept
with `deleted_at = now`, so `GetByUUID` / `FetchTaskByUUID` no longer find the task; the
tables `user_tasks` and `users` are as before (the assignment rows of the task stay), and
every other task reads back as before. The store is assumed to keep `tasks.id` and
`tasks.uuid` unique. -/
theorem C19_delete_by_creator_soft_deletes (db : DB) (now : Time) (taskUUID : uuid.UUID)
    (t : entity.Task) (lt : models.Task)
    (ht : TaskRepository.GetByUUID db taskUUID = .ok t)
    (hlt : models.FetchTaskByUUID db taskUUID = .ok lt)
    (hpk : db.TasksPK) (huu : db.TaskUUIDsUnique) :
    TaskService.DeleteTask db now taskUUID t.CreatedByID
        = (none, db.deleteTaskWherePK now t.ID)
      ∧ models.Task.DeleteTask lt db now lt.CreatedByID
        = (none, db.deleteTaskWherePK now t.ID)
      ∧ TaskRepository.GetByUUID (db.deleteTaskWherePK now t.ID) taskUUID = .error .noRows
      ∧ models.FetchTaskByUUID (db.deleteTaskWherePK now t.ID) taskUUID = .error .noRows
      ∧ (∃ r ∈ (db.deleteTaskWherePK now t.ID).tasks,
          r.ID = t.ID ∧ r.UUID = taskUUID ∧ r.DeletedAt = some now)
      ∧ (db.deleteTaskWherePK now t.ID).user_tasks = db.user_tasks
      ∧ (db.deleteTaskWherePK now t.ID).users = db.users
      ∧ (∀ u2, u2 ≠ taskUUID →
          TaskRepository.GetByUUID (db.deleteTaskWherePK now t.ID) u2
              = TaskRepository.GetByUUID db u2
            ∧ models.FetchTaskByUUID (db.deleteTaskWherePK now t.ID) u2
              = models.FetchTaskByUUID db u2) := by
  obtain ⟨row, hrow, rfl⟩ := GetByUUID_ok_row ht
  obtain ⟨row2, hrow2, rfl⟩ := FetchTaskByUUID_ok_row hlt
  have hrr : row2 = row := by
    rw [hrow] at hrow2
    exact (Except.ok.inj hrow2).symm
  subst hrr
  obtain ⟨hlv, huuid, hmem⟩ := scanTaskByUUID_props hrow
  have hdel := scan_deleted now hrow huu
  refine ⟨?_, ?_, ?_, ?_, ?_, rfl, rfl, ?_⟩
  · simp [TaskService.DeleteTask, ht, TaskRepository.toEntity, TaskRepository.Delete, hrow]
  · simp [models.Task.DeleteTask, TaskRepository.toEntity]
  · show TaskRepository.GetByUUID (db.deleteTaskWherePK now row2.ID) taskUUID = _
    simp [TaskRepository.GetByUUID, DB.scanTaskWithRelations, hdel]
  · show models.FetchTaskByUUID (db.deleteTaskWherePK now row2.ID) taskUUID = _
    simp [models.FetchTaskByUUID, hdel]
  · refine ⟨{ row2 with DeletedAt := some now }, ?_, rfl, huuid, rfl⟩
    show _ ∈ (db.deleteTaskWherePK now row2.ID).tasks
    simp only [DB.deleteTaskWherePK, DB.updateTaskWherePK, List.mem_map]
    exact ⟨row2, hmem, by simp [hlv]⟩
  · intro u2 hne
    have hs := scan_other_after_delete now hrow hpk hne
    constructor
    · show TaskRepository.GetByUUID (db.deleteTaskWherePK now row2.ID) u2 = _
      simp only [TaskRepository.GetByUUID, DB.scanTaskWithRelations, hs]
      rfl
    · show models.FetchTaskByUUID (db.deleteTaskWherePK now row2.ID) u2 = _
      simp only [models.FetchTaskByUUID, hs]
      rfl

/-- Witness of amended C19 on the sample store: alice deletes her task 201; the completed
task 202 reads back as before. -/
theorem C19_delete_by_creator_soft_deletes_witness :
    TaskService.DeleteTask Sample.db 40 201 101 = (none, Sample.db.deleteTaskWherePK 40 1)
      ∧ TaskRepository.GetByUUID (Sample.db.deleteTaskWherePK 40 1) 201 = .error .noRows
      ∧ TaskRepository.GetByUUID (Sample.db.deleteTaskWherePK 40 1) 202
        = TaskRepository.GetByUUID Sample.db 202 :=
  have h := C19_delete_by_creator_soft_deletes Sample.db 40 201
    (TaskRepository.toEntity
      { toTaskRow := Sample.taskT, CreatedBy := some Sample.alice,
        AssignedTo := some Sample.bob, Users := [Sample.bob] })
    { toTaskRow := Sample.taskT, CreatedBy := some Sample.alice,
      AssignedTo := some Sample.bob, Users := [Sample.bob] }
    rfl rfl (by unfold DB.TasksPK; decide) (by unfold DB.TaskUUIDsUnique; decide)
  ⟨h.1, h.2.2.1, (h.2.2.2.2.2.2.2 202 (by decide)).1⟩

/-! ## What every write to a stored task keeps -/

theorem insertUserTask_tasks {db tx : DB} {ut : UserTask} (h : db.insertUserTask ut = .ok tx) :
    tx.tasks = db.tasks := by
  unfold DB.insertUserTask at h
  split at h
  · exact Except.noConfusion h
  · have := Except.ok.inj h
    subst this
    rfl

/-- Shape of the table `tasks` after `TaskRepository.AssignTaskToUser`. -/
theorem AssignTaskToUser_tasks (db : DB) (taskUUID userUUID : uuid.UUID) :
    (TaskRepository.AssignTaskToUser db taskUUID userUUID).2.tasks = db.tasks
      ∨ ∃ id, (TaskRepository.AssignTaskToUser db taskUUID userUUID).2.tasks
          = db.tasks.map (fun r => if r.ID == id && r.DeletedAt.isNone
              then { r with AssignedToID := some userUUID } else r) := by
  unfold TaskRepository.AssignTaskToUser
  cases h1 : db.scanTaskByUUID taskUUID with
  | error e => left; rfl
  | ok dbTask =>
    cases h2 : db.scanUserByUUID userUUID with
    | error e => left; rfl
    | ok dbUser =>
      simp only
      cases hex : db.existsUserTask dbTask.ID dbUser.ID with
      | true =>
        right
        exact ⟨dbTask.ID, by simp [DB.updateTaskWherePK]⟩
      | false =>
        cases h3 : db.insertUserTask { TaskID := dbTask.ID, UserID := dbUser.ID } with
        | error e => left; simp [h3]
        | ok tx =>
          right
          refine ⟨dbTask.ID, ?_⟩
          simp [h3, DB.updateTaskWherePK, insertUserTask_tasks h3]

theorem AssignTask_tasks (db : DB) (taskUUID userUUID requestorUUID : uuid.UUID) :
    (TaskService.AssignTask db taskUUID userUUID requestorUUID).2.tasks = db.tasks
      ∨ ∃ id, (TaskService.AssignTask db taskUUID userUUID requestorUUID).2.tasks
          = db.tasks.map (fun r => if r.ID == id && r.DeletedAt.isNone
              then { r with AssignedToID := some userUUID } else r) := by
  unfold TaskService.AssignTask
  cases h1 : TaskRepository.GetByUUID db taskUUID with
  | error e => left; rfl
  | ok task =>
    simp only
    split
    · left; rfl
    · cases h2 : UserRepository.GetByUUID db userUUID with
      | error e => left; rfl
      | ok u => exact AssignTaskToUser_tasks db taskUUID userUUID

theorem CompleteTask_tasks (db : DB) (now : Time) (taskUUID userUUID : uuid.UUID) :
    (TaskService.CompleteTask db now taskUUID userUUID).2.tasks = db.tasks
      ∨ ∃ task : entity.Task, (TaskService.CompleteTask db now taskUUID userUUID).2.tasks
          = db.tasks.map (fun r => if r.ID == task.ID && r.DeletedAt.isNone
              then { r with Title := task.Title, Description := task.Description,
                            Completed := true, UpdatedAt := task.UpdatedAt,
                            AssignedToID := task.AssignedToID } else r) := by
  unfold TaskService.CompleteTask
  cases h1 : TaskRepository.GetByUUID db taskUUID with
  | error e => left; rfl
  | ok task =>
    simp only
    split
    · left; rfl
    · rcases hcomp : task.Complete now with ⟨_ | err, task2⟩
      · have hdone : task2.Completed = true := by
          unfold entity.Task.Complete at hcomp
          split at hcomp
          · simp at hcomp
          · simp only [Prod.mk.injEq, true_and] at hcomp
            rw [← hcomp]
        right
        exact ⟨task2, by simp [TaskRepository.Update, DB.updateTaskWherePK, hdone]⟩
      · left; rfl

theorem ValidateAndAssignTask_tasks (task : Option models.Task) (db : DB)
    (creatorUUID assignedUserUUID : uuid.UUID) :
    (models.Task.ValidateAndAssignTask task db creatorUUID assignedUserUUID).2.2.tasks = db.tasks
      ∨ ∃ id, (models.Task.ValidateAndAssignTask task db creatorUUID assignedUserUUID).2.2.tasks
          = db.tasks.map (fun r => if r.ID == id && r.DeletedAt.isNone
              then { r with AssignedToID := some assignedUserUUID } else r) := by
  unfold models.Task.ValidateAndAssignTask
  cases task with
  | none => left; rfl
  | some task =>
    simp only
    split
    · left; rfl
    · split
      · left; rfl
      · cases h2 : db.scanUserByUUID assignedUserUUID with
        | error e => left; rfl
        | ok u =>
          cases h3 : db.insertUserTask { TaskID := task.ID, UserID := u.ID } with
          | error e => left; simp only [h3]
          | ok tx =>
            right
            exact ⟨task.ID, by simp [h3, DB.updateTaskWherePK, insertUserTask_tasks h3]⟩

theorem legacy_Complete_tasks (task : models.Task) (db : DB) (userUUID : uuid.UUID) :
    (models.Task.Complete task db userUUID).2.2.tasks = db.tasks
      ∨ ∃ row, row ∈ db.tasks ∧ row.DeletedAt = none
          ∧ (models.Task.Complete task db userUUID).2.2.tasks
            = db.tasks.map (fun r => if r.ID == row.ID && r.DeletedAt.isNone
                then { row with Completed := true } else r) := by
  unfold models.Task.Complete
  split
  · left; rfl
  · cases h1 : db.scanTaskByUUID task.UUID with
    | error e => left; rfl
    | ok row =>
      obtain ⟨hlv, _, hmem⟩ := scanTaskByUUID_props h1
      simp only
      split
      · left; rfl
      · right
        exact ⟨row, hmem, hlv, rfl⟩

theorem Kept_refl (b : Bool) (r : TaskRow) : TaskRow.Kept b r r :=
  ⟨rfl, rfl, rfl, rfl, fun _ h => h⟩

theorem Kept_trans {b : Bool} {r1 r2 r3 : TaskRow}
    (h1 : TaskRow.Kept b r1 r2) (h2 : TaskRow.Kept b r2 r3) : TaskRow.Kept b r1 r3 :=
  ⟨h2.1.trans h1.1, h2.2.1.trans h1.2.1, h2.2.2.1.trans h1.2.2.1,
    h2.2.2.2.1.trans h1.2.2.2.1, fun hb hc => h2.2.2.2.2 hb (h1.2.2.2.2 hb hc)⟩

theorem forall2_trans {α : Type} {R : α → α → Prop}
    (ht : ∀ a b c, R a b → R b c → R a c) :
    ∀ {l1 l2 l3 : List α}, List.Forall₂ R l1 l2 → List.Forall₂ R l2 l3 → List.Forall₂ R l1 l3
  | _, _, _, .nil, .nil => .nil
  | _, _, _, .cons h1 t1, .cons h2 t2 => .cons (ht _ _ _ h1 h2) (forall2_trans ht t1 t2)

theorem forall2_map_self {α : Type} {R : α → α → Prop} (l : List α) (g : α → α)
    (h : ∀ r ∈ l, R r (g r)) : List.Forall₂ R l (l.map g) := by
  rw [List.forall₂_map_right_iff, List.forall₂_same]
  exact h

theorem Kept_of_tasks_eq (b : Bool) {db db2 : DB} (h : db2.tasks = db.tasks) :
    List.Forall₂ (TaskRow.Kept b) db.tasks db2.tasks := by
  rw [h, List.forall₂_same]
  exact fun r _ => Kept_refl b r

theorem Kept_of_assign (b : Bool) {db db2 : DB} (id : Nat) (a : Option uuid.UUID)
    (h : db2.tasks = db.tasks.map (fun r => if r.ID == id && r.DeletedAt.isNone
      then { r with AssignedToID := a } else r)) :
    List.Forall₂ (TaskRow.Kept b) db.tasks db2.tasks := by
  rw [h]
  apply forall2_map_self
  intro r _
  split
  · exact ⟨rfl, rfl, rfl, rfl, fun _ hc => hc⟩
  · exact Kept_refl b r

/-- Each operation keeps every row of `tasks` in the sense of `TaskRow.Kept`; the completed
flag is kept raised by every operation but a bare `TaskRepository.Update`. -/
theorem TaskOp_run_kept (op : TaskOp) (db : DB) (hpk : db.TasksPK) :
    List.Forall₂ (TaskRow.Kept op.viaServices) db.tasks (op.run db).tasks := by
  cases op with
  | assign taskUUID userUUID requestorUUID =>
    rcases AssignTask_tasks db taskUUID userUUID requestorUUID with h | ⟨id, h⟩
    · exact Kept_of_tasks_eq _ h
    · exact Kept_of_assign _ id _ h
  | complete now taskUUID userUUID =>
    rcases CompleteTask_tasks db now taskUUID userUUID with h | ⟨task, h⟩
    · exact Kept_of_tasks_eq _ h
    · show List.Forall₂ _ db.tasks (TaskService.CompleteTask db now taskUUID userUUID).2.tasks
      rw [h]
      apply forall2_map_self
      intro r _
      split
      · exact ⟨rfl, rfl, rfl, rfl, fun _ _ => rfl⟩
      · exact Kept_refl _ r
  | update task =>
    show List.Forall₂ _ db.tasks (TaskRepository.Update db task).2.tasks
    simp only [TaskRepository.Update, DB.updateTaskWherePK]
    apply forall2_map_self
    intro r _
    split
    · exact ⟨rfl, rfl, rfl, rfl, fun hb _ => absurd hb (by simp [TaskOp.viaServices])⟩
    · exact Kept_refl _ r
  | legacyAssign task creatorUUID assignedUserUUID =>
    rcases ValidateAndAssignTask_tasks task db creatorUUID assignedUserUUID with h | ⟨id, h⟩
    · exact Kept_of_tasks_eq _ h
    · exact Kept_of_assign _ id _ h
  | legacyComplete task userUUID =>
    rcases legacy_Complete_tasks task db userUUID with h | ⟨row, hmem, hlv, h⟩
    · exact Kept_of_tasks_eq _ h
    · show List.Forall₂ _ db.tasks (models.Task.Complete task db userUUID).2.2.tasks
      rw [h]
      apply forall2_map_self
      intro r hr
      split
      · rename_i hc
        simp only [Bool.and_eq_true, beq_iff_eq, Option.isNone_iff_eq_none] at hc
        have hrr : r = row := List.inj_on_of_nodup_map hpk hr hmem hc.1
        subst hrr
        exact ⟨rfl, rfl, rfl, rfl, fun _ _ => rfl⟩
      · exact Kept_refl _ r

theorem TasksPK_of_kept {b : Bool} {l l2 : List TaskRow}
    (h : List.Forall₂ (TaskRow.Kept b) l l2) :
    l2.map (fun t => t.ID) = l.map (fun t => t.ID) := by
  induction h with
  | nil => rfl
  | cons h1 _ ih => simp [h1.1, ih]

theorem Kept_weaken {b : Bool} {l l2 : List TaskRow}
    (h : List.Forall₂ (TaskRow.Kept b) l l2) : List.Forall₂ (TaskRow.Kept false) l l2 :=
  h.imp (fun _ _ hk => ⟨hk.1, hk.2.1, hk.2.2.1, hk.2.2.2.1, fun hb => absurd hb (by simp)⟩)

theorem TaskOp_runAll_kept (b : Bool) :
    ∀ (ops : List TaskOp) (db : DB), db.TasksPK →
      (∀ op ∈ ops, b = true → op.viaServices = true) →
      List.Forall₂ (TaskRow.Kept b) db.tasks (TaskOp.runAll ops db).tasks := by
  intro ops
  induction ops with
  | nil =>
    intro db _ _
    exact List.forall₂_same.mpr (fun r _ => Kept_refl b r)
  | cons op ops ih =>
    intro db hpk hsvc
    have h1 := TaskOp_run_kept op db hpk
    have hpk2 : (op.run db).TasksPK := by
      unfold DB.TasksPK
      rw [TasksPK_of_kept h1]
      exact hpk
    have h1b : List.Forall₂ (TaskRow.Kept b) db.tasks (op.run db).tasks := by
      cases b with
      | false => exact Kept_weaken h1
      | true =>
        rw [hsvc op (List.mem_cons_self _ _) rfl] at h1
        exact h1
    have h2 := ih (op.run db) hpk2 (fun o ho => hsvc o (List.mem_cons_of_mem _ ho))
    exact @forall2_trans TaskRow (TaskRow.Kept b) (fun _ _ _ ha hb => Kept_trans ha hb)
      _ _ _ h1b h2

/-- A scan by identifier on two tables related row by row by `TaskRow.Kept`. -/
theorem scan_of_kept {b : Bool} {db db2 : DB} {u : uuid.UUID} {row : TaskRow}
    (h : List.Forall₂ (TaskRow.Kept b) db.tasks db2.tasks)
    (hrow : db.scanTaskByUUID u = .ok row) :
    ∃ row2, db2.scanTaskByUUID u = .ok row2 ∧ TaskRow.Kept b row row2 := by
  rw [scanTaskByUUID_ok_iff] at hrow
  have key : ∀ (l l2 : List TaskRow), List.Forall₂ (TaskRow.Kept b) l l2 →
      l.find? (fun r => r.DeletedAt.isNone && r.UUID == u) = some row →
      ∃ row2, l2.find? (fun r => r.DeletedAt.isNone && r.UUID == u) = some row2
        ∧ TaskRow.Kept b row row2 := by
    intro l l2 hl
    induction hl with
    | nil => intro hf; simp at hf
    | @cons a a2 t t2 h1 _ ih =>
      intro hf
      have hp : (a2.DeletedAt.isNone && a2.UUID == u) = (a.DeletedAt.isNone && a.UUID == u) := by
        rw [h1.2.1, h1.2.2.2.1]
      rw [List.find?_cons] at hf ⊢
      rw [hp]
      cases hc : (a.DeletedAt.isNone && a.UUID == u) with
      | true =>
        rw [hc] at hf
        simp only [Option.some.injEq] at hf
        subst hf
        exact ⟨a2, rfl, h1⟩
      | false =>
        rw [hc] at hf
        exact ih hf
  obtain ⟨row2, h2, hk⟩ := key _ _ h hrow
  exact ⟨row2, scanTaskByUUID_ok_iff.mpr h2, hk⟩

theorem GetByUUID_of_kept {b : Bool} {db db2 : DB} {u : uuid.UUID} {t : entity.Task}
    (h : List.Forall₂ (TaskRow.Kept b) db.tasks db2.tasks)
    (ht : TaskRepository.GetByUUID db u = .ok t) :
    ∃ t2, TaskRepository.GetByUUID db2 u = .ok t2 ∧ t2.ID = t.ID ∧ t2.UUID = t.UUID
      ∧ t2.CreatedByID = t.CreatedByID
      ∧ (b = true → t.Completed = true → t2.Completed = true) := by
  obtain ⟨row, hrow, rfl⟩ := GetByUUID_ok_row ht
  obtain ⟨row2, hrow2, hk⟩ := scan_of_kept h hrow
  have hget : TaskRepository.GetByUUID db2 u = .ok (TaskRepository.toEntity
      { toTaskRow := row2, CreatedBy := db2.relUser row2.CreatedByID,
        AssignedTo := row2.AssignedToID.bind db2.relUser, Users := db2.relUsers row2.ID }) := by
    simp only [TaskRepository.GetByUUID, DB.scanTaskWithRelations, hrow2]
  exact ⟨_, hget, hk.1, hk.2.1, hk.2.2.1, hk.2.2.2.2⟩

theorem FetchTaskByUUID_of_kept {b : Bool} {db db2 : DB} {u : uuid.UUID} {lt : models.Task}
    (h : List.Forall₂ (TaskRow.Kept b) db.tasks db2.tasks)
    (hlt : models.FetchTaskByUUID db u = .ok lt) :
    ∃ lt2, models.FetchTaskByUUID db2 u = .ok lt2 ∧ lt2.ID = lt.ID ∧ lt2.UUID = lt.UUID
      ∧ lt2.CreatedByID = lt.CreatedByID
      ∧ (b = true → lt.Completed = true → lt2.Completed = true) := by
  obtain ⟨row, hrow, rfl⟩ := FetchTaskByUUID_ok_row hlt
  obtain ⟨row2, hrow2, hk⟩ := scan_of_kept h hrow
  have hget : models.FetchTaskByUUID db2 u = .ok
      { toTaskRow := row2, CreatedBy := db2.relUser row2.CreatedByID,
        AssignedTo := row2.AssignedToID.bind db2.relUser, Users := db2.relUsers row2.ID } := by
    simp only [models.FetchTaskByUUID, hrow2]
  exact ⟨_, hget, hk.1, hk.2.1, hk.2.2.1, hk.2.2.2.2⟩

/-! ## C13: the creator of a task never changes -/

/-- C13. After any sequence of `TaskService.AssignTask`, `TaskService.CompleteTask`,
`TaskRepository.Update`, flat `Task.ValidateAndAssignTask` and flat `Task.Complete` calls,
successful or failed, with any arguments, every row of `tasks` has the key, the identifier
and the `created_by_id` it had before; so a task that was stored reads back, through
`GetByUUID` and `FetchTaskByUUID`, with the `CreatedByID` it had. The store is assumed to
keep `tasks.id` unique. -/
theorem C13_created_by_is_immutable (ops : List TaskOp) (db : DB) (hpk : db.TasksPK) :
    List.Forall₂ (TaskRow.Kept false) db.tasks (TaskOp.runAll ops db).tasks
      ∧ (∀ u t, TaskRepository.GetByUUID db u = .ok t →
          ∃ t2, TaskRepository.GetByUUID (TaskOp.runAll ops db) u = .ok t2
            ∧ t2.CreatedByID = t.CreatedByID)
      ∧ (∀ u lt, models.FetchTaskByUUID db u = .ok lt →
          ∃ lt2, models.FetchTaskByUUID (TaskOp.runAll ops db) u = .ok lt2
            ∧ lt2.CreatedByID = lt.CreatedByID) := by
  have h := TaskOp_runAll_kept false ops db hpk (fun _ _ hb => absurd hb (by simp))
  refine ⟨h, ?_, ?_⟩
  · intro u t ht
    obtain ⟨t2, h2, _, _, hc, _⟩ := GetByUUID_of_kept h ht
    exact ⟨t2, h2, hc⟩
  · intro u lt hlt
    obtain ⟨lt2, h2, _, _, hc, _⟩ := FetchTaskByUUID_of_kept h hlt
    exact ⟨lt2, h2, hc⟩

/-- Witness of C13 on the sample store: carol is assigned to task 201 and completes it, the
task is rewritten through `Update`, then the flat methods run on a stale copy; the task
still reads back with alice as creator. -/
theorem C13_created_by_is_immutable_witness :
    ∃ t2, TaskRepository.GetByUUID
        (TaskOp.runAll
          [.assign 201 103 101, .complete 30 201 103,
           .update { ID := 1, Title := "renamed", CreatedByID := 103 },
           .legacyAssign (some { toTaskRow := Sample.taskT }) 101 101,
           .legacyComplete { toTaskRow := Sample.taskT } 101]
          Sample.db) 201 = .ok t2
      ∧ t2.CreatedByID = 101 :=
  (C13_created_by_is_immutable
    [.assign 201 103 101, .complete 30 201 103,
     .update { ID := 1, Title := "renamed", CreatedByID := 103 },
     .legacyAssign (some { toTaskRow := Sample.taskT }) 101 101,
     .legacyComplete { toTaskRow := Sample.taskT } 101]
    Sample.db (by unfold DB.TasksPK; decide)).2.1 201
    (TaskRepository.toEntity
      { toTaskRow := Sample.taskT, CreatedBy := some Sample.alice,
        AssignedTo := some Sample.bob, Users := [Sample.bob] })
    rfl

/-! ## C20: completion is one-way -/

/-- C20. After any sequence of `TaskService.AssignTask`, `TaskService.CompleteTask`, flat
`Task.ValidateAndAssignTask` and flat `Task.Complete` calls, by any requestor and with any
arguments, every row of `tasks` whose `completed` was true still has it true (and keeps its
key, identifier and soft-delete mark); so a stored completed task reads back completed.
A bare `TaskRepository.Update` is excluded: the services issue it from `CompleteTask` only.
The store is assumed to keep `tasks.id` unique. -/
theorem C20_completion_is_one_way (ops : List TaskOp) (db : DB) (hpk : db.TasksPK)
    (hsvc : ∀ op ∈ ops, op.viaServices = true) :
    List.Forall₂ (TaskRow.Kept true) db.tasks (TaskOp.runAll ops db).tasks
      ∧ (∀ u t, TaskRepository.GetByUUID db u = .ok t → t.Completed = true →
          ∃ t2, TaskRepository.GetByUUID (TaskOp.runAll ops db) u = .ok t2
            ∧ t2.Completed = true)
      ∧ (∀ u lt, models.FetchTaskByUUID db u = .ok lt → lt.Completed = true →
          ∃ lt2, models.FetchTaskByUUID (TaskOp.runAll ops db) u = .ok lt2
            ∧ lt2.Completed = true) := by
  have h := TaskOp_runAll_kept true ops db hpk (fun op hop _ => hsvc op hop)
  refine ⟨h, ?_, ?_⟩
  · intro u t ht hc
    obtain ⟨t2, h2, _, _, _, hd⟩ := GetByUUID_of_kept h ht
    exact ⟨t2, h2, hd rfl hc⟩
  · intro u lt hlt hc
    obtain ⟨lt2, h2, _, _, _, hd⟩ := FetchTaskByUUID_of_kept h hlt
    exact ⟨lt2, h2, hd rfl hc⟩

/-- Witness of C20 on the sample store: on the completed task 202, a second completion,
an assignment and the flat methods on a stale copy that says "not completed" leave the
task completed. -/
theorem C20_completion_is_one_way_witness :
    ∃ t2, TaskRepository.GetByUUID
        (TaskOp.runAll
          [.complete 30 202 101, .assign 202 103 101,
           .legacyComplete { toTaskRow := { Sample.taskDone with Completed := false } } 101,
           .legacyAssign (some { toTaskRow := Sample.taskDone }) 101 101]
          Sample.db) 202 = .ok t2
      ∧ t2.Completed = true :=
  (C20_completion_is_one_way
    [.complete 30 202 101, .assign 202 103 101,
     .legacyComplete { toTaskRow := { Sample.taskDone with Completed := false } } 101,
     .legacyAssign (some { toTaskRow := Sample.taskDone }) 101 101]
    Sample.db (by unfold DB.TasksPK; decide) (by decide)).2.1 202
    (TaskRepository.toEntity
      { toTaskRow := Sample.taskDone, CreatedBy := some Sample.alice,
        AssignedTo := some Sample.bob, Users := [Sample.bob] })
    rfl rfl

/-! ## Lemmas on the writes to `users` -/

theorem nextUserID_gt (db : DB) : ∀ u ∈ db.users, u.ID < db.nextUserID := by
  unfold DB.nextUserID
  generalize db.users = l
  induction l with
  | nil => intro t ht; simp at ht
  | cons x xs ih =>
    intro t ht
    simp only [List.map_cons, List.foldr_cons]
    rcases List.mem_cons.mp ht with h | h
    · subst h; omega
    · have := ih t h; omega

theorem nodup_map_update {α β : Type} (key : α → β) (g : α → α) (hit : α → Bool) (l : List α)
    (hnd : (l.map key).Nodup) (hg : ∀ x, hit x = false → g x = x)
    (hfresh : ∀ x ∈ l, hit x = true → ∀ y ∈ l, hit y = false → key y ≠ key (g x))
    (hone : ∀ x ∈ l, ∀ y ∈ l, hit x = true → hit y = true → x = y) :
    ((l.map g).map key).Nodup := by
  induction l with
  | nil => simp
  | cons x xs ih =>
    rw [List.map_cons, List.nodup_cons] at hnd
    rw [List.map_cons, List.map_cons, List.nodup_cons]
    refine ⟨?_, ih hnd.2
      (fun a ha h b hb => hfresh a (List.mem_cons_of_mem _ ha) h b (List.mem_cons_of_mem _ hb))
      (fun a ha b hb => hone a (List.mem_cons_of_mem _ ha) b (List.mem_cons_of_mem _ hb))⟩
    intro hmem
    simp only [List.mem_map] at hmem
    obtain ⟨_, ⟨y, hy, rfl⟩, hky⟩ := hmem
    have hxm : x ∈ x :: xs := List.mem_cons_self _ _
    have hym : y ∈ x :: xs := List.mem_cons_of_mem _ hy
    cases hx : hit x with
    | true =>
      cases hyh : hit y with
      | true =>
        have := hone x hxm y hym hx hyh
        subst this
        exact hnd.1 (List.mem_map_of_mem key hy)
      | false =>
        rw [hg y hyh] at hky
        exact hfresh x hxm hx y hym hyh hky
    | false =>
      cases hyh : hit y with
      | true =>
        rw [hg x hx] at hky
        exact hfresh y hym hyh x hxm hx hky.symm
      | false =>
        rw [hg x hx, hg y hyh] at hky
        exact hnd.1 (by rw [← hky]; exact List.mem_map_of_mem key hy)

/-- Shape of the store after `UserService.CreateUser`. -/
theorem CreateUser_shape (db : DB) (now : Time) (user : entity.User) :
    (UserService.CreateUser db now user).2.2 = db
      ∨ ∃ row : UserRow, (UserService.CreateUser db now user).2.2
            = { db with users := db.users ++ [row] }
          ∧ row.ID = db.nextUserID ∧ row.DeletedAt = none
          ∧ ∀ r ∈ db.users, r.Email ≠ row.Email := by
  unfold UserService.CreateUser UserRepository.EmailExists
  simp only
  by_cases hex : db.existsUserEmail user.Email = true
  · left; simp [hex]
  · cases hany : db.users.any (fun r => r.Email == user.Email) with
    | true => left; simp [hex, UserRepository.Create, DB.insertUser, hany]
    | false =>
      right
      refine ⟨{ ID := db.nextUserID, UUID := user.UUID, Name := user.Name,
                Email := user.Email, Password := user.Password, CreatedAt := now,
                UpdatedAt := now, DeletedAt := none }, ?_, rfl, rfl, ?_⟩
      · simp [hex, UserRepository.Create, DB.insertUser, hany]
      · intro r hr
        rw [List.any_eq_false] at hany
        simpa using hany r hr

/-- Shape of the store after `UserRepository.Update`. -/
theorem Update_shape (db : DB) (user : entity.User) :
    (UserRepository.Update db user).2 = db
      ∨ ((UserRepository.Update db user).2
            = { db with users := db.users.map (fun r =>
                  if r.ID == user.ID && r.DeletedAt.isNone then
                    { r with Name := user.Name, Email := user.Email,
                             Password := user.Password, UpdatedAt := user.UpdatedAt }
                  else r) }
          ∧ ∀ r ∈ db.users, (r.ID == user.ID && r.DeletedAt.isNone) = true →
              ∀ r2 ∈ db.users, (r2.ID == user.ID && r2.DeletedAt.isNone) = false →
                r2.Email ≠ user.Email) := by
  unfold UserRepository.Update DB.updateUserWherePK
  simp only
  cases hany : db.users.any (fun r => (r.ID == user.ID && r.DeletedAt.isNone) &&
      db.users.any (fun r2 => !(r2.ID == user.ID && r2.DeletedAt.isNone) &&
        r2.Email == user.Email)) with
  | true => left; simp [hany]
  | false =>
    right
    refine ⟨by simp [hany], ?_⟩
    intro r hr hhit r2 hr2 hnot he
    rw [List.any_eq_false] at hany
    apply hany r hr
    rw [Bool.and_eq_true]
    refine ⟨hhit, ?_⟩
    rw [List.any_eq_true]
    exact ⟨r2, hr2, by simp [hnot, he]⟩

theorem users_inv_append {db : DB} {row : UserRow} (hpk : db.UsersPK) (hu : db.EmailUnique)
    (hid : row.ID = db.nextUserID) (hdel : row.DeletedAt = none)
    (hfresh : ∀ r ∈ db.users, r.Email ≠ row.Email) :
    DB.UsersPK { db with users := db.users ++ [row] }
      ∧ DB.EmailUnique { db with users := db.users ++ [row] } := by
  constructor
  · unfold DB.UsersPK at hpk ⊢
    simp only [List.map_append, List.map_cons, List.map_nil]
    rw [List.nodup_append]
    refine ⟨hpk, List.nodup_singleton _, ?_⟩
    intro a ha hb
    simp only [List.mem_singleton] at hb
    simp only [List.mem_map] at ha
    obtain ⟨r, hr, rfl⟩ := ha
    have := nextUserID_gt db r hr
    omega
  · unfold DB.EmailUnique DB.liveUsers at hu ⊢
    simp only [List.filter_append, List.map_append, List.filter_cons, List.filter_nil, hdel,
      Option.isNone_none, if_true, List.map_cons, List.map_nil]
    rw [List.nodup_append]
    refine ⟨hu, List.nodup_singleton _, ?_⟩
    intro a ha hb
    simp only [List.mem_singleton] at hb
    simp only [List.mem_map, List.mem_filter] at ha
    obtain ⟨r, ⟨hr, _⟩, rfl⟩ := ha
    exact hfresh r hr hb

theorem Update_preserves (db : DB) (user : entity.User)
    (h : db.UsersPK ∧ db.EmailUnique) :
    (UserRepository.Update db user).2.UsersPK ∧ (UserRepository.Update db user).2.EmailUnique := by
  rcases Update_shape db user with h1 | ⟨h1, hfresh⟩
  · rw [h1]; exact h
  · rw [h1]
    obtain ⟨hpk, hu⟩ := h
    constructor
    · unfold DB.UsersPK at hpk ⊢
      simp only [List.map_map]
      have : (fun u : UserRow => u.ID) ∘ (fun r : UserRow =>
          if r.ID == user.ID && r.DeletedAt.isNone then
            { r with Name := user.Name, Email := user.Email,
                     Password := user.Password, UpdatedAt := user.UpdatedAt }
          else r) = fun u => u.ID := by
        funext r
        simp only [Function.comp]
        split <;> rfl
      rw [this]
      exact hpk
    · unfold DB.EmailUnique DB.liveUsers at hu ⊢
      simp only
      have hfm : (db.users.map (fun r : UserRow =>
          if r.ID == user.ID && r.DeletedAt.isNone then
            { r with Name := user.Name, Email := user.Email,
                     Password := user.Password, UpdatedAt := user.UpdatedAt }
          else r)).filter (fun u => u.DeletedAt.isNone)
          = (db.users.filter (fun u => u.DeletedAt.isNone)).map (fun r : UserRow =>
          if r.ID == user.ID && r.DeletedAt.isNone then
            { r with Name := user.Name, Email := user.Email,
                     Password := user.Password, UpdatedAt := user.UpdatedAt }
          else r) := by
        rw [List.filter_map]
        congr 1
        apply List.filter_congr
        intro r _
        simp only [Function.comp]
        split <;> rfl
      rw [hfm]
      apply nodup_map_update (fun u : UserRow => u.Email) _
        (fun r => r.ID == user.ID && r.DeletedAt.isNone) _ hu
      · intro x hx
        simp [hx]
      · intro x hx hhit y hy hnot
        have hx2 := (List.mem_filter.mp hx).1
        have hy2 := (List.mem_filter.mp hy).1
        simp only [hhit, if_true]
        exact hfresh x hx2 hhit y hy2 hnot
      · intro x hx y hy hhx hhy
        have hx2 := (List.mem_filter.mp hx).1
        have hy2 := (List.mem_filter.mp hy).1
        simp only [Bool.and_eq_true, beq_iff_eq] at hhx hhy
        exact List.inj_on_of_nodup_map hpk hx2 hy2 (hhx.1.trans hhy.1.symm)

theorem UserService_UpdateUser_shape (db : DB) (user : entity.User) :
    (UserService.UpdateUser db user).2 = db
      ∨ (UserService.UpdateUser db user).2 = (UserRepository.Update db user).2 := by
  unfold UserService.UpdateUser
  cases UserRepository.GetByUUID db user.UUID with
  | error e => left; rfl
  | ok u =>
    simp only
    split <;> (try split) <;> first | (left; rfl) | (right; rfl)

theorem UserUseCase_UpdateUser_shape (db : DB) (now : Time) (userUUID : uuid.UUID)
    (req : dto.UserResponse) :
    (UserUseCase.UpdateUser db now userUUID req).2 = db
      ∨ ∃ user, (UserUseCase.UpdateUser db now userUUID req).2
          = (UserRepository.Update db user).2 := by
  unfold UserUseCase.UpdateUser
  split
  · left; rfl
  · split
    · left; rfl
    · split
      · left; rfl
      · rename_i user2 _
        rcases UserService_UpdateUser_shape db user2 with h | h
        · left
          rcases hres : UserService.UpdateUser db user2 with ⟨_ | err, db2⟩
          · rw [hres] at h
            simpa using h
          · rw [hres] at h
            simpa using h
        · right
          refine ⟨user2, ?_⟩
          rcases hres : UserService.UpdateUser db user2 with ⟨_ | err, db2⟩
          · rw [hres] at h
            simpa using h
          · rw [hres] at h
            simpa using h

theorem UserOp_run_preserves (op : UserOp) (db : DB) (h : db.UsersPK ∧ db.EmailUnique) :
    (op.run db).UsersPK ∧ (op.run db).EmailUnique := by
  cases op with
  | create now user =>
    have hrun : (UserOp.create now user).run db = (UserService.CreateUser db now user).2.2 := rfl
    rcases CreateUser_shape db now user with h1 | ⟨row, h1, hid, hdel, hfresh⟩
    · rw [hrun, h1]; exact h
    · rw [hrun, h1]
      exact users_inv_append h.1 h.2 hid hdel hfresh
  | update user =>
    have hrun : (UserOp.update user).run db = (UserService.UpdateUser db user).2 := rfl
    rcases UserService_UpdateUser_shape db user with h1 | h1
    · rw [hrun, h1]; exact h
    · rw [hrun, h1]; exact Update_preserves db user h
  | updateProfile now userUUID req =>
    have hrun : (UserOp.updateProfile now userUUID req).run db
        = (UserUseCase.UpdateUser db now userUUID req).2 := rfl
    rcases UserUseCase_UpdateUser_shape db now userUUID req with h1 | ⟨user, h1⟩
    · rw [hrun, h1]; exact h
    · rw [hrun, h1]; exact Update_preserves db user h

theorem UserOp_runAll_preserves :
    ∀ (ops : List UserOp) (db : DB), db.UsersPK ∧ db.EmailUnique →
      (UserOp.runAll ops db).UsersPK ∧ (UserOp.runAll ops db).EmailUnique := by
  intro ops
  induction ops with
  | nil => intro db h; exact h
  | cons op ops ih =>
    intro db h
    exact ih (op.run db) (UserOp_run_preserves op db h)

theorem Update_conflict {db : DB} {user : entity.User} {target other : UserRow}
    (ht : target ∈ db.users) (hid : target.ID = user.ID) (hlive : target.DeletedAt = none)
    (ho : other ∈ db.users) (hne : other.ID ≠ user.ID) (hem : other.Email = user.Email) :
    UserRepository.Update db user = (some .duplicateKey, db) := by
  unfold UserRepository.Update DB.updateUserWherePK
  have hany : db.users.any (fun r => (r.ID == user.ID && r.DeletedAt.isNone) &&
      db.users.any (fun r2 => !(r2.ID == user.ID && r2.DeletedAt.isNone) &&
        r2.Email == ({ r with Name := user.Name, Email := user.Email,
                              Password := user.Password,
                              UpdatedAt := user.UpdatedAt } : UserRow).Email)) = true := by
    rw [List.any_eq_true]
    refine ⟨target, ht, ?_⟩
    simp only [hid, hlive, beq_self_eq_true, Option.isNone_none, Bool.and_self, Bool.true_and]
    rw [List.any_eq_true]
    refine ⟨other, ho, ?_⟩
    simp [hne, hem]
  simp only [hany, if_true]

theorem UserService_UpdateUser_cases (db : DB) (user : entity.User) :
    (∃ err, UserService.UpdateUser db user = (some err, db))
      ∨ UserService.UpdateUser db user = UserRepository.Update db user := by
  unfold UserService.UpdateUser
  cases UserRepository.GetByUUID db user.UUID with
  | error e => left; exact ⟨_, rfl⟩
  | ok u =>
    simp only
    split <;> (try split) <;> first | (left; exact ⟨_, rfl⟩) | (right; rfl)

theorem UserService_UpdateUser_conflict {db : DB} {user : entity.User} {target other : UserRow}
    (ht : target ∈ db.users) (hid : target.ID = user.ID) (hlive : target.DeletedAt = none)
    (ho : other ∈ db.users) (hne : other.ID ≠ user.ID) (hem : other.Email = user.Email) :
    ∃ err, UserService.UpdateUser db user = (some err, db) := by
  rcases UserService_UpdateUser_cases db user with h | h
  · exact h
  · exact ⟨.duplicateKey, h.trans (Update_conflict ht hid hlive ho hne hem)⟩

theorem UserUseCase_UpdateUser_conflict {db : DB} {now : Time} {userUUID : uuid.UUID}
    {req : dto.UserResponse} {urow other : UserRow}
    (hscan : db.scanUserByUUID userUUID = .ok urow) (hreq : req.Email ≠ "")
    (ho : other ∈ db.users) (hne : other.ID ≠ urow.ID) (hem : other.Email = req.Email) :
    ∃ err, UserUseCase.UpdateUser db now userUUID req = (.error err, db) := by
  obtain ⟨hlive, _, hmem, _⟩ := scanUserByUUID_props hscan
  have key : ∀ user : entity.User, user.ID = urow.ID → user.Email = req.Email →
      ∃ err, UserService.UpdateUser db user = (some err, db) := by
    intro user h1 h2
    exact UserService_UpdateUser_conflict hmem h1.symm hlive ho (h1 ▸ hne) (hem.trans h2.symm)
  unfold UserUseCase.UpdateUser UserService.GetUserByUUID UserRepository.GetByUUID
  simp only [hscan]
  by_cases hname : req.Name = ""
  · by_cases hsame : req.Email = urow.Email
    · obtain ⟨err, herr⟩ := key
        { ID := urow.ID, UUID := urow.UUID, Name := urow.Name, Email := urow.Email,
          Password := urow.Password, CreatedAt := urow.CreatedAt,
          UpdatedAt := urow.UpdatedAt, DeletedAt := urow.DeletedAt } rfl hsame.symm
      refine ⟨err, ?_⟩
      simp [hname, hsame, herr]
    · obtain ⟨err, herr⟩ := key
        { ID := urow.ID, UUID := urow.UUID, Name := urow.Name, Email := req.Email,
          Password := urow.Password, CreatedAt := urow.CreatedAt,
          UpdatedAt := now, DeletedAt := urow.DeletedAt } rfl rfl
      refine ⟨err, ?_⟩
      simp [hname, hsame, hreq, entity.User.UpdateEmail, herr]
  · by_cases hsame : req.Email = urow.Email
    · obtain ⟨err, herr⟩ := key
        { ID := urow.ID, UUID := urow.UUID, Name := req.Name, Email := urow.Email,
          Password := urow.Password, CreatedAt := urow.CreatedAt,
          UpdatedAt := now, DeletedAt := urow.DeletedAt } rfl hsame.symm
      refine ⟨err, ?_⟩
      simp [hname, hsame, entity.User.UpdateName, herr]
    · obtain ⟨err, herr⟩ := key
        { ID := urow.ID, UUID := urow.UUID, Name := req.Name, Email := req.Email,
          Password := urow.Password, CreatedAt := urow.CreatedAt,
          UpdatedAt := now, DeletedAt := urow.DeletedAt } rfl rfl
      refine ⟨err, ?_⟩
      simp [hname, hsame, hreq, entity.User.UpdateName, entity.User.UpdateEmail, herr]

/-! ## C15: email uniqueness under sequences of user writes -/

/-- C15: in a store where `users` has its primary key and no two users that are not
soft-deleted share an email, the same holds after any sequence of `UserService.CreateUser`,
`UserService.UpdateUser` and `UserUseCase.UpdateUser` calls, whatever their arguments and
whether they succeed or fail; and an update that would write, into the live row of a user,
the email carried by a row with another key returns an error and leaves the store as it
was, for `UserService.UpdateUser` and for `UserUseCase.UpdateUser`. -/
theorem C15_email_uniqueness_is_invariant (db : DB) (hpk : db.UsersPK) (hu : db.EmailUnique) :
    (∀ ops : List UserOp, (UserOp.runAll ops db).EmailUnique)
      ∧ (∀ (user : entity.User) (target other : UserRow),
          target ∈ db.users → target.ID = user.ID → target.DeletedAt = none →
          other ∈ db.users → other.ID ≠ user.ID → other.Email = user.Email →
          ∃ err, UserService.UpdateUser db user = (some err, db))
      ∧ (∀ (now : Time) (userUUID : uuid.UUID) (req : dto.UserResponse) (urow other : UserRow),
          db.scanUserByUUID userUUID = .ok urow → req.Email ≠ "" →
          other ∈ db.users → other.ID ≠ urow.ID → other.Email = req.Email →
          ∃ err, UserUseCase.UpdateUser db now userUUID req = (.error err, db)) := by
  refine ⟨fun ops => (UserOp_runAll_preserves ops db ⟨hpk, hu⟩).2, ?_, ?_⟩
  · intro user target other ht hid hlive ho hne hem
    exact UserService_UpdateUser_conflict ht hid hlive ho hne hem
  · intro now userUUID req urow other hscan hreq ho hne hem
    exact UserUseCase_UpdateUser_conflict hscan hreq ho hne hem

/-- In the sample store of alice, bob and carol: after a create with a new email, a create
with bob's email, and an update of alice to bob's email, emails are still unique; and the
update of alice to bob's email returns an error and leaves the store as it was. -/
theorem C15_email_uniqueness_is_invariant_witness :
    Sample.usersOnly.UsersPK ∧ Sample.usersOnly.EmailUnique
      ∧ (UserOp.runAll
          [ .create 40 { UUID := 104, Name := "dave", Email := "dave@example.com",
                         Password := "h-d" },
            .create 41 { UUID := 105, Name := "bobby", Email := "bob@example.com",
                         Password := "h-e" },
            .updateProfile 42 101 { ID := 101, Name := "", Email := "bob@example.com",
                                    CreatedAt := 0, UpdatedAt := 0, DeletedAt := none },
            .updateProfile 43 101 { ID := 101, Name := "al", Email := "al@example.com",
                                    CreatedAt := 0, UpdatedAt := 0, DeletedAt := none } ]
          Sample.usersOnly).EmailUnique
      ∧ (∃ err, UserUseCase.UpdateUser Sample.usersOnly 42 101
            { ID := 101, Name := "", Email := "bob@example.com",
              CreatedAt := 0, UpdatedAt := 0, DeletedAt := none }
          = (.error err, Sample.usersOnly)) :=
  have hpk : Sample.usersOnly.UsersPK := by unfold DB.UsersPK; decide
  have hu : Sample.usersOnly.EmailUnique := by unfold DB.EmailUnique; decide
  have h := C15_email_uniqueness_is_invariant Sample.usersOnly hpk hu
  ⟨hpk, hu, h.1 _,
    h.2.2 42 101 _ Sample.alice Sample.bob rfl (by decide) (by decide) (by decide) rfl⟩

/-! ## Lemmas on the assignment loops of task creation -/

theorem scanUserByUUID_congr {tx db : DB} (h : tx.users = db.users) (u : uuid.UUID) :
    tx.scanUserByUUID u = db.scanUserByUUID u := by
  unfold DB.scanUserByUUID DB.liveUsers
  rw [h]

theorem liveUsers_congr {tx db : DB} (h : tx.users = db.users) :
    tx.liveUsers = db.liveUsers := by
  unfold DB.liveUsers
  rw [h]

theorem mem_relUsers_iff {db : DB} {k : Nat} {urow : UserRow} (hlive : urow ∈ db.liveUsers) :
    urow ∈ db.relUsers k ↔ db.existsUserTask k urow.ID = true := by
  unfold DB.relUsers DB.existsUserTask
  simp only [List.mem_flatMap, List.mem_filter, beq_iff_eq, List.any_eq_true,
    Bool.and_eq_true]
  constructor
  · rintro ⟨ut, ⟨hut, hk⟩, _, hid⟩
    exact ⟨ut, hut, hk, hid.symm⟩
  · rintro ⟨ut, hut, hk, hid⟩
    exact ⟨ut, ⟨hut, hk⟩, hlive, hid.symm⟩

/-- One `AssignTask` of the second loop of the use case: the creator assigns an existing
user to a stored task. The call returns no error; the user is appended to the assignment
set when it is not there, and the set is unchanged when it is. -/
theorem AssignTask_by_creator {db : DB} {taskUUID u : uuid.UUID} {row : TaskRow}
    {urow : UserRow} (hpk : db.UsersPK)
    (ht : db.scanTaskByUUID taskUUID = .ok row) (hu : db.scanUserByUUID u = .ok urow) :
    ∃ db2, TaskService.AssignTask db taskUUID u row.CreatedByID = (none, db2)
      ∧ db2.users = db.users
      ∧ db2.scanTaskByUUID taskUUID = .ok { row with AssignedToID := some u }
      ∧ ((urow ∈ db.relUsers row.ID ∧ db2.relUsers row.ID = db.relUsers row.ID)
          ∨ (urow ∉ db.relUsers row.ID ∧ db2.relUsers row.ID = db.relUsers row.ID ++ [urow])) := by
  obtain ⟨hlv, huuid, hmem⟩ := scanTaskByUUID_props ht
  obtain ⟨hul, huu, humem, hulive⟩ := scanUserByUUID_props hu
  have hget : TaskRepository.GetByUUID db taskUUID = .ok (TaskRepository.toEntity
      { toTaskRow := row, CreatedBy := db.relUser row.CreatedByID,
        AssignedTo := row.AssignedToID.bind db.relUser, Users := db.relUsers row.ID }) := by
    simp [TaskRepository.GetByUUID, DB.scanTaskWithRelations, ht]
  have hrepo : UserRepository.GetByUUID db u = .ok
      { ID := urow.ID, UUID := urow.UUID, Name := urow.Name, Email := urow.Email,
        Password := urow.Password, CreatedAt := urow.CreatedAt, UpdatedAt := urow.UpdatedAt,
        DeletedAt := urow.DeletedAt } := by
    simp [UserRepository.GetByUUID, hu]
  cases hex : db.existsUserTask row.ID urow.ID with
  | true =>
    have hscan := scanTaskByUUID_update
      (fun x : TaskRow => { x with AssignedToID := some u })
      ht ⟨hlv, huuid⟩ (fun x _ _ _ _ hxu => Or.inl hxu)
    refine ⟨db.updateTaskWherePK row.ID (fun x => { x with AssignedToID := some u }),
      ?_, rfl, hscan, Or.inl ⟨(mem_relUsers_iff hulive).mpr hex, rfl⟩⟩
    simp [TaskService.AssignTask, hget, hrepo, TaskRepository.AssignTaskToUser, ht, hu, hex,
      TaskRepository.toEntity]
  | false =>
    have hnorow : ∀ r ∈ db.user_tasks, ¬ (r.TaskID = row.ID ∧ r.UserID = urow.ID) := by
      intro r hr hc
      have : db.existsUserTask row.ID urow.ID = true := by
        unfold DB.existsUserTask
        rw [List.any_eq_true]
        exact ⟨r, hr, by simp [hc.1, hc.2]⟩
      rw [hex] at this
      exact Bool.noConfusion this
    have hins := @insertUserTask_ok db { TaskID := row.ID, UserID := urow.ID } hnorow
    have hscan := @scanTaskByUUID_update
      { db with user_tasks := db.user_tasks ++ [{ TaskID := row.ID, UserID := urow.ID }] }
      taskUUID row (fun x : TaskRow => { x with AssignedToID := some u })
      ht ⟨hlv, huuid⟩ (fun x _ _ _ _ hxu => Or.inl hxu)
    have hrel : DB.relUsers { db with user_tasks := db.user_tasks ++
        [{ TaskID := row.ID, UserID := urow.ID }] } row.ID = db.relUsers row.ID ++ [urow] := by
      rw [relUsers_insert]
      simp [liveUsers_filter_ID hpk hulive]
    refine ⟨DB.updateTaskWherePK
        { db with user_tasks := db.user_tasks ++ [{ TaskID := row.ID, UserID := urow.ID }] }
        row.ID (fun x => { x with AssignedToID := some u }),
      ?_, rfl, hscan, Or.inr ⟨?_, ?_⟩⟩
    · simp [TaskService.AssignTask, hget, hrepo, TaskRepository.AssignTaskToUser, ht, hu, hex,
        hins, TaskRepository.toEntity]
    · intro hin
      rw [mem_relUsers_iff hulive, hex] at hin
      exact Bool.noConfusion hin
    · rw [relUsers_updateTask]
      exact hrel

/-- Second loop of the use case on a list of existing users: no call fails, and the
assignment set of the task gains each listed user who is not in it, once. -/
theorem assignAll_ok (taskUUID creator : uuid.UUID) :
    ∀ (uuids : List uuid.UUID) (db : DB) (row : TaskRow), db.UsersPK →
      db.scanTaskByUUID taskUUID = .ok row → row.CreatedByID = creator →
      (∀ u ∈ uuids, ∃ urow, db.scanUserByUUID u = .ok urow) →
      (db.relUsers row.ID).Nodup →
      ∃ db2 row2, TaskUseCase.CreateTask.assignAll taskUUID creator uuids db = (none, db2)
        ∧ db2.users = db.users
        ∧ db2.scanTaskByUUID taskUUID = .ok row2 ∧ row2.ID = row.ID
        ∧ row2.CreatedByID = creator
        ∧ (db2.relUsers row.ID).Nodup
        ∧ ∀ x, x ∈ db2.relUsers row.ID ↔
            (x ∈ db.relUsers row.ID ∨ ∃ u ∈ uuids, db.scanUserByUUID u = .ok x) := by
  intro uuids
  induction uuids with
  | nil =>
    intro db row _ ht hc _ hnd
    exact ⟨db, row, rfl, rfl, ht, rfl, hc, hnd, by simp⟩
  | cons u rest ih =>
    intro db row hpk ht hc hex hnd
    obtain ⟨urow, hu⟩ := hex u (List.mem_cons_self _ _)
    obtain ⟨db1, hstep, husers, hscan1, hrel⟩ := AssignTask_by_creator hpk ht hu
    rw [hc] at hstep
    have hpk1 : db1.UsersPK := by unfold DB.UsersPK; rw [husers]; exact hpk
    have hex1 : ∀ v ∈ rest, ∃ r, db1.scanUserByUUID v = .ok r := by
      intro v hv
      obtain ⟨r, hr⟩ := hex v (List.mem_cons_of_mem _ hv)
      exact ⟨r, (scanUserByUUID_congr husers v).trans hr⟩
    have hnd1 : (db1.relUsers row.ID).Nodup := by
      rcases hrel with ⟨_, h2⟩ | ⟨h1, h2⟩
      · rw [h2]; exact hnd
      · rw [h2]
        exact List.Nodup.append hnd (List.nodup_singleton _)
          (by
            intro a ha hb
            simp only [List.mem_singleton] at hb
            subst hb
            exact h1 ha)
    obtain ⟨db2, row2, hall, husers2, hscan2, hid2, hc2, hnd2, hmem2⟩ :=
      ih db1 { row with AssignedToID := some u } hpk1 hscan1 hc hex1 hnd1
    refine ⟨db2, row2, ?_, husers2.trans husers, hscan2, hid2, hc2, hnd2, ?_⟩
    · simp only [TaskUseCase.CreateTask.assignAll, hstep]
      exact hall
    · intro x
      rw [hmem2 x]
      have hsc : ∀ v, db1.scanUserByUUID v = db.scanUserByUUID v :=
        fun v => scanUserByUUID_congr husers v
      simp only [hsc, List.mem_cons]
      rcases hrel with ⟨h1, h2⟩ | ⟨h1, h2⟩
      · rw [h2]
        constructor
        · rintro (h | ⟨v, hv, hvx⟩)
          · exact Or.inl h
          · exact Or.inr ⟨v, Or.inr hv, hvx⟩
        · rintro (h | ⟨v, hv | hv, hvx⟩)
          · exact Or.inl h
          · subst hv
            rw [hu] at hvx
            cases hvx
            exact Or.inl h1
          · exact Or.inr ⟨v, hv, hvx⟩
      · rw [h2]
        simp only [List.mem_append, List.mem_singleton]
        constructor
        · rintro ((h | h) | ⟨v, hv, hvx⟩)
          · exact Or.inl h
          · subst h
            exact Or.inr ⟨u, Or.inl rfl, hu⟩
          · exact Or.inr ⟨v, Or.inr hv, hvx⟩
        · rintro (h | ⟨v, hv | hv, hvx⟩)
          · exact Or.inl (Or.inl h)
          · subst hv
            rw [hu] at hvx
            cases hvx
            exact Or.inl (Or.inr rfl)
          · exact Or.inr ⟨v, hv, hvx⟩

/-- First loop of the use case on a list whose texts all parse and resolve: nothing is
collected as invalid, and the identifiers are kept in the order of the list. -/
theorem validate_ok (parse : String → Option uuid.UUID) (db : DB)
    (users : List dto.UserAssign)
    (h : ∀ a ∈ users, ∃ u r, parse a.ID = some u ∧ db.scanUserByUUID u = .ok r) :
    TaskUseCase.CreateTask.validate parse db users
      = ([], users.filterMap (fun a => parse a.ID)) := by
  unfold TaskUseCase.CreateTask.validate
  have key : ∀ (l : List dto.UserAssign) (acc : List String × List uuid.UUID),
      (∀ a ∈ l, ∃ u r, parse a.ID = some u ∧ db.scanUserByUUID u = .ok r) →
      l.foldl
        (fun acc userAssign =>
          match parse userAssign.ID with
          | none => (acc.1 ++ [userAssign.ID ++ " (invalid format)"], acc.2)
          | some userUUID =>
            match UserService.GetUserByUUID db userUUID with
            | .error _ => (acc.1 ++ [userAssign.ID ++ " (not found)"], acc.2)
            | .ok _ => (acc.1, acc.2 ++ [userUUID]))
        acc
        = (acc.1, acc.2 ++ l.filterMap (fun a => parse a.ID)) := by
    intro l
    induction l with
    | nil => intro acc _; simp
    | cons a rest ih =>
      intro acc hl
      obtain ⟨u, r, hp, hr⟩ := hl a (List.mem_cons_self _ _)
      have hget : UserService.GetUserByUUID db u = .ok
          { ID := r.ID, UUID := r.UUID, Name := r.Name, Email := r.Email,
            Password := r.Password, CreatedAt := r.CreatedAt, UpdatedAt := r.UpdatedAt,
            DeletedAt := r.DeletedAt } := by
        simp [UserService.GetUserByUUID, UserRepository.GetByUUID, hr]
      simp only [List.foldl_cons, hp, hget]
      rw [ih _ (fun b hb => hl b (List.mem_cons_of_mem _ hb))]
      simp [List.filterMap_cons, hp]
  have := key users ([], []) h
  simpa using this

/-- Loop of the flat creation on a list of existing users in which an identifier is
repeated, or in which a user already has a row for the task: the insert of the second
row with the same key is refused, and the loop stops with that error. -/
theorem legacy_addUsers_repeated (tid : Nat) :
    ∀ (users : List UserRow) (tx : DB),
      (∀ u ∈ users, ∃ r, tx.scanUserByUUID u.UUID = .ok r) →
      (¬ (users.map (fun u => u.UUID)).Nodup
        ∨ ∃ u ∈ users, ∃ r, tx.scanUserByUUID u.UUID = .ok r
            ∧ tx.existsUserTask tid r.ID = true) →
      models.Task.ValidateAndCreateTask.addUsers tid users tx
        = .error (.wrapf "failed to insert user_task relation" .duplicateKey) := by
  intro users
  induction users with
  | nil =>
    intro tx _ h
    rcases h with h | ⟨u, hu, _⟩
    · simp at h
    · simp at hu
  | cons u us ih =>
    intro tx hex h
    obtain ⟨r, hr⟩ := hex u (List.mem_cons_self _ _)
    cases hexists : tx.existsUserTask tid r.ID with
    | true =>
      have hins : tx.insertUserTask { TaskID := tid, UserID := r.ID } = .error .duplicateKey := by
        unfold DB.insertUserTask
        have : tx.user_tasks.any (fun x => x.sameKey { TaskID := tid, UserID := r.ID }) = true :=
          hexists
        simp [this]
      simp only [models.Task.ValidateAndCreateTask.addUsers, hr, hins]
    | false =>
      have hnorow : ∀ x ∈ tx.user_tasks, ¬ (x.TaskID = tid ∧ x.UserID = r.ID) := by
        intro x hx hc
        have : tx.existsUserTask tid r.ID = true := by
          unfold DB.existsUserTask
          rw [List.any_eq_true]
          exact ⟨x, hx, by simp [hc.1, hc.2]⟩
        rw [hexists] at this
        exact Bool.noConfusion this
      have hins := @insertUserTask_ok tx { TaskID := tid, UserID := r.ID } hnorow
      simp only [models.Task.ValidateAndCreateTask.addUsers, hr, hins]
      apply ih
      · intro v hv
        exact hex v (List.mem_cons_of_mem _ hv)
      · have grow : ∀ i, tx.existsUserTask tid i = true →
            DB.existsUserTask { tx with user_tasks := tx.user_tasks ++
              [{ TaskID := tid, UserID := r.ID }] } tid i = true := by
          intro i hi
          unfold DB.existsUserTask at hi ⊢
          simp only [List.any_append, hi, Bool.true_or]
        have hnew : DB.existsUserTask { tx with user_tasks := tx.user_tasks ++
              [{ TaskID := tid, UserID := r.ID }] } tid r.ID = true := by
          unfold DB.existsUserTask
          simp [List.any_append]
        rcases h with h | ⟨v, hv, rv, hrv, hvex⟩
        · rw [List.map_cons, List.nodup_cons, not_and_or, not_not] at h
          rcases h with h | h
          · right
            obtain ⟨v, hv, hvu⟩ := List.mem_map.mp h
            refine ⟨v, hv, r, ?_, hnew⟩
            show tx.scanUserByUUID v.UUID = .ok r
            rw [hvu]; exact hr
          · left; exact h
        · right
          rcases List.mem_cons.mp hv with hvu | hvu
          · subst hvu
            rw [hr] at hrv
            cases hrv
            rw [hexists] at hvex
            exact Bool.noConfusion hvex
          · exact ⟨v, hvu, rv, hrv, grow rv.ID hvex⟩

theorem layered_create_dedups (parse : String → Option uuid.UUID) (db : DB) (now : Time)
    (fresh creator : uuid.UUID) (title description : String) (c : UserRow)
    (htitle : title ≠ "") (hcreator : db.scanUserByUUID creator = .ok c)
    (hfresh : ∀ t ∈ db.tasks, t.UUID ≠ fresh) (hpk : db.UsersPK)
    (href : db.UserTasksRefTasks) (users : List dto.UserAssign)
    (hex : ∀ a ∈ users, ∃ u r, parse a.ID = some u ∧ db.scanUserByUUID u = .ok r) :
    ∃ t db',
      TaskUseCase.CreateTask parse db now fresh
          { Title := title, Description := description, Users := users } creator
        = (.ok (TaskPresenter.ToDTO (some t)), db')
      ∧ TaskRepository.GetByUUID db' fresh = .ok t
      ∧ (t.Users.map (fun x => x.UUID)).Nodup
      ∧ ∀ u, u ∈ t.Users.map (fun x => x.UUID) ↔ ∃ a ∈ users, parse a.ID = some u := by
  have hscan := @scanTaskByUUID_appended db fresh
    { ID := db.nextTaskID, UUID := fresh, Title := title, Description := description,
      Completed := false, CreatedAt := now, UpdatedAt := now, DeletedAt := none,
      CreatedByID := creator, AssignedToID := none } hfresh rfl rfl
  have hrel : DB.relUsers { db with tasks := db.tasks ++
      [{ ID := db.nextTaskID, UUID := fresh, Title := title, Description := description,
         Completed := false, CreatedAt := now, UpdatedAt := now, DeletedAt := none,
         CreatedByID := creator, AssignedToID := none }] } db.nextTaskID = [] :=
    relUsers_nextTaskID href
  have hrepo : UserRepository.GetByUUID db creator = .ok (UserRepository.toEntity c) := by
    simp [UserRepository.GetByUUID, hcreator, UserRepository.toEntity]
  have hex2 : ∀ u ∈ users.filterMap (fun a => parse a.ID), ∃ urow,
      DB.scanUserByUUID { db with tasks := db.tasks ++
        [{ ID := db.nextTaskID, UUID := fresh, Title := title, Description := description,
           Completed := false, CreatedAt := now, UpdatedAt := now, DeletedAt := none,
           CreatedByID := creator, AssignedToID := none }] } u = .ok urow := by
    intro u hu
    obtain ⟨a, ha, hpa⟩ := List.mem_filterMap.mp hu
    obtain ⟨v, r, hv, hr⟩ := hex a ha
    rw [hv] at hpa
    cases hpa
    exact ⟨r, hr⟩
  obtain ⟨db2, row2, hall, husers2, hscan2, hid2, hc2, hnd2, hmem2⟩ :=
    assignAll_ok fresh creator (users.filterMap (fun a => parse a.ID)) _ _
      (show DB.UsersPK { db with tasks := db.tasks ++
        [{ ID := db.nextTaskID, UUID := fresh, Title := title, Description := description,
           Completed := false, CreatedAt := now, UpdatedAt := now, DeletedAt := none,
           CreatedByID := creator, AssignedToID := none }] } from hpk)
      hscan rfl hex2 (by rw [hrel]; exact List.nodup_nil)
  have hget : TaskRepository.GetByUUID db2 fresh = .ok (TaskRepository.toEntity
      { toTaskRow := row2, CreatedBy := db2.relUser row2.CreatedByID,
        AssignedTo := row2.AssignedToID.bind db2.relUser, Users := db2.relUsers row2.ID }) := by
    simp [TaskRepository.GetByUUID, DB.scanTaskWithRelations, hscan2]
  have hval := validate_ok parse { db with tasks := db.tasks ++
      [{ ID := db.nextTaskID, UUID := fresh, Title := title, Description := description,
         Completed := false, CreatedAt := now, UpdatedAt := now, DeletedAt := none,
         CreatedByID := creator, AssignedToID := none }] } users hex
  have hfrom : ∀ x, x ∈ db2.relUsers db.nextTaskID ↔
      ∃ u ∈ users.filterMap (fun a => parse a.ID), db.scanUserByUUID u = .ok x := by
    intro x
    have h1 := hmem2 x
    rw [hrel] at h1
    simpa using h1
  have hU : (TaskRepository.toEntity
      { toTaskRow := row2, CreatedBy := db2.relUser row2.CreatedByID,
        AssignedTo := row2.AssignedToID.bind db2.relUser,
        Users := db2.relUsers row2.ID }).Users.map (fun x => x.UUID)
      = (db2.relUsers db.nextTaskID).map (fun x => x.UUID) := by
    have hid : row2.ID = db.nextTaskID := hid2
    simp only [TaskRepository.toEntity, List.map_map, hid]
    rfl
  refine ⟨_, db2, ?_, hget, ?_, ?_⟩
  · simp only [TaskUseCase.CreateTask, entity.NewTask, htitle, if_false,
      TaskService.CreateTask, hrepo, TaskRepository.Create, DB.insertTask]
    cases users with
    | nil =>
      have hdb2 : db2 = { db with tasks := db.tasks ++
        [{ ID := db.nextTaskID, UUID := fresh, Title := title, Description := description,
           Completed := false, CreatedAt := now, UpdatedAt := now, DeletedAt := none,
           CreatedByID := creator, AssignedToID := none }] } := by
        have := hall
        simp only [List.filterMap_nil, TaskUseCase.CreateTask.assignAll, Prod.mk.injEq,
          true_and] at this
        exact this.symm
      subst hdb2
      simp [TaskService.GetTaskByUUID, hget]
    | cons a rest =>
      simp [hval, hall, TaskService.GetTaskByUUID, hget]
  · rw [hU]
    apply List.Nodup.map_on _ hnd2
    intro x hx y hy hxy
    obtain ⟨u, _, hux⟩ := (hfrom x).mp hx
    obtain ⟨v, _, hvy⟩ := (hfrom y).mp hy
    have h1 := (scanUserByUUID_props hux).2.1
    have h2 := (scanUserByUUID_props hvy).2.1
    have huv : u = v := by rw [← h1, ← h2]; exact hxy
    subst huv
    rw [hux] at hvy
    exact Except.ok.inj hvy
  · intro u
    rw [hU]
    simp only [List.mem_map]
    constructor
    · rintro ⟨x, hx, hxu⟩
      obtain ⟨v, hv, hvx⟩ := (hfrom x).mp hx
      have h1 := (scanUserByUUID_props hvx).2.1
      have hvu : v = u := by rw [← h1]; exact hxu
      subst hvu
      obtain ⟨a, ha, hpa⟩ := List.mem_filterMap.mp hv
      exact ⟨a, ha, hpa⟩
    · rintro ⟨a, ha, hpa⟩
      obtain ⟨v, r, hv, hr⟩ := hex a ha
      rw [hv] at hpa
      have hvu : v = u := Option.some.inj hpa
      subst hvu
      refine ⟨r, (hfrom r).mpr ⟨v, List.mem_filterMap.mpr ⟨a, ha, hv⟩, hr⟩, ?_⟩
      exact (scanUserByUUID_props hr).2.1

theorem legacy_create_repeated (db : DB) (now : Time) (fresh creator : uuid.UUID)
    (title description : String) (c : UserRow)
    (htitle : title ≠ "") (hcreator : db.scanUserByUUID creator = .ok c)
    (users : List schemas.UserAssign)
    (hex : ∀ a ∈ users, ∃ r, db.scanUserByUUID a.ID = .ok r)
    (hrep : ¬ (users.map (fun a => a.ID)).Nodup) :
    controllers.Tasks.CreateTask db now fresh creator
        (some { Title := title, Description := description, Users := users })
      = ({ status := 400,
           errMsg := (Err.wrapf "failed to insert user_task relation" .duplicateKey).Error,
           task := none }, db) := by
  have hprep : controllers.Tasks.CreateTask.build db
      { Title := title, Description := description, Users := users }
      = some { ID := 0, UUID := 0, Title := title, Description := description,
               Completed := false, CreatedAt := 0, UpdatedAt := 0, DeletedAt := none,
               CreatedByID := 0, AssignedToID := users.head?.map (fun a => a.ID),
               Users := users.map (fun a =>
                 { ID := 0, UUID := a.ID, Name := "", Email := "", Password := "",
                   CreatedAt := 0, UpdatedAt := 0, DeletedAt := none }) } := by
    unfold controllers.Tasks.CreateTask.build
    simp only
    rw [lookup_ok db users [] hex]
    cases hU : users with
    | nil => simp
    | cons a rest => simp
  have hadd := legacy_addUsers_repeated db.nextTaskID
    (users.map (fun a =>
      ({ ID := 0, UUID := a.ID, Name := "", Email := "", Password := "",
         CreatedAt := 0, UpdatedAt := 0, DeletedAt := none } : UserRow)))
    { db with tasks := db.tasks ++
        [{ ID := db.nextTaskID, UUID := fresh, Title := title,
           Description := description, Completed := false, CreatedAt := now,
           UpdatedAt := now, DeletedAt := none, CreatedByID := creator,
           AssignedToID := users.head?.map (fun a => a.ID) }] }
    (by
      intro u hu
      simp only [List.mem_map] at hu
      obtain ⟨a, ha, rfl⟩ := hu
      exact hex a ha)
    (Or.inl (by simpa [List.map_map, Function.comp_def] using hrep))
  have hVC : models.Task.ValidateAndCreateTask
      { ID := 0, UUID := 0, Title := title, Description := description,
        Completed := false, CreatedAt := 0, UpdatedAt := 0, DeletedAt := none,
        CreatedByID := 0, AssignedToID := users.head?.map (fun a => a.ID),
        Users := users.map (fun a =>
          { ID := 0, UUID := a.ID, Name := "", Email := "", Password := "",
            CreatedAt := 0, UpdatedAt := 0, DeletedAt := none }) }
      db now fresh creator
      = (some (.wrapf "failed to insert user_task relation" .duplicateKey),
          { ID := db.nextTaskID, UUID := fresh, Title := title,
            Description := description, Completed := false, CreatedAt := now,
            UpdatedAt := now, DeletedAt := none, CreatedByID := creator,
            AssignedToID := users.head?.map (fun a => a.ID),
            Users := users.map (fun a =>
              { ID := 0, UUID := a.ID, Name := "", Email := "", Password := "",
                CreatedAt := 0, UpdatedAt := 0, DeletedAt := none }) },
          db) := by
    simp only [models.Task.ValidateAndCreateTask, htitle, if_false, hcreator, DB.insertTask,
      ite_self]
    rw [hadd]
  simp only [controllers.Tasks.CreateTask]
  rw [hprep]
  simp only [hVC]

/-! ## C11: repeated identifiers in the assignee list of a task creation -/

/-- C11, as claimed, fails on the flat path. On the store with the three users, alice
creates a task with a title and the list [bob, bob]: `Tasks.CreateTask` answers 400 with
the error of the refused second insert into `user_tasks`, and leaves the store as it was:
no task is created. -/
theorem C11_counterexample_legacy_rejects_repeated_ids :
    Sample.usersOnly.scanUserByUUID 102 = .ok Sample.bob
      ∧ controllers.Tasks.CreateTask Sample.usersOnly 30 201 101
          (some { Title := "X", Description := "", Users := [⟨102⟩, ⟨102⟩] })
        = ({ status := 400,
             errMsg := "failed to insert user_task relation: " ++
               "ERROR: duplicate key value violates unique constraint",
             task := none }, Sample.usersOnly) := by
  refine ⟨rfl, ?_⟩
  decide

/-- C11, amended. For a non-empty title, an existing creator and an unused identifier
`fresh`, in a store that keeps `users.id` unique and every `user_tasks` row pointing to a
task: (1) for every list of texts that all parse to identifiers of existing users,
repeated or not, `TaskUseCase.CreateTask` succeeds, and the task it answers with, which
is the task read back by `GetByUUID`, lists every listed user exactly once: the
identifiers of its `Users` have no repetition and are exactly the listed ones;
(2) for every list of identifiers of existing users in which an identifier is repeated,
the flat `Tasks.CreateTask` answers 400 with the error of the refused insert into
`user_tasks`, and leaves the store as it was. -/
theorem C11_bulk_assign_with_repeated_ids (parse : String → Option uuid.UUID) (db : DB)
    (now : Time) (fresh creator : uuid.UUID) (title description : String) (c : UserRow)
    (htitle : title ≠ "") (hcreator : db.scanUserByUUID creator = .ok c)
    (hfresh : ∀ t ∈ db.tasks, t.UUID ≠ fresh) (hpk : db.UsersPK)
    (href : db.UserTasksRefTasks) :
    (∀ users : List dto.UserAssign,
        (∀ a ∈ users, ∃ u r, parse a.ID = some u ∧ db.scanUserByUUID u = .ok r) →
        ∃ t db',
          TaskUseCase.CreateTask parse db now fresh
              { Title := title, Description := description, Users := users } creator
            = (.ok (TaskPresenter.ToDTO (some t)), db')
          ∧ TaskRepository.GetByUUID db' fresh = .ok t
          ∧ (t.Users.map (fun x => x.UUID)).Nodup
          ∧ ∀ u, u ∈ t.Users.map (fun x => x.UUID) ↔ ∃ a ∈ users, parse a.ID = some u)
      ∧ (∀ users : List schemas.UserAssign,
          (∀ a ∈ users, ∃ r, db.scanUserByUUID a.ID = .ok r) →
          ¬ (users.map (fun a => a.ID)).Nodup →
          controllers.Tasks.CreateTask db now fresh creator
              (some { Title := title, Description := description, Users := users })
            = ({ status := 400,
                 errMsg :=
                   (Err.wrapf "failed to insert user_task relation" .duplicateKey).Error,
                 task := none }, db)) :=
  ⟨fun users hex =>
      layered_create_dedups parse db now fresh creator title description c htitle hcreator
        hfresh hpk href users hex,
    fun users hex hrep =>
      legacy_create_repeated db now fresh creator title description c htitle hcreator
        users hex hrep⟩

/-- Witness of amended C11 on the store with the three users: alice creates a task with
the list [bob, bob]. The layered use case succeeds and the task lists bob once; the flat
handler answers 400 and stores nothing. -/
theorem C11_bulk_assign_with_repeated_ids_witness :
    (∃ t db',
        TaskUseCase.CreateTask Sample.parse Sample.usersOnly 30 201
            { Title := "X", Description := "", Users := [⟨"102"⟩, ⟨"102"⟩] } 101
          = (.ok (TaskPresenter.ToDTO (some t)), db')
        ∧ TaskRepository.GetByUUID db' 201 = .ok t
        ∧ (t.Users.map (fun x => x.UUID)).Nodup
        ∧ ∀ u, u ∈ t.Users.map (fun x => x.UUID) ↔
            ∃ a ∈ ([⟨"102"⟩, ⟨"102"⟩] : List dto.UserAssign), Sample.parse a.ID = some u)
      ∧ (TaskRepository.GetByUUID
          (TaskUseCase.CreateTask Sample.parse Sample.usersOnly 30 201
            { Title := "X", Description := "", Users := [⟨"102"⟩, ⟨"102"⟩] } 101).2 201).map
          (fun t => t.Users.map (fun x => x.UUID)) = .ok [102]
      ∧ controllers.Tasks.CreateTask Sample.usersOnly 30 201 101
          (some { Title := "X", Description := "", Users := [⟨102⟩, ⟨102⟩] })
        = ({ status := 400,
             errMsg := (Err.wrapf "failed to insert user_task relation" .duplicateKey).Error,
             task := none }, Sample.usersOnly) :=
  have h := C11_bulk_assign_with_repeated_ids Sample.parse Sample.usersOnly 30 201 101 "X" ""
    Sample.alice (by decide) rfl (by decide) (by unfold DB.UsersPK; decide)
    (by unfold DB.UserTasksRefTasks; decide)
  ⟨h.1 [⟨"102"⟩, ⟨"102"⟩]
      (by
        intro a ha
        simp only [List.mem_cons, List.mem_singleton, List.not_mem_nil, or_false,
          or_self] at ha
        subst ha
        exact ⟨102, Sample.bob, rfl, rfl⟩),
    rfl,
    h.2 [⟨102⟩, ⟨102⟩]
      (by
        intro a ha
        simp only [List.mem_cons, List.mem_singleton, List.not_mem_nil, or_false,
          or_self] at ha
        subst ha
        exact ⟨Sample.bob, rfl⟩)
      (by decide)⟩

/-! ## C24: identifiers that resolve to nothing -/

theorem no_user_of_scan_error {db : DB} {u : uuid.UUID} {e : Err}
    (hu : db.scanUserByUUID u = .error e) : ∀ x ∈ db.liveUsers, x.UUID ≠ u := by
  intro x hx hxu
  unfold DB.scanUserByUUID at hu
  cases hf : db.liveUsers.find? (fun r => r.UUID == u) with
  | some r => simp [hf] at hu
  | none =>
    rw [List.find?_eq_none] at hf
    exact hf x hx (by simpa using hxu)

/-- C24. (1) For a stored task and a user identifier that the query by identifier does not
resolve, `TaskService.AssignTask` called by the creator fails with "user not found" and
returns the store it was given, so the task reads back as before; the flat
`Task.ValidateAndAssignTask` called by the creator fails with "assigned user not found"
around the error of the query, and leaves the store and the in-memory task as they were
(the store is assumed to hold no soft-deleted user with the identifier, which the
hand-written subquery of the flat method would see). (2) For a task identifier that the
query does not resolve, `TaskService.AssignTask`, `CompleteTask` and `DeleteTask` fail with
"task not found" for every requestor and return the store they were given; the flat
`FetchTaskByUUID`, on which the flat handlers answer 404, fails, and the flat
`Task.Complete` on an in-memory task with that identifier fails with "task not found" and
leaves the store as it was. -/
theorem C24_unresolved_identifiers_are_not_found (db : DB) (now : Time)
    (taskUUID userUUID requestorUUID missingTaskUUID : uuid.UUID)
    (t : entity.Task) (lt stale : models.Task) (e e2 : Err)
    (ht : TaskRepository.GetByUUID db taskUUID = .ok t)
    (hu : db.scanUserByUUID userUUID = .error e)
    (hlive : ∀ x ∈ db.users, x.UUID = userUUID → x.DeletedAt = none)
    (hmissing : db.scanTaskByUUID missingTaskUUID = .error e2)
    (hstale : stale.UUID = missingTaskUUID) (hopen : stale.Completed = false) :
    TaskService.AssignTask db taskUUID userUUID t.CreatedByID
        = (some (.new "user not found"), db)
      ∧ models.Task.ValidateAndAssignTask (some lt) db lt.CreatedByID userUUID
        = (some (.wrapf "assigned user not found" e), some lt, db)
      ∧ TaskService.AssignTask db missingTaskUUID userUUID requestorUUID
        = (some (.new "task not found"), db)
      ∧ TaskService.CompleteTask db now missingTaskUUID requestorUUID
        = (some (.new "task not found"), db)
      ∧ TaskService.DeleteTask db now missingTaskUUID requestorUUID
        = (some (.new "task not found"), db)
      ∧ models.FetchTaskByUUID db missingTaskUUID = .error e2
      ∧ models.Task.Complete stale db requestorUUID
        = (some (.new "task not found"), stale, db) := by
  have hget : TaskRepository.GetByUUID db missingTaskUUID = .error e2 := by
    simp [TaskRepository.GetByUUID, DB.scanTaskWithRelations, hmissing]
  have hrepo : UserRepository.GetByUUID db userUUID = .error e := by
    simp [UserRepository.GetByUUID, hu]
  have hnone := no_user_of_scan_error hu
  have hnot : models.alreadyAssigned db lt.ID userUUID = false := by
    unfold models.alreadyAssigned
    rw [List.any_eq_false]
    intro ut _ hc
    simp only [Bool.and_eq_true, beq_iff_eq, List.any_eq_true] at hc
    obtain ⟨_, x, hx, hxu, _⟩ := hc
    apply hnone x _ hxu
    unfold DB.liveUsers
    simp only [List.mem_filter, Option.isNone_iff_eq_none]
    exact ⟨hx, hlive x hx hxu⟩
  refine ⟨?_, ?_, ?_, ?_, ?_, ?_, ?_⟩
  · simp [TaskService.AssignTask, ht, hrepo]
  · simp [models.Task.ValidateAndAssignTask, hnot, hu]
  · simp [TaskService.AssignTask, hget]
  · simp [TaskService.CompleteTask, hget]
  · simp [TaskService.DeleteTask, hget]
  · simp [models.FetchTaskByUUID, hmissing]
  · simp [models.Task.Complete, hopen, hstale, hmissing]

/-- Witness of C24 on the sample store: alice assigns the unknown user 104 to her task
201, and the unknown task 203 is assigned, completed and deleted. -/
theorem C24_unresolved_identifiers_are_not_found_witness :
    TaskService.AssignTask Sample.db 201 104 101 = (some (.new "user not found"), Sample.db)
      ∧ TaskService.AssignTask Sample.db 203 102 101
        = (some (.new "task not found"), Sample.db)
      ∧ TaskService.CompleteTask Sample.db 30 203 101
        = (some (.new "task not found"), Sample.db)
      ∧ TaskService.DeleteTask Sample.db 30 203 101
        = (some (.new "task not found"), Sample.db) :=
  have h := C24_unresolved_identifiers_are_not_found Sample.db 30 201 104 101 203
    (TaskRepository.toEntity
      { toTaskRow := Sample.taskT, CreatedBy := some Sample.alice,
        AssignedTo := some Sample.bob, Users := [Sample.bob] })
    { toTaskRow := Sample.taskT } { toTaskRow := { Sample.taskT with UUID := 203 } }
    .noRows .noRows rfl rfl (by decide) rfl rfl rfl
  ⟨h.1, h.2.2.1, h.2.2.2.1, h.2.2.2.2.1⟩

/-! ## C30: the flat registration and login responses -/

/-- C30 fails. On the store with the three users, dave registers through `Users.Signup`
with the password "secret": the answer is 201 and the value under "user" carries the hash
"h-secret" in `Password`, not the empty text. On the sample store bob logs in through
`Users.Login`: the answer is 200 and the value under "user" carries the stored hash "h-b".
With a verifier that accepts both hashes, the login responses for two stores that differ
only in the hash of bob differ. -/
theorem C30_legacy_responses_carry_password_hash :
    (controllers.Users.Signup Sample.bcryptGenerate (fun _ _ => none) Sample.usersOnly 30 104
        (some { ID := 0, UUID := 0, Name := "dave", Email := "dave@example.com",
                Password := "secret", CreatedAt := 0, UpdatedAt := 0, DeletedAt := none })).1
      = { status := 201, errMsg := "",
          user := some { ID := 4, UUID := 104, Name := "dave", Email := "dave@example.com",
                         Password := "h-secret", CreatedAt := 30, UpdatedAt := 30,
                         DeletedAt := none },
          token := none }
      ∧ controllers.Users.Login Sample.bcryptCompare Sample.mint Sample.db
          (some { Email := "bob@example.com", Password := "b" })
        = { status := 200, errMsg := "", user := some Sample.bob, token := some "tok-102" }
      ∧ Sample.bob.Password = "h-b"
      ∧ controllers.Users.Login (fun _ _ => true) Sample.mint Sample.db
          (some { Email := "bob@example.com", Password := "b" })
        ≠ controllers.Users.Login (fun _ _ => true) Sample.mint
            { Sample.db with
              users := Sample.db.users.map (fun r => { r with Password := "other-hash" }) }
            (some { Email := "bob@example.com", Password := "b" }) := by
  refine ⟨rfl, rfl, rfl, ?_⟩
  decide

/-! ## C26: what a completion writes -/

/-- C26 fails on the flat path. On the sample store the open task 201 was last updated at
time 20. Completed by its creator alice through `TaskService.CompleteTask` at time 30, it
reads back completed with `UpdatedAt = 30` and with the title, description, creator,
primary assignee and users it had. Completed through the flat `Task.Complete`, it reads
back completed with the same title, description, creator, primary assignee and users,
but `UpdatedAt` is still 20: the flat method never reads the clock. -/
theorem C26_legacy_complete_keeps_updated_at :
    (TaskRepository.GetByUUID Sample.db 201).map
        (fun t => (t.Completed, t.UpdatedAt, t.Title, t.Description, t.CreatedByID,
          t.AssignedToID, t.Users.map (fun u => u.UUID)))
      = .ok (false, 20, "T", "d", 101, some 102, [102])
      ∧ (TaskService.CompleteTask Sample.db 30 201 101).1 = none
      ∧ (TaskRepository.GetByUUID (TaskService.CompleteTask Sample.db 30 201 101).2 201).map
          (fun t => (t.Completed, t.UpdatedAt, t.Title, t.Description, t.CreatedByID,
            t.AssignedToID, t.Users.map (fun u => u.UUID)))
        = .ok (true, 30, "T", "d", 101, some 102, [102])
      ∧ (models.Task.Complete { toTaskRow := Sample.taskT } Sample.db 101).1 = none
      ∧ (models.FetchTaskByUUID
          (models.Task.Complete { toTaskRow := Sample.taskT } Sample.db 101).2.2 201).map
          (fun t => (t.Completed, t.UpdatedAt, t.Title, t.Description, t.CreatedByID,
            t.AssignedToID, t.Users.map (fun u => u.UUID)))
        = .ok (true, 20, "T", "d", 101, some 102, [102]) := by
  refine ⟨rfl, rfl, rfl, rfl, rfl⟩

/-! ## C27: `AddUser` keeps the users of a task distinct -/

/-- C27. For a task entity whose `Users` carry pairwise distinct identifiers and any user,
`Task.AddUser` gives a task whose `Users` carry pairwise distinct identifiers and hold a
user with the identifier of the added one. When the identifier was there, the task is
returned as it was (same `Users`, same `UpdatedAt`); when it was not, the user is appended
at the end, the earlier entries keep their places, and `UpdatedAt` is the time of the call.
A second `AddUser` of the same user changes nothing. -/
theorem C27_add_user_keeps_users_distinct (t : entity.Task) (user : entity.User)
    (now now2 : Time) (hnd : (t.Users.map (fun u => u.UUID)).Nodup) :
    ((t.AddUser user now).Users.map (fun u => u.UUID)).Nodup
      ∧ (∃ x ∈ (t.AddUser user now).Users, x.UUID = user.UUID)
      ∧ ((∃ x ∈ t.Users, x.UUID = user.UUID) → t.AddUser user now = t)
      ∧ ((∀ x ∈ t.Users, x.UUID ≠ user.UUID) →
          t.AddUser user now = { t with Users := t.Users ++ [user], UpdatedAt := now })
      ∧ (t.AddUser user now).AddUser user now2 = t.AddUser user now := by
  by_cases h : t.Users.any (fun u => u.UUID == user.UUID) = true
  · have hadd : t.AddUser user now = t := by simp only [entity.Task.AddUser, h, if_true]
    have hex : ∃ x ∈ t.Users, x.UUID = user.UUID := by
      rw [List.any_eq_true] at h
      obtain ⟨x, hx, hxu⟩ := h
      exact ⟨x, hx, by simpa using hxu⟩
    have hadd2 : t.AddUser user now2 = t := by simp only [entity.Task.AddUser, h, if_true]
    rw [hadd]
    refine ⟨hnd, hex, fun _ => rfl, ?_, hadd2⟩
    intro hno
    obtain ⟨x, hx, hxu⟩ := hex
    exact absurd hxu (hno x hx)
  · have hadd : t.AddUser user now
        = { t with Users := t.Users ++ [user], UpdatedAt := now } := by
      simp only [entity.Task.AddUser, h]
      rfl
    have hno : ∀ x ∈ t.Users, x.UUID ≠ user.UUID := by
      intro x hx hxu
      apply h
      rw [List.any_eq_true]
      exact ⟨x, hx, by simpa using hxu⟩
    rw [hadd]
    refine ⟨?_, ⟨user, by simp, rfl⟩, ?_, fun _ => rfl, ?_⟩
    · simp only [List.map_append, List.map_cons, List.map_nil]
      rw [List.nodup_append]
      refine ⟨hnd, List.nodup_singleton _, ?_⟩
      intro a ha hb
      simp only [List.mem_singleton] at hb
      obtain ⟨x, hx, hxa⟩ := List.mem_map.mp ha
      exact hno x hx (hxa.trans hb)
    · rintro ⟨x, hx, hxu⟩
      exact absurd hxu (hno x hx)
    · simp [entity.Task.AddUser]

/-- Witness of C27: bob is added to a task that lists alice, then added again. -/
theorem C27_add_user_keeps_users_distinct_witness :
    ((({ Users := [{ ID := 1, UUID := 101 }] } : entity.Task).AddUser
        { ID := 2, UUID := 102 } 30).Users.map (fun u => u.UUID)).Nodup
      ∧ (({ Users := [{ ID := 1, UUID := 101 }] } : entity.Task).AddUser
          { ID := 2, UUID := 102 } 30).AddUser { ID := 2, UUID := 102 } 31
        = ({ Users := [{ ID := 1, UUID := 101 }] } : entity.Task).AddUser
            { ID := 2, UUID := 102 } 30 :=
  have h := C27_add_user_keeps_users_distinct { Users := [{ ID := 1, UUID := 101 }] }
    { ID := 2, UUID := 102 } 30 31 (by decide)
  ⟨h.1, h.2.2.2.2⟩

/-! ## C28: a failed login does not tell whether the email is registered -/

/-- C28. Take a store and an email that the query by email does not find, and a store and
an email that it finds, with a password that the verifier rejects against the stored
hash. `UserUseCase.Login` returns the same error, "invalid email or password", in both
cases, and the flat handler `Users.Login` gives the same answer, 401 "Invalid email or
password" with no user and no token, in both cases. -/
theorem C28_login_failure_is_uniform (authService : usecase.AuthService)
    (bcryptCompare : String → String → Bool)
    (generateJWTToken : uuid.UUID → Except Err String)
    (db db2 : DB) (email email2 password password2 : String) (err : Err) (urow : UserRow)
    (hnone : db.scanUserByEmail email = .error err)
    (hsome : db2.scanUserByEmail email2 = .ok urow)
    (hbad : authService.ValidatePassword urow.Password password2 = false)
    (hbad2 : bcryptCompare urow.Password password2 = false) :
    UserUseCase.Login authService db { Email := email, Password := password }
        = .error (.new "invalid email or password")
      ∧ UserUseCase.Login authService db2 { Email := email2, Password := password2 }
        = .error (.new "invalid email or password")
      ∧ controllers.Users.Login bcryptCompare generateJWTToken db
          (some { Email := email, Password := password })
        = { status := 401, errMsg := "Invalid email or password", user := none,
            token := none }
      ∧ controllers.Users.Login bcryptCompare generateJWTToken db2
          (some { Email := email2, Password := password2 })
        = { status := 401, errMsg := "Invalid email or password", user := none,
            token := none } := by
  refine ⟨?_, ?_, ?_, ?_⟩
  · simp [UserUseCase.Login, UserService.GetUserByEmail, UserRepository.GetByEmail, hnone]
  · simp [UserUseCase.Login, UserService.GetUserByEmail, UserRepository.GetByEmail, hsome,
      UserRepository.toEntity, hbad]
  · simp [controllers.Users.Login, models.GetUserByEmail, hnone]
  · simp [controllers.Users.Login, models.GetUserByEmail, hsome, helperFunc.VerifyPassword,
      hbad2]

/-- Witness of C28 on the sample store: an email that nobody holds, and the email of bob
with a wrong password. -/
theorem C28_login_failure_is_uniform_witness :
    UserUseCase.Login Sample.authService Sample.db
        { Email := "nobody@example.com", Password := "b" }
      = UserUseCase.Login Sample.authService Sample.db
          { Email := "bob@example.com", Password := "x" }
      ∧ controllers.Users.Login Sample.bcryptCompare Sample.mint Sample.db
          (some { Email := "nobody@example.com", Password := "b" })
        = controllers.Users.Login Sample.bcryptCompare Sample.mint Sample.db
            (some { Email := "bob@example.com", Password := "x" }) :=
  have h := C28_login_failure_is_uniform Sample.authService Sample.bcryptCompare Sample.mint
    Sample.db Sample.db "nobody@example.com" "bob@example.com" "b" "x" .noRows Sample.bob
    rfl rfl (by decide) (by decide)
  ⟨h.1.trans h.2.1.symm, h.2.2.1.trans h.2.2.2.symm⟩

/-! ## C29: the layered user output carries no password hash -/

/-- The store with the `password` column rewritten by `f`, every other column kept. -/
theorem liveUsers_rehash (db : DB) (f : UserRow → String) :
    DB.liveUsers { db with users := db.users.map (fun r => { r with Password := f r }) }
      = db.liveUsers.map (fun r => { r with Password := f r }) := by
  unfold DB.liveUsers
  rw [List.filter_map]
  rfl

theorem find?_rehash (f : UserRow → String) (p : UserRow → Bool)
    (hp : ∀ r, p { r with Password := f r } = p r) (l : List UserRow) :
    (l.map (fun r => { r with Password := f r })).find? p
      = (l.find? p).map (fun r => { r with Password := f r }) := by
  induction l with
  | nil => rfl
  | cons x xs ih =>
    rw [List.map_cons, List.find?_cons, List.find?_cons, hp x]
    cases p x with
    | true => rfl
    | false => exact ih

theorem scanUserByUUID_rehash (db : DB) (f : UserRow → String) (u : uuid.UUID) :
    DB.scanUserByUUID { db with users := db.users.map (fun r => { r with Password := f r }) } u
      = (db.scanUserByUUID u).map (fun r => { r with Password := f r }) := by
  unfold DB.scanUserByUUID
  rw [liveUsers_rehash, find?_rehash f (fun r => r.UUID == u) (fun _ => rfl)]
  cases db.liveUsers.find? (fun r => r.UUID == u) <;> rfl

theorem scanUserByEmail_rehash (db : DB) (f : UserRow → String) (e : String) :
    DB.scanUserByEmail { db with users := db.users.map (fun r => { r with Password := f r }) } e
      = (db.scanUserByEmail e).map (fun r => { r with Password := f r }) := by
  unfold DB.scanUserByEmail
  rw [liveUsers_rehash, find?_rehash f (fun r => r.Email == e) (fun _ => rfl)]
  cases db.liveUsers.find? (fun r => r.Email == e) <;> rfl

/-- What a successful `UserUseCase.Login` returns as user: the presentation of the row
that the query by email finds. -/
theorem Login_ok_user {a : usecase.AuthService} {db : DB} {req : dto.LoginRequest}
    {resp : dto.LoginResponse} (h : UserUseCase.Login a db req = .ok resp) :
    ∃ urow, db.scanUserByEmail req.Email = .ok urow
      ∧ resp.User = UserPresenter.ToDTO (UserRepository.toEntity urow) := by
  unfold UserUseCase.Login UserService.GetUserByEmail UserRepository.GetByEmail at h
  cases hs : db.scanUserByEmail req.Email with
  | error e => simp [hs] at h
  | ok urow =>
    simp only [hs] at h
    split at h
    · exact Except.noConfusion h
    · cases hg : a.GenerateToken (UserRepository.toEntity urow).UUID with
      | error e => simp [hg] at h
      | ok token =>
        simp only [hg, Except.ok.injEq] at h
        subst h
        exact ⟨urow, rfl, rfl⟩

/-- What a successful `UserUseCase.CreateUser` returns: the request, the new identifier
and the time of the call. -/
theorem CreateUser_ok_dto {a : usecase.AuthService} {e : Option usecase.EmailService}
    {db s : DB} {now : Time} {fresh : uuid.UUID} {req : dto.CreateUserRequest}
    {d : dto.UserResponse} (h : UserUseCase.CreateUser a e db now fresh req = (.ok d, s)) :
    d = { ID := fresh, Name := req.Name, Email := req.Email, CreatedAt := now,
          UpdatedAt := now, DeletedAt := none } := by
  unfold UserUseCase.CreateUser at h
  cases hh : a.HashPassword req.Password with
  | error err => simp [hh] at h
  | ok hashed =>
    simp only [hh] at h
    cases hn : entity.NewUser req.Name req.Email hashed now fresh with
    | error err => simp [hn] at h
    | ok user =>
      simp only [hn] at h
      have huser : user =
          { ID := 0, UUID := fresh, Name := req.Name, Email := req.Email, Password := hashed,
            CreatedAt := now, UpdatedAt := now, DeletedAt := none } := by
        unfold entity.NewUser at hn
        split at hn
        · exact Except.noConfusion hn
        · exact (Except.ok.inj hn).symm
      have hcreate : UserService.CreateUser db now user = (some (.new "email already registered"), user, db)
          ∨ UserService.CreateUser db now user = UserRepository.Create db now user := by
        unfold UserService.CreateUser UserRepository.EmailExists
        simp only
        split
        · left; rfl
        · right; rfl
      rcases hcreate with hc | hc
      · rw [hc] at h
        simp at h
      · rw [hc] at h
        unfold UserRepository.Create at h
        cases hi : db.insertUser now
          { ID := 0, UUID := user.UUID, Name := user.Name, Email := user.Email,
            Password := user.Password, CreatedAt := 0, UpdatedAt := 0, DeletedAt := none } with
        | error err => simp [hi] at h
        | ok p =>
          obtain ⟨db3, dbUser⟩ := p
          simp only [hi, Prod.mk.injEq, Except.ok.injEq] at h
          rw [← h.1, huser]
          rfl

/-- C29. `UserPresenter.ToDTO`, `ToSummary` and `ToDTOList` give equal results on user
entities that differ only in `Password`. Hence, between a store and the same store with
the `password` column rewritten in any way, `UserUseCase.GetUserByUUID` and `GetAllUsers`
return the same; two successful `Login` calls with the same email return the same user;
and two successful `CreateUser` calls that differ in the password hasher return the
same user. -/
theorem C29_user_output_hides_password (user : entity.User) (p : String)
    (users : List entity.User) (g : entity.User → String)
    (db : DB) (f : UserRow → String) :
    UserPresenter.ToDTO { user with Password := p } = UserPresenter.ToDTO user
      ∧ UserPresenter.ToSummary { user with Password := p } = UserPresenter.ToSummary user
      ∧ UserPresenter.ToDTOList (users.map (fun u => { u with Password := g u }))
          = UserPresenter.ToDTOList users
      ∧ (∀ userUUID,
          UserUseCase.GetUserByUUID
              { db with users := db.users.map (fun r => { r with Password := f r }) } userUUID
            = UserUseCase.GetUserByUUID db userUUID)
      ∧ UserUseCase.GetAllUsers
            { db with users := db.users.map (fun r => { r with Password := f r }) }
          = UserUseCase.GetAllUsers db
      ∧ (∀ (a a2 : usecase.AuthService) (email pw pw2 : String) (resp resp2 : dto.LoginResponse),
          UserUseCase.Login a db { Email := email, Password := pw } = .ok resp →
          UserUseCase.Login a2
              { db with users := db.users.map (fun r => { r with Password := f r }) }
              { Email := email, Password := pw2 } = .ok resp2 →
          resp.User = resp2.User)
      ∧ (∀ (a a2 : usecase.AuthService) (e e2 : Option usecase.EmailService) (now : Time)
          (fresh : uuid.UUID) (req : dto.CreateUserRequest) (d d2 : dto.UserResponse)
          (s s2 : DB),
          UserUseCase.CreateUser a e db now fresh req = (.ok d, s) →
          UserUseCase.CreateUser a2 e2 db now fresh req = (.ok d2, s2) →
          d = d2) := by
  refine ⟨rfl, rfl, ?_, ?_, ?_, ?_, ?_⟩
  · simp only [UserPresenter.ToDTOList, List.map_map]
    rfl
  · intro userUUID
    unfold UserUseCase.GetUserByUUID UserService.GetUserByUUID UserRepository.GetByUUID
    rw [scanUserByUUID_rehash]
    cases db.scanUserByUUID userUUID <;> rfl
  · unfold UserUseCase.GetAllUsers UserService.GetAllUsers UserRepository.GetAll
    rw [liveUsers_rehash]
    simp only [UserPresenter.ToDTOList, List.map_map]
    rfl
  · intro a a2 email pw pw2 resp resp2 h1 h2
    obtain ⟨urow, hs, hr⟩ := Login_ok_user h1
    obtain ⟨urow2, hs2, hr2⟩ := Login_ok_user h2
    have hs3 : (DB.scanUserByEmail
        { db with users := db.users.map (fun r => { r with Password := f r }) } email)
        = .ok urow2 := hs2
    rw [scanUserByEmail_rehash] at hs3
    have hs4 : db.scanUserByEmail email = .ok urow := hs
    rw [hs4] at hs3
    have : urow2 = { urow with Password := f urow } := (Except.ok.inj hs3).symm
    rw [hr, hr2, this]
    rfl
  · intro a a2 e e2 now fresh req d d2 s s2 h1 h2
    rw [CreateUser_ok_dto h1, CreateUser_ok_dto h2]

/-- Witness of C29 on the sample store: bob logs in before and after every stored hash is
replaced by the hash of "z"; the two responses carry the same user. -/
theorem C29_user_output_hides_password_witness :
    (UserUseCase.Login Sample.authService Sample.db
        { Email := "bob@example.com", Password := "b" }).map (fun r => r.User)
      = (UserUseCase.Login Sample.authService
          { Sample.db with users := Sample.db.users.map (fun r => { r with Password := "h-z" }) }
          { Email := "bob@example.com", Password := "z" }).map (fun r => r.User) :=
  have h := (C29_user_output_hides_password (UserRepository.toEntity Sample.bob) "h-z" []
    (fun _ => "") Sample.db (fun _ => "h-z")).2.2.2.2.2.1
    Sample.authService Sample.authService "bob@example.com" "b" "z"
    { User := UserPresenter.ToDTO (UserRepository.toEntity Sample.bob), Token := "tok-102" }
    { User := UserPresenter.ToDTO
        (UserRepository.toEntity { Sample.bob with Password := "h-z" }), Token := "tok-102" }
    rfl rfl
  (congrArg (fun u => (Except.ok u : Except Err dto.UserResponse)) h)

/-! ## C21: the list of tasks assigned to a user -/

theorem mem_selectTasksAssignedTo {db : DB} {u : uuid.UUID} {row : TaskRow} :
    row ∈ db.selectTasksAssignedTo u ↔
      row ∈ db.tasks ∧ row.DeletedAt = none ∧ row.AssignedToID = some u := by
  unfold DB.selectTasksAssignedTo DB.liveTasks
  rw [(List.perm_insertionSort _ _).mem_iff]
  simp only [List.mem_filter, Option.isNone_iff_eq_none, beq_iff_eq]
  tauto

theorem TasksPK_after_assign {db : DB} (hpk : db.TasksPK) (taskUUID userUUID r : uuid.UUID) :
    (TaskService.AssignTask db taskUUID userUUID r).2.TasksPK := by
  have h := TaskOp_run_kept (.assign taskUUID userUUID r) db hpk
  unfold DB.TasksPK
  have h2 := TasksPK_of_kept h
  have h3 : (TaskOp.run (.assign taskUUID userUUID r) db).tasks
      = (TaskService.AssignTask db taskUUID userUUID r).2.tasks := rfl
  rw [← h3, h2]
  exact hpk

/-- The selected rows are in the order of `ORDER BY created_at DESC`: no row is older than
a row that comes after it. -/
theorem selectTasksAssignedTo_sorted (db : DB) (u : uuid.UUID) :
    (db.selectTasksAssignedTo u).Pairwise (fun a b => b.CreatedAt ≤ a.CreatedAt) := by
  unfold DB.selectTasksAssignedTo
  haveI : IsTotal TaskRow (fun a b => b.CreatedAt ≤ a.CreatedAt) :=
    ⟨fun a b => Nat.le_total b.CreatedAt a.CreatedAt⟩
  haveI : IsTrans TaskRow (fun a b => b.CreatedAt ≤ a.CreatedAt) :=
    ⟨fun _ _ _ hab hbc => Nat.le_trans hbc hab⟩
  exact List.sorted_insertionSort (fun a b : TaskRow => b.CreatedAt ≤ a.CreatedAt) _

/-- The selected rows are the rows that the `WHERE` clause keeps, each as often as the
table holds it. -/
theorem selectTasksAssignedTo_perm (db : DB) (u : uuid.UUID) :
    (db.selectTasksAssignedTo u).Perm
      (db.liveTasks.filter (fun r => r.AssignedToID == some u)) := by
  unfold DB.selectTasksAssignedTo
  exact List.perm_insertionSort _ _

/-- C21, as claimed, fails. On the store with the three users alice creates task 201
without assignee, assigns bob and then carol. Bob is still among the users of the task,
but the lists returned for bob by `TaskRepository.GetTasksAssignedToUser` and by the flat
`GetTasksAssignedToUser` are empty; the task is in the lists returned for carol. -/
theorem C21_counterexample_reassigned_task_leaves_list :
    (TaskRepository.GetByUUID
        (TaskService.AssignTask (TaskService.AssignTask
          (TaskUseCase.CreateTask Sample.parse Sample.usersOnly 30 201
            { Title := "X", Description := "", Users := [] } 101).2 201 102 101).2
          201 103 101).2 201).map (fun t => t.Users.map (fun x => x.UUID))
      = .ok [102, 103]
      ∧ TaskRepository.GetTasksAssignedToUser
          (TaskService.AssignTask (TaskService.AssignTask
            (TaskUseCase.CreateTask Sample.parse Sample.usersOnly 30 201
              { Title := "X", Description := "", Users := [] } 101).2 201 102 101).2
            201 103 101).2 102 = .ok []
      ∧ models.GetTasksAssignedToUser
          (TaskService.AssignTask (TaskService.AssignTask
            (TaskUseCase.CreateTask Sample.parse Sample.usersOnly 30 201
              { Title := "X", Description := "", Users := [] } 101).2 201 102 101).2
            201 103 101).2 102 = .ok []
      ∧ (TaskRepository.GetTasksAssignedToUser
          (TaskService.AssignTask (TaskService.AssignTask
            (TaskUseCase.CreateTask Sample.parse Sample.usersOnly 30 201
              { Title := "X", Description := "", Users := [] } 101).2 201 102 101).2
            201 103 101).2 103).map (fun l => l.map (fun t => t.UUID)) = .ok [201] := by
  refine ⟨rfl, rfl, rfl, rfl⟩

/-- C21, amended. `TaskRepository.GetTasksAssignedToUser` and, for an identifier other
than `uuid.Nil`, the flat `GetTasksAssignedToUser` return exactly the tasks that are not
soft-deleted and whose primary assignee (`assigned_to_id`) is the user, each with its
relations loaded and each as often as the table holds its row, newest first: no task of
the list was created before a task that comes after it.
Membership in the assignment set plays no part: after the creator of a
stored task assigns an existing user `u` and then an existing user `v` other than `u`,
`u` is in the users of the task read back, the task is in the list returned for `v`, and
no task with its key is in the list returned for `u`. The store is assumed to keep
`users.id` and `tasks.id` unique. -/
theorem C21_list_is_by_primary_assignee (db : DB) (taskUUID u v : uuid.UUID)
    (row : TaskRow) (urow vrow : UserRow)
    (hpk : db.UsersPK) (htpk : db.TasksPK)
    (ht : db.scanTaskByUUID taskUUID = .ok row)
    (hu : db.scanUserByUUID u = .ok urow) (hv : db.scanUserByUUID v = .ok vrow)
    (huv : u ≠ v) :
    (∀ (d : DB) (w : uuid.UUID), ∃ l, TaskRepository.GetTasksAssignedToUser d w = .ok l ∧
        (∀ t, t ∈ l ↔ ∃ r ∈ d.tasks, r.DeletedAt = none ∧ r.AssignedToID = some w ∧
          t = TaskRepository.toEntity
            { toTaskRow := r, CreatedBy := d.relUser r.CreatedByID,
              AssignedTo := r.AssignedToID.bind d.relUser, Users := d.relUsers r.ID })
        ∧ l.Pairwise (fun a b => b.CreatedAt ≤ a.CreatedAt)
        ∧ l.Perm ((d.liveTasks.filter (fun r => r.AssignedToID == some w)).map (fun r =>
            TaskRepository.toEntity
              { toTaskRow := r, CreatedBy := d.relUser r.CreatedByID,
                AssignedTo := r.AssignedToID.bind d.relUser, Users := d.relUsers r.ID })))
      ∧ (∀ (d : DB) (w : uuid.UUID), w ≠ 0 →
          ∃ l, models.GetTasksAssignedToUser d w = .ok l ∧
            (∀ t, t ∈ l ↔ ∃ r ∈ d.tasks, r.DeletedAt = none ∧ r.AssignedToID = some w ∧
              t = { toTaskRow := r, CreatedBy := d.relUser r.CreatedByID,
                    AssignedTo := r.AssignedToID.bind d.relUser, Users := d.relUsers r.ID })
            ∧ l.Pairwise (fun a b => b.CreatedAt ≤ a.CreatedAt)
            ∧ l.Perm ((d.liveTasks.filter (fun r => r.AssignedToID == some w)).map (fun r =>
                ({ toTaskRow := r, CreatedBy := d.relUser r.CreatedByID,
                   AssignedTo := r.AssignedToID.bind d.relUser,
                   Users := d.relUsers r.ID } : models.Task))))
      ∧ (∃ t2, TaskRepository.GetByUUID
            (TaskService.AssignTask (TaskService.AssignTask db taskUUID u row.CreatedByID).2
              taskUUID v row.CreatedByID).2 taskUUID = .ok t2
          ∧ t2.ID = row.ID ∧ t2.AssignedToID = some v
          ∧ (∃ x ∈ t2.Users, x.UUID = u)
          ∧ (∃ l, TaskRepository.GetTasksAssignedToUser
                (TaskService.AssignTask (TaskService.AssignTask db taskUUID u row.CreatedByID).2
                  taskUUID v row.CreatedByID).2 v = .ok l ∧ t2 ∈ l)
          ∧ (∃ l, TaskRepository.GetTasksAssignedToUser
                (TaskService.AssignTask (TaskService.AssignTask db taskUUID u row.CreatedByID).2
                  taskUUID v row.CreatedByID).2 u = .ok l ∧ ∀ t ∈ l, t.ID ≠ row.ID)) := by
  have hrepo : ∀ (d : DB) (w : uuid.UUID), ∃ l, TaskRepository.GetTasksAssignedToUser d w = .ok l ∧
        (∀ t, t ∈ l ↔ ∃ r ∈ d.tasks, r.DeletedAt = none ∧ r.AssignedToID = some w ∧
          t = TaskRepository.toEntity
            { toTaskRow := r, CreatedBy := d.relUser r.CreatedByID,
              AssignedTo := r.AssignedToID.bind d.relUser, Users := d.relUsers r.ID })
        ∧ l.Pairwise (fun a b => b.CreatedAt ≤ a.CreatedAt)
        ∧ l.Perm ((d.liveTasks.filter (fun r => r.AssignedToID == some w)).map (fun r =>
            TaskRepository.toEntity
              { toTaskRow := r, CreatedBy := d.relUser r.CreatedByID,
                AssignedTo := r.AssignedToID.bind d.relUser,
                Users := d.relUsers r.ID })) := by
    intro d w
    refine ⟨_, rfl, ?_, ?_, (selectTasksAssignedTo_perm d w).map _⟩
    · intro t
      simp only [List.mem_map, mem_selectTasksAssignedTo]
      constructor
      · rintro ⟨r, ⟨h1, h2, h3⟩, rfl⟩
        exact ⟨r, h1, h2, h3, rfl⟩
      · rintro ⟨r, h1, h2, h3, rfl⟩
        exact ⟨r, ⟨h1, h2, h3⟩, rfl⟩
    · rw [List.pairwise_map]
      exact selectTasksAssignedTo_sorted d w
  refine ⟨hrepo, ?_, ?_⟩
  · intro d w hw
    have hl : models.GetTasksAssignedToUser d w = .ok ((d.selectTasksAssignedTo w).map
        (fun row =>
          ({ toTaskRow := row, CreatedBy := d.relUser row.CreatedByID,
             AssignedTo := row.AssignedToID.bind d.relUser,
             Users := d.relUsers row.ID } : models.Task))) := by
      simp only [models.GetTasksAssignedToUser, hw, if_false]
    refine ⟨_, hl, ?_, ?_, (selectTasksAssignedTo_perm d w).map _⟩
    · intro t
      simp only [List.mem_map, mem_selectTasksAssignedTo]
      constructor
      · rintro ⟨r, ⟨h1, h2, h3⟩, rfl⟩
        exact ⟨r, h1, h2, h3, rfl⟩
      · rintro ⟨r, h1, h2, h3, rfl⟩
        exact ⟨r, ⟨h1, h2, h3⟩, rfl⟩
    · rw [List.pairwise_map]
      exact selectTasksAssignedTo_sorted d w
  · obtain ⟨db1, hstep1, husers1, hscan1, hrel1⟩ := AssignTask_by_creator hpk ht hu
    have hpk1 : db1.UsersPK := by unfold DB.UsersPK; rw [husers1]; exact hpk
    have hv1 : db1.scanUserByUUID v = .ok vrow := (scanUserByUUID_congr husers1 v).trans hv
    obtain ⟨db2, hstep2, husers2, hscan2, hrel2⟩ := AssignTask_by_creator hpk1 hscan1 hv1
    have hstep2b : TaskService.AssignTask db1 taskUUID v row.CreatedByID = (none, db2) := hstep2
    have htpk1 : db1.TasksPK := by
      have := TasksPK_after_assign htpk taskUUID u row.CreatedByID
      rw [hstep1] at this
      exact this
    have htpk2 : db2.TasksPK := by
      have := TasksPK_after_assign htpk1 taskUUID v row.CreatedByID
      rw [hstep2b] at this
      exact this
    have hscan2b : db2.scanTaskByUUID taskUUID = .ok { row with AssignedToID := some v } :=
      hscan2
    have hin1 : urow ∈ db1.relUsers row.ID := by
      rcases hrel1 with ⟨h1, h2⟩ | ⟨_, h2⟩
      · rw [h2]; exact h1
      · rw [h2]; simp
    have hin2 : urow ∈ db2.relUsers row.ID := by
      rcases hrel2 with ⟨_, h2⟩ | ⟨_, h2⟩
      · have h2b : db2.relUsers row.ID = db1.relUsers row.ID := h2
        rw [h2b]; exact hin1
      · have h2b : db2.relUsers row.ID = db1.relUsers row.ID ++ [vrow] := h2
        rw [h2b]; exact List.mem_append_left _ hin1
    have hget : TaskRepository.GetByUUID db2 taskUUID = .ok (TaskRepository.toEntity
        { toTaskRow := { row with AssignedToID := some v },
          CreatedBy := db2.relUser row.CreatedByID,
          AssignedTo := db2.relUser v, Users := db2.relUsers row.ID }) := by
      simp [TaskRepository.GetByUUID, DB.scanTaskWithRelations, hscan2b]
    obtain ⟨hlv, _, hmem⟩ := scanTaskByUUID_props hscan2b
    rw [hstep1]
    simp only
    rw [hstep2b]
    simp only
    refine ⟨_, hget, rfl, rfl, ?_, ?_, ?_⟩
    · refine ⟨TaskRepository.relatedUser urow, ?_, (scanUserByUUID_props hu).2.1⟩
      simp only [TaskRepository.toEntity]
      exact List.mem_map_of_mem _ hin2
    · obtain ⟨l, hl, hmeml, _⟩ := hrepo db2 v
      refine ⟨l, hl, (hmeml _).mpr ⟨_, hmem, hlv, rfl, ?_⟩⟩
      rfl
    · obtain ⟨l, hl, hmeml, _⟩ := hrepo db2 u
      refine ⟨l, hl, ?_⟩
      intro t htl hid
      obtain ⟨r, hr, _, hra, rfl⟩ := (hmeml t).mp htl
      have hrid : r.ID = row.ID := hid
      have : r = { row with AssignedToID := some v } := tasksPK_eq htpk2 hr hmem hrid
      rw [this] at hra
      exact huv (Option.some.inj hra).symm

/-- Witness of amended C21 on the sample store: alice assigns carol and then bob to task
201; carol is still among the users, and the list returned for carol holds no task with
the key of task 201. The list returned for bob on the sample store is in the stated
order: task 202, created at 21, comes before task 201, created at 20. -/
theorem C21_list_is_by_primary_assignee_witness :
    (∃ l, TaskRepository.GetTasksAssignedToUser
        (TaskService.AssignTask (TaskService.AssignTask Sample.db 201 103 101).2
          201 102 101).2 103 = .ok l ∧ ∀ t ∈ l, t.ID ≠ 1)
      ∧ (∃ l, TaskRepository.GetTasksAssignedToUser Sample.db 102 = .ok l
          ∧ l.Pairwise (fun a b => b.CreatedAt ≤ a.CreatedAt))
      ∧ (TaskRepository.GetTasksAssignedToUser Sample.db 102).map
          (fun l => l.map (fun t => (t.UUID, t.CreatedAt)))
        = .ok [(202, 21), (201, 20)] :=
  have h := C21_list_is_by_primary_assignee Sample.db 201 103 102 Sample.taskT Sample.carol
    Sample.bob (by unfold DB.UsersPK; decide) (by unfold DB.TasksPK; decide) rfl rfl rfl
    (by decide)
  ⟨h.2.2.choose_spec.2.2.2.2.2,
    (h.1 Sample.db 102).imp (fun _ hl => ⟨hl.1, hl.2.2.1⟩),
    rfl⟩

/-! ## C22: what the task service returns when a repository fails -/

theorem Err_Is_refl (e : Err) : e.Is e = true := by
  cases e <;> simp [Err.Is]

/-- The service over the interfaces, instantiated with the bun repositories, is the
service on the relational store used in the rest of this development. -/
theorem bunTaskService_eq (now : Time) (db : DB) (taskUUID userUUID requestorUUID : uuid.UUID)
    (task : entity.Task) :
    service.TaskService.AssignTask (service.bunTaskService now) db taskUUID userUUID
        requestorUUID = TaskService.AssignTask db taskUUID userUUID requestorUUID
      ∧ service.TaskService.CompleteTask (service.bunTaskService now) db now taskUUID userUUID
        = TaskService.CompleteTask db now taskUUID userUUID
      ∧ service.TaskService.DeleteTask (service.bunTaskService now) db taskUUID userUUID
        = TaskService.DeleteTask db now taskUUID userUUID
      ∧ service.TaskService.CreateTask (service.bunTaskService now) db task
        = TaskService.CreateTask db now task :=
  ⟨rfl, rfl, rfl, rfl⟩

/-- C22, as claimed, fails. With repositories whose store is out of reach, so that every
method answers the error "connection refused", `AssignTask`, `CompleteTask` and
`DeleteTask` return "task not found" and `CreateTask` returns "creator not found": errors
that do not wrap the error of the repository. -/
theorem C22_counterexample_store_failure_becomes_not_found :
    service.TaskService.AssignTask
        { taskRepo := Sample.failingTaskRepository (.new "connection refused"),
          userRepo := Sample.failingUserRepository (.new "connection refused") }
        () 201 102 101 = (some (.new "task not found"), ())
      ∧ service.TaskService.CompleteTask
          { taskRepo := Sample.failingTaskRepository (.new "connection refused"),
            userRepo := Sample.failingUserRepository (.new "connection refused") }
          () 30 201 101 = (some (.new "task not found"), ())
      ∧ service.TaskService.DeleteTask
          { taskRepo := Sample.failingTaskRepository (.new "connection refused"),
            userRepo := Sample.failingUserRepository (.new "connection refused") }
          () 201 101 = (some (.new "task not found"), ())
      ∧ (service.TaskService.CreateTask
          { taskRepo := Sample.failingTaskRepository (.new "connection refused"),
            userRepo := Sample.failingUserRepository (.new "connection refused") }
          () { Title := "X", CreatedByID := 101 }).1 = some (.new "creator not found")
      ∧ (Err.new "task not found").Is (.new "connection refused") = false
      ∧ (Err.new "creator not found").Is (.new "connection refused") = false := by
  refine ⟨rfl, rfl, rfl, rfl, ?_, ?_⟩ <;> decide

/-- C22, amended. For any repositories behind the interfaces and any store:
(1) whatever error the lookup `taskRepo.GetByUUID` returns, `AssignTask`, `CompleteTask`
and `DeleteTask` return the new error "task not found" and the store they were given;
(2) whatever error the lookup `userRepo.GetByUUID` returns, `CreateTask` returns the new
error "creator not found", and `AssignTask` by the creator of a task that is found
returns the new error "user not found";
(3) once the lookups have succeeded and the requestor is authorized, the service returns
what the write of the repository returns (`AssignTaskToUser`, `Update`, `Delete`,
`Create`), so an error of the write comes back as it is, and `errors.Is` holds of it. -/
theorem C22_lookup_errors_are_replaced {σ : Type} (s : service.TaskService σ) (st : σ)
    (now : Time) (taskUUID userUUID requestorUUID : uuid.UUID) (task : entity.Task) :
    (∀ e, s.taskRepo.GetByUUID st taskUUID = .error e →
        s.AssignTask st taskUUID userUUID requestorUUID = (some (.new "task not found"), st)
          ∧ s.CompleteTask st now taskUUID requestorUUID = (some (.new "task not found"), st)
          ∧ s.DeleteTask st taskUUID requestorUUID = (some (.new "task not found"), st))
      ∧ (∀ e, s.userRepo.GetByUUID st task.CreatedByID = .error e →
          s.CreateTask st task = (some (.new "creator not found"), task, st))
      ∧ (∀ e found, s.taskRepo.GetByUUID st taskUUID = .ok found →
          s.userRepo.GetByUUID st userUUID = .error e →
          s.AssignTask st taskUUID userUUID found.CreatedByID
            = (some (.new "user not found"), st))
      ∧ (∀ found user, s.taskRepo.GetByUUID st taskUUID = .ok found →
          s.userRepo.GetByUUID st userUUID = .ok user →
          s.AssignTask st taskUUID userUUID found.CreatedByID
            = s.taskRepo.AssignTaskToUser st taskUUID userUUID)
      ∧ (∀ found, s.taskRepo.GetByUUID st taskUUID = .ok found →
          found.CanBeModifiedBy requestorUUID = true → found.Completed = false →
          s.CompleteTask st now taskUUID requestorUUID
            = s.taskRepo.Update st { found with Completed := true, UpdatedAt := now })
      ∧ (∀ found, s.taskRepo.GetByUUID st taskUUID = .ok found →
          s.DeleteTask st taskUUID found.CreatedByID = s.taskRepo.Delete st taskUUID)
      ∧ (∀ creator, s.userRepo.GetByUUID st task.CreatedByID = .ok creator →
          s.CreateTask st task = s.taskRepo.Create st { task with CreatedBy := some creator })
      ∧ (∀ e : Err, e.Is e = true) := by
  refine ⟨?_, ?_, ?_, ?_, ?_, ?_, ?_, Err_Is_refl⟩
  · intro e h
    simp [service.TaskService.AssignTask, service.TaskService.CompleteTask,
      service.TaskService.DeleteTask, h]
  · intro e h
    simp [service.TaskService.CreateTask, h]
  · intro e found h1 h2
    simp [service.TaskService.AssignTask, h1, h2]
  · intro found user h1 h2
    simp [service.TaskService.AssignTask, h1, h2]
  · intro found h1 h2 h3
    simp [service.TaskService.CompleteTask, h1, h2, entity.Task.Complete, h3]
  · intro found h1
    simp [service.TaskService.DeleteTask, h1]
  · intro creator h1
    simp [service.TaskService.CreateTask, h1]

/-- Witness of amended C22: with repositories out of reach the service answers
"task not found"; on the sample store, where the lookups succeed, the deletion of task
201 by alice returns what `TaskRepository.Delete` returns. -/
theorem C22_lookup_errors_are_replaced_witness :
    service.TaskService.AssignTask
        { taskRepo := Sample.failingTaskRepository (.new "connection refused"),
          userRepo := Sample.failingUserRepository (.new "connection refused") }
        () 201 102 101 = (some (.new "task not found"), ())
      ∧ service.TaskService.DeleteTask (service.bunTaskService 40) Sample.db 201 101
        = TaskRepository.Delete Sample.db 40 201 :=
  ⟨((C22_lookup_errors_are_replaced
      { taskRepo := Sample.failingTaskRepository (.new "connection refused"),
        userRepo := Sample.failingUserRepository (.new "connection refused") }
      () 30 201 102 101 { Title := "X", CreatedByID := 101 }).1
      (.new "connection refused") rfl).1,
    (C22_lookup_errors_are_replaced (service.bunTaskService 40) Sample.db 40 201 102 101
      { Title := "X", CreatedByID := 101 }).2.2.2.2.2.1
      (TaskRepository.toEntity
        { toTaskRow := Sample.taskT, CreatedBy := some Sample.alice,
          AssignedTo := some Sample.bob, Users := [Sample.bob] }) rfl⟩

/-! ## C23: two registrations of one email that run concurrently -/

/-- Run alone, the two statements of `UserService.CreateUser` give what the method gives. -/
theorem CreateUserCall_layered_alone (db : DB) (now : Time) (user : entity.User) :
    (CreateUserCall.layered now user).step
        ((CreateUserCall.layered now user).step db .start).1
        ((CreateUserCall.layered now user).step db .start).2
      = ((UserService.CreateUser db now user).2.2,
          CreateUserPC.done (UserService.CreateUser db now user).1) := by
  simp only [CreateUserCall.step, UserService.CreateUser, UserRepository.EmailExists]
  cases h : db.existsUserEmail user.Email with
  | true => simp [CreateUserCall.step]
  | false => simp [CreateUserCall.step]

/-- Run alone, the two statements of the flat `User.CreateUser` leave the store that the
method leaves, and succeed when it succeeds. -/
theorem CreateUserCall_flat_alone (bcryptGenerate : String → Option String) (db : DB)
    (now : Time) (fresh : uuid.UUID) (name email password : String) :
    (((CreateUserCall.flat bcryptGenerate now fresh name email password).step
        ((CreateUserCall.flat bcryptGenerate now fresh name email password).step db .start).1
        ((CreateUserCall.flat bcryptGenerate now fresh name email password).step db .start).2).1,
     ((CreateUserCall.flat bcryptGenerate now fresh name email password).step
        ((CreateUserCall.flat bcryptGenerate now fresh name email password).step db .start).1
        ((CreateUserCall.flat bcryptGenerate now fresh name email password).step db .start).2).2.succeeded)
      = ((models.User.CreateUser bcryptGenerate db now fresh name email password).2,
          (models.User.CreateUser bcryptGenerate db now fresh name email password).1.toBool) := by
  simp only [CreateUserCall.step, models.User.CreateUser]
  by_cases h1 : name = "" ∨ email = "" ∨ password = ""
  · simp [h1, CreateUserCall.step, CreateUserPC.succeeded, Except.toBool]
  · simp only [h1, if_false]
    cases h2 : helperFunc.HashPassword bcryptGenerate password with
    | error e => simp [CreateUserCall.step, CreateUserPC.succeeded, Except.toBool]
    | ok hp =>
      cases h3 : db.scanUserByEmail email with
      | ok r => simp [CreateUserCall.step, CreateUserPC.succeeded, Except.toBool]
      | error e =>
        simp only [CreateUserCall.step]
        cases h4 : db.insertUser now
          { ID := 0, UUID := fresh, Name := name, Email := email, Password := hp,
            CreatedAt := 0, UpdatedAt := 0, DeletedAt := none } with
        | error e => simp [CreateUserPC.succeeded, Except.toBool]
        | ok p => simp [CreateUserPC.succeeded, Except.toBool]

/-- An insert into `users` either fails and leaves the store, or succeeds: then no row
carried the email, and exactly one row carries it afterwards. -/
theorem insertUser_count (db : DB) (now : Time) (u : UserRow) :
    (∃ err, db.insertUser now u = .error err)
      ∨ ∃ db2 row, db.insertUser now u = .ok (db2, row)
          ∧ (db.users.filter (fun r => r.Email == u.Email)).length = 0
          ∧ (db2.users.filter (fun r => r.Email == u.Email)).length = 1 := by
  unfold DB.insertUser
  cases hany : db.users.any (fun r => r.Email == u.Email) with
  | true => left; exact ⟨.duplicateKey, by simp⟩
  | false =>
    right
    have hnil : db.users.filter (fun r => r.Email == u.Email) = [] := by
      rw [List.filter_eq_nil_iff]
      intro r hr hc
      rw [List.any_eq_false] at hany
      exact hany r hr hc
    refine ⟨{ db with users := db.users ++
        [{ u with
           ID := db.nextUserID
           CreatedAt := if u.CreatedAt = 0 then now else u.CreatedAt
           UpdatedAt := if u.UpdatedAt = 0 then now else u.UpdatedAt }] },
      { u with
        ID := db.nextUserID
        CreatedAt := if u.CreatedAt = 0 then now else u.CreatedAt
        UpdatedAt := if u.UpdatedAt = 0 then now else u.UpdatedAt },
      by simp, by rw [hnil]; rfl, ?_⟩
    simp only [List.filter_append, hnil, List.nil_append]
    simp

/-- One statement of a request for the email `e`: either it leaves the store and does not
change whether the request has succeeded, or the request succeeds with it: then no row
carried `e` before and exactly one row carries it afterwards. -/
theorem CreateUserCall_step_count (c : CreateUserCall) (e : String) (hc : c.email = e)
    (db : DB) (pc : CreateUserPC) :
    ((c.step db pc).1 = db ∧ (c.step db pc).2.succeeded = pc.succeeded)
      ∨ (pc.succeeded = false ∧ (c.step db pc).2.succeeded = true
          ∧ (db.users.filter (fun r => r.Email == e)).length = 0
          ∧ ((c.step db pc).1.users.filter (fun r => r.Email == e)).length = 1) := by
  cases c with
  | layered now user =>
    have he : user.Email = e := hc
    cases pc with
    | done err => left; exact ⟨rfl, rfl⟩
    | start =>
      left
      simp only [CreateUserCall.step, UserRepository.EmailExists]
      split <;> exact ⟨rfl, rfl⟩
    | checked hp =>
      simp only [CreateUserCall.step, UserRepository.Create]
      rcases insertUser_count db now
        { ID := 0, UUID := user.UUID, Name := user.Name, Email := user.Email,
          Password := user.Password, CreatedAt := 0, UpdatedAt := 0, DeletedAt := none }
        with ⟨err, h⟩ | ⟨db2, row, h, h0, h1⟩
      · left
        simp [h, CreateUserPC.succeeded]
      · right
        simp only [h]
        rw [he] at h0 h1
        exact ⟨rfl, rfl, h0, h1⟩
  | flat bcryptGenerate now fresh name email password =>
    have he : email = e := hc
    cases pc with
    | done err => left; exact ⟨rfl, rfl⟩
    | start =>
      left
      simp only [CreateUserCall.step]
      split
      · exact ⟨rfl, rfl⟩
      · split
        · exact ⟨rfl, rfl⟩
        · split <;> exact ⟨rfl, rfl⟩
    | checked hp =>
      simp only [CreateUserCall.step]
      rcases insertUser_count db now
        { ID := 0, UUID := fresh, Name := name, Email := email, Password := hp,
          CreatedAt := 0, UpdatedAt := 0, DeletedAt := none }
        with ⟨err, h⟩ | ⟨db2, row, h, h0, h1⟩
      · left
        simp [h, CreateUserPC.succeeded]
      · right
        simp only [h]
        rw [he] at h0 h1
        exact ⟨rfl, rfl, h0, h1⟩

/-- The rows that carry `e` are as many as the requests that have succeeded. -/
theorem Race_turn_count (a b : CreateUserCall) (e : String) (ha : a.email = e)
    (hb : b.email = e) (s : Race) (who : Bool)
    (h : (s.db.users.filter (fun r => r.Email == e)).length
      = s.first.succeeded.toNat + s.second.succeeded.toNat) :
    ((Race.turn a b s who).db.users.filter (fun r => r.Email == e)).length
      = (Race.turn a b s who).first.succeeded.toNat
        + (Race.turn a b s who).second.succeeded.toNat := by
  cases who with
  | true =>
    have hturn : Race.turn a b s true
        = { s with db := (a.step s.db s.first).1, first := (a.step s.db s.first).2 } := rfl
    rw [hturn]
    rcases CreateUserCall_step_count a e ha s.db s.first with ⟨h1, h2⟩ | ⟨h1, h2, h3, h4⟩
    · simp only [h1, h2]
      exact h
    · simp only [h2, h4]
      rw [h3, h1] at h
      simp only [Bool.toNat_false, Bool.toNat_true] at h ⊢
      omega
  | false =>
    have hturn : Race.turn a b s false
        = { s with db := (b.step s.db s.second).1, second := (b.step s.db s.second).2 } := rfl
    rw [hturn]
    rcases CreateUserCall_step_count b e hb s.db s.second with ⟨h1, h2⟩ | ⟨h1, h2, h3, h4⟩
    · simp only [h1, h2]
      exact h
    · simp only [h2, h4]
      rw [h3, h1] at h
      simp only [Bool.toNat_false, Bool.toNat_true] at h ⊢
      omega

theorem Race_run_count (a b : CreateUserCall) (e : String) (ha : a.email = e)
    (hb : b.email = e) :
    ∀ (schedule : List Bool) (s : Race),
      (s.db.users.filter (fun r => r.Email == e)).length
        = s.first.succeeded.toNat + s.second.succeeded.toNat →
      ((schedule.foldl (Race.turn a b) s).db.users.filter (fun r => r.Email == e)).length
        = (schedule.foldl (Race.turn a b) s).first.succeeded.toNat
          + (schedule.foldl (Race.turn a b) s).second.succeeded.toNat := by
  intro schedule
  induction schedule with
  | nil => intro s h; exact h
  | cons who rest ih =>
    intro s h
    exact ih _ (Race_turn_count a b e ha hb s who h)

/-- Rows that carry `e` only appear when a request succeeds, one at a time from zero: so
there is never more than one. -/
theorem Race_run_le_one (a b : CreateUserCall) (e : String) (ha : a.email = e)
    (hb : b.email = e) :
    ∀ (schedule : List Bool) (s : Race),
      (s.db.users.filter (fun r => r.Email == e)).length ≤ 1 →
      ((schedule.foldl (Race.turn a b) s).db.users.filter (fun r => r.Email == e)).length
        ≤ 1 := by
  intro schedule
  induction schedule with
  | nil => intro s h; exact h
  | cons who rest ih =>
    intro s h
    apply ih
    cases who with
    | true =>
      have hturn : Race.turn a b s true
          = { s with db := (a.step s.db s.first).1, first := (a.step s.db s.first).2 } := rfl
      rw [hturn]
      rcases CreateUserCall_step_count a e ha s.db s.first with ⟨h1, _⟩ | ⟨_, _, _, h4⟩
      · simp only [h1]; exact h
      · simp only [h4]; exact le_refl 1
    | false =>
      have hturn : Race.turn a b s false
          = { s with db := (b.step s.db s.second).1, second := (b.step s.db s.second).2 } := rfl
      rw [hturn]
      rcases CreateUserCall_step_count b e hb s.db s.second with ⟨h1, _⟩ | ⟨_, _, _, h4⟩
      · simp only [h1]; exact h
      · simp only [h4]; exact le_refl 1

/-- C23. Two `CreateUser` requests for one email `e`, each `UserService.CreateUser` or the
flat `User.CreateUser`, run on a store in which no row of `users` carries `e`, their
statements on the store (the lookup by email, then the insert) interleaved in any order.
At every point of every schedule at most one of the two has succeeded, and at most one
row of `users` carries `e`: the insert of the second request to reach it is refused by
the `unique` column, whether or not its lookup ran before the insert of the first. -/
theorem C23_concurrent_registrations_at_most_one (a b : CreateUserCall) (db : DB)
    (e : String) (ha : a.email = e) (hb : b.email = e)
    (hfree : ∀ r ∈ db.users, r.Email ≠ e) (schedule : List Bool) :
    ¬ ((Race.run a b db schedule).first.succeeded = true
        ∧ (Race.run a b db schedule).second.succeeded = true)
      ∧ ((Race.run a b db schedule).db.users.filter (fun r => r.Email == e)).length ≤ 1 := by
  have hzero : (db.users.filter (fun r => r.Email == e)).length = 0 := by
    rw [List.length_eq_zero, List.filter_eq_nil_iff]
    intro r hr hc
    exact hfree r hr (by simpa using hc)
  have hcount := Race_run_count a b e ha hb schedule
    { db := db, first := .start, second := .start } (by rw [hzero]; rfl)
  have hle := Race_run_le_one a b e ha hb schedule
    { db := db, first := .start, second := .start } (by rw [hzero]; exact Nat.zero_le 1)
  refine ⟨?_, hle⟩
  rintro ⟨h1, h2⟩
  unfold Race.run at h1 h2
  rw [h1, h2] at hcount
  rw [hcount] at hle
  simp at hle

/-- Witness of C23 on the store with the three users: two requests for dave's email, one
through each implementation, both run their lookup before either inserts. The first
insert succeeds, the second is refused, and one row carries the email. -/
theorem C23_concurrent_registrations_at_most_one_witness :
    (Race.run
        (.layered 30 { UUID := 104, Name := "dave", Email := "dave@example.com",
                       Password := "h-d" })
        (.flat Sample.bcryptGenerate 31 105 "dave2" "dave@example.com" "secret")
        Sample.usersOnly [true, false, true, false]).first = .done none
      ∧ (Race.run
        (.layered 30 { UUID := 104, Name := "dave", Email := "dave@example.com",
                       Password := "h-d" })
        (.flat Sample.bcryptGenerate 31 105 "dave2" "dave@example.com" "secret")
        Sample.usersOnly [true, false, true, false]).second
        = .done (some (.new ("failed to create user: " ++ Err.duplicateKey.Error)))
      ∧ ((Race.run
        (.layered 30 { UUID := 104, Name := "dave", Email := "dave@example.com",
                       Password := "h-d" })
        (.flat Sample.bcryptGenerate 31 105 "dave2" "dave@example.com" "secret")
        Sample.usersOnly [true, false, true, false]).db.users.filter
          (fun r => r.Email == "dave@example.com")).length ≤ 1 :=
  ⟨rfl, rfl,
    (C23_concurrent_registrations_at_most_one
      (.layered 30 { UUID := 104, Name := "dave", Email := "dave@example.com",
                     Password := "h-d" })
      (.flat Sample.bcryptGenerate 31 105 "dave2" "dave@example.com" "secret")
      Sample.usersOnly "dave@example.com" rfl rfl (by decide)
      [true, false, true, false]).2⟩

/-! ## Lemmas on the primary assignee under the workflow operations -/

theorem mem_relUsers_of_row {db : DB} {k : Nat} {urow : UserRow}
    (hlive : urow ∈ db.liveUsers) {ut : UserTask} (hut : ut ∈ db.user_tasks)
    (hk : ut.TaskID = k) (hid : ut.UserID = urow.ID) : urow ∈ db.relUsers k := by
  unfold DB.relUsers
  simp only [List.mem_flatMap, List.mem_filter, beq_iff_eq]
  exact ⟨ut, ⟨hut, hk⟩, hlive, hid.symm⟩

/-- More users and more assignment rows around the same tasks keep the condition. -/
theorem PrimaryAssigned_of_sub {db db2 : DB} (ht : db2.tasks = db.tasks)
    (hu : ∀ x ∈ db.liveUsers, x ∈ db2.liveUsers)
    (hut : ∀ x ∈ db.user_tasks, x ∈ db2.user_tasks) (h : db.PrimaryAssigned) :
    db2.PrimaryAssigned := by
  intro row hrow u ha
  rw [ht] at hrow
  obtain ⟨urow, hl, huu, ut, hutm, hk, hid⟩ := h row hrow u ha
  exact ⟨urow, hu urow hl, huu, ut, hut ut hutm, hk, hid⟩

/-- A new user keeps the condition. -/
theorem PrimaryAssigned_add_user {db : DB} (row : UserRow) (h : db.PrimaryAssigned) :
    DB.PrimaryAssigned { db with users := db.users ++ [row] } := by
  refine @PrimaryAssigned_of_sub db { db with users := db.users ++ [row] } rfl ?_
    (fun _ hx => hx) h
  intro x hx
  unfold DB.liveUsers at hx ⊢
  simp only [List.filter_append, List.mem_append]
  exact Or.inl hx

/-- A new task without primary assignee keeps the condition. -/
theorem PrimaryAssigned_add_task {db : DB} (row : TaskRow) (hnone : row.AssignedToID = none)
    (h : db.PrimaryAssigned) :
    DB.PrimaryAssigned { db with tasks := db.tasks ++ [row] } := by
  intro r hr u ha
  have hr2 : r ∈ db.tasks ++ [row] := hr
  rcases List.mem_append.mp hr2 with hr3 | hr3
  · exact h r hr3 u ha
  · simp only [List.mem_singleton] at hr3
    subst hr3
    rw [hnone] at ha
    exact Option.noConfusion ha

/-- Pointing the rows with key `k` at a user who has an assignment row for `k` keeps the
condition. -/
theorem PrimaryAssigned_point {db tx : DB} {k : Nat} {u : uuid.UUID} {urow : UserRow}
    (ht : tx.tasks = db.tasks) (husers : tx.users = db.users)
    (hut : ∀ x ∈ db.user_tasks, x ∈ tx.user_tasks)
    (hlive : urow ∈ tx.liveUsers) (huu : urow.UUID = u)
    (hrow : ∃ ut ∈ tx.user_tasks, ut.TaskID = k ∧ ut.UserID = urow.ID)
    (h : db.PrimaryAssigned) :
    (tx.updateTaskWherePK k (fun r => { r with AssignedToID := some u })).PrimaryAssigned := by
  have htx : tx.PrimaryAssigned :=
    PrimaryAssigned_of_sub ht (by rw [liveUsers_congr husers]; exact fun _ hx => hx) hut h
  intro r hr w ha
  have hr2 : r ∈ tx.tasks.map (fun r => if r.ID == k && r.DeletedAt.isNone
      then { r with AssignedToID := some u } else r) := hr
  obtain ⟨r0, hr0, hg⟩ := List.mem_map.mp hr2
  by_cases hc : (r0.ID == k && r0.DeletedAt.isNone) = true
  · simp only [hc, if_true] at hg
    subst hg
    have hw : u = w := Option.some.inj ha
    subst hw
    simp only [Bool.and_eq_true, beq_iff_eq] at hc
    obtain ⟨ut, hutm, hk, hid⟩ := hrow
    exact ⟨urow, hlive, huu, ut, hutm, hk.trans hc.1.symm, hid⟩
  · simp only [hc] at hg
    subst hg
    exact htx r0 hr0 w ha

/-- Rewriting the rows with the key of a stored row, keeping key and primary assignee of
that row, keeps the condition. -/
theorem PrimaryAssigned_rewrite {db : DB} {row0 : TaskRow} (f : TaskRow → TaskRow)
    (hmem : row0 ∈ db.tasks)
    (hf : ∀ r, r.ID = row0.ID → (f r).ID = row0.ID ∧ (f r).AssignedToID = row0.AssignedToID)
    (h : db.PrimaryAssigned) : (db.updateTaskWherePK row0.ID f).PrimaryAssigned := by
  intro r hr w ha
  have hr2 : r ∈ db.tasks.map (fun r => if r.ID == row0.ID && r.DeletedAt.isNone
      then f r else r) := hr
  obtain ⟨r0, hr0, hg⟩ := List.mem_map.mp hr2
  by_cases hc : (r0.ID == row0.ID && r0.DeletedAt.isNone) = true
  · simp only [hc, if_true] at hg
    subst hg
    simp only [Bool.and_eq_true, beq_iff_eq] at hc
    obtain ⟨h1, h2⟩ := hf r0 hc.1
    rw [h2] at ha
    obtain ⟨urow, hl, huu, ut, hutm, hk, hid⟩ := h row0 hmem w ha
    exact ⟨urow, hl, huu, ut, hutm, hk.trans h1.symm, hid⟩
  · simp only [hc] at hg
    subst hg
    exact h r0 hr0 w ha

theorem insertUserTask_store {db tx : DB} {ut : UserTask} (h : db.insertUserTask ut = .ok tx) :
    tx = { db with user_tasks := db.user_tasks ++ [ut] } := by
  unfold DB.insertUserTask at h
  split at h
  · exact Except.noConfusion h
  · exact (Except.ok.inj h).symm

theorem PrimaryAssigned_AssignTaskToUser (db : DB) (taskUUID userUUID : uuid.UUID)
    (h : db.PrimaryAssigned) :
    (TaskRepository.AssignTaskToUser db taskUUID userUUID).2.PrimaryAssigned := by
  unfold TaskRepository.AssignTaskToUser
  cases h1 : db.scanTaskByUUID taskUUID with
  | error e => exact h
  | ok dbTask =>
    cases h2 : db.scanUserByUUID userUUID with
    | error e => exact h
    | ok dbUser =>
      obtain ⟨_, huu, _, hlive⟩ := scanUserByUUID_props h2
      simp only
      cases hex : db.existsUserTask dbTask.ID dbUser.ID with
      | true =>
        simp only [Bool.not_true, Bool.false_eq_true, if_false]
        refine @PrimaryAssigned_point db db dbTask.ID userUUID dbUser rfl rfl
          (fun _ hx => hx) hlive huu ?_ h
        unfold DB.existsUserTask at hex
        rw [List.any_eq_true] at hex
        obtain ⟨ut, hut, hc⟩ := hex
        simp only [Bool.and_eq_true, beq_iff_eq] at hc
        exact ⟨ut, hut, hc.1, hc.2⟩
      | false =>
        simp only [Bool.not_false, if_true]
        cases h3 : db.insertUserTask { TaskID := dbTask.ID, UserID := dbUser.ID } with
        | error e => exact h
        | ok tx =>
          have htx := insertUserTask_store h3
          subst htx
          simp only
          refine @PrimaryAssigned_point db
            { db with user_tasks := db.user_tasks ++
                [{ TaskID := dbTask.ID, UserID := dbUser.ID }] }
            dbTask.ID userUUID dbUser rfl rfl ?_ hlive huu ?_ h
          · intro x hx
            exact List.mem_append_left _ hx
          · exact ⟨{ TaskID := dbTask.ID, UserID := dbUser.ID }, by simp, rfl, rfl⟩

theorem PrimaryAssigned_AssignTask (db : DB) (taskUUID userUUID requestorUUID : uuid.UUID)
    (h : db.PrimaryAssigned) :
    (TaskService.AssignTask db taskUUID userUUID requestorUUID).2.PrimaryAssigned := by
  unfold TaskService.AssignTask
  cases h1 : TaskRepository.GetByUUID db taskUUID with
  | error e => exact h
  | ok task =>
    simp only
    split
    · exact h
    · cases h2 : UserRepository.GetByUUID db userUUID with
      | error e => exact h
      | ok u => exact PrimaryAssigned_AssignTaskToUser db taskUUID userUUID h

theorem PrimaryAssigned_CompleteTask (db : DB) (now : Time) (taskUUID userUUID : uuid.UUID)
    (h : db.PrimaryAssigned) :
    (TaskService.CompleteTask db now taskUUID userUUID).2.PrimaryAssigned := by
  unfold TaskService.CompleteTask
  cases h1 : TaskRepository.GetByUUID db taskUUID with
  | error e => exact h
  | ok task =>
    obtain ⟨row, hrow, htask⟩ := GetByUUID_ok_row h1
    obtain ⟨_, _, hmem⟩ := scanTaskByUUID_props hrow
    have hid0 : task.ID = row.ID := by rw [htask]; rfl
    have ha0 : task.AssignedToID = row.AssignedToID := by rw [htask]; rfl
    simp only
    split
    · exact h
    · rcases hcomp : task.Complete now with ⟨_ | err, task2⟩
      · have hk : task2.ID = task.ID ∧ task2.AssignedToID = task.AssignedToID := by
          unfold entity.Task.Complete at hcomp
          split at hcomp
          · simp at hcomp
          · simp only [Prod.mk.injEq, true_and] at hcomp
            rw [← hcomp]
            exact ⟨rfl, rfl⟩
        simp only [TaskRepository.Update]
        rw [hk.1.trans hid0]
        refine PrimaryAssigned_rewrite _ hmem ?_ h
        intro r hr
        exact ⟨hr, hk.2.trans ha0⟩
      · exact h

theorem PrimaryAssigned_ValidateAndAssignTask (task : Option models.Task) (db : DB)
    (creatorUUID assignedUserUUID : uuid.UUID) (h : db.PrimaryAssigned) :
    (models.Task.ValidateAndAssignTask task db creatorUUID assignedUserUUID).2.2.PrimaryAssigned
    := by
  unfold models.Task.ValidateAndAssignTask
  cases task with
  | none => exact h
  | some task =>
    simp only
    split
    · exact h
    · split
      · exact h
      · cases h2 : db.scanUserByUUID assignedUserUUID with
        | error e => exact h
        | ok u =>
          obtain ⟨_, huu, _, hlive⟩ := scanUserByUUID_props h2
          simp only
          cases h3 : db.insertUserTask { TaskID := task.ID, UserID := u.ID } with
          | error e => exact h
          | ok tx =>
            have htx := insertUserTask_store h3
            subst htx
            simp only
            refine @PrimaryAssigned_point db
              { db with user_tasks := db.user_tasks ++ [{ TaskID := task.ID, UserID := u.ID }] }
              task.ID assignedUserUUID u rfl rfl ?_ hlive huu ?_ h
            · intro x hx
              exact List.mem_append_left _ hx
            · exact ⟨{ TaskID := task.ID, UserID := u.ID }, by simp, rfl, rfl⟩

theorem PrimaryAssigned_legacy_Complete (task : models.Task) (db : DB) (userUUID : uuid.UUID)
    (h : db.PrimaryAssigned) :
    (models.Task.Complete task db userUUID).2.2.PrimaryAssigned := by
  unfold models.Task.Complete
  split
  · exact h
  · cases h1 : db.scanTaskByUUID task.UUID with
    | error e => exact h
    | ok row =>
      obtain ⟨_, _, hmem⟩ := scanTaskByUUID_props h1
      simp only
      split
      · exact h
      · simp only [models.Task.updateTask]
        refine PrimaryAssigned_rewrite _ hmem ?_ h
        intro r hr
        exact ⟨rfl, rfl⟩

theorem PrimaryAssigned_CreateUser (db : DB) (now : Time) (user : entity.User)
    (h : db.PrimaryAssigned) : (UserService.CreateUser db now user).2.2.PrimaryAssigned := by
  rcases CreateUser_shape db now user with h1 | ⟨row, h1, _⟩
  · rw [h1]; exact h
  · rw [h1]; exact PrimaryAssigned_add_user row h

theorem PrimaryAssigned_legacy_CreateUser (bcryptGenerate : String → Option String) (db : DB)
    (now : Time) (fresh : uuid.UUID) (name email password : String)
    (h : db.PrimaryAssigned) :
    (models.User.CreateUser bcryptGenerate db now fresh name email password).2.PrimaryAssigned
    := by
  unfold models.User.CreateUser
  split
  · exact h
  · cases helperFunc.HashPassword bcryptGenerate password with
    | error e => exact h
    | ok hp =>
      simp only
      cases db.scanUserByEmail email with
      | ok r => exact h
      | error e =>
        simp only
        cases hi : db.insertUser now
          { ID := 0, UUID := fresh, Name := name, Email := email, Password := hp,
            CreatedAt := 0, UpdatedAt := 0, DeletedAt := none } with
        | error e2 => exact h
        | ok p =>
          obtain ⟨db2, row⟩ := p
          simp only
          unfold DB.insertUser at hi
          split at hi
          · exact Except.noConfusion hi
          · have hp2 := Except.ok.inj hi
            simp only [Prod.mk.injEq] at hp2
            rw [← hp2.1]
            exact PrimaryAssigned_add_user _ h

theorem PrimaryAssigned_assignAll (taskUUID creatorUUID : uuid.UUID) :
    ∀ (uuids : List uuid.UUID) (db : DB), db.PrimaryAssigned →
      (TaskUseCase.CreateTask.assignAll taskUUID creatorUUID uuids db).2.PrimaryAssigned := by
  intro uuids
  induction uuids with
  | nil => intro db h; exact h
  | cons u rest ih =>
    intro db h
    have hstep := PrimaryAssigned_AssignTask db taskUUID u creatorUUID h
    unfold TaskUseCase.CreateTask.assignAll
    rcases hres : TaskService.AssignTask db taskUUID u creatorUUID with ⟨_ | err, db2⟩
    · rw [hres] at hstep
      simp only
      exact ih db2 hstep
    · rw [hres] at hstep
      exact hstep

theorem PrimaryAssigned_CreateTask (parse : String → Option uuid.UUID) (db : DB) (now : Time)
    (fresh : uuid.UUID) (req : dto.CreateTaskRequest) (creatorUUID : uuid.UUID)
    (h : db.PrimaryAssigned) :
    (TaskUseCase.CreateTask parse db now fresh req creatorUUID).2.PrimaryAssigned := by
  unfold TaskUseCase.CreateTask
  cases hn : entity.NewTask req.Title req.Description creatorUUID now fresh with
  | error e => exact h
  | ok task =>
    have htask : task.Users = [] ∧ task.Completed = false := by
      unfold entity.NewTask at hn
      split at hn
      · exact Except.noConfusion hn
      · rw [← Except.ok.inj hn]
        exact ⟨rfl, rfl⟩
    simp only
    have hcreate : ∃ task2 tx, TaskService.CreateTask db now task = (some (.new "creator not found"), task, db)
        ∨ (TaskService.CreateTask db now task = (none, task2, tx) ∧ tx.PrimaryAssigned) := by
      unfold TaskService.CreateTask
      cases UserRepository.GetByUUID db task.CreatedByID with
      | error e => exact ⟨task, db, Or.inl rfl⟩
      | ok creator =>
        simp only [TaskRepository.Create, DB.insertTask, htask.1, ne_eq, not_true_eq_false,
          if_false]
        exact ⟨_, _, Or.inr ⟨rfl, PrimaryAssigned_add_task _ rfl h⟩⟩
    obtain ⟨task2, tx, hc | ⟨hc, htx⟩⟩ := hcreate
    · rw [hc]
      exact h
    · rw [hc]
      simp only
      have hassigned : ∀ (p : Option Err × DB), p.2.PrimaryAssigned →
          (match p with
            | (some err, db) => ((.error err : Except Err (Option dto.TaskResponse)), db)
            | (none, db) =>
              match TaskService.GetTaskByUUID db task2.UUID with
              | .error err => (.error err, db)
              | .ok createdTask => (.ok (TaskPresenter.ToDTO (some createdTask)), db)).2.PrimaryAssigned := by
        rintro ⟨_ | err, db3⟩ hp
        · simp only
          cases TaskService.GetTaskByUUID db3 task2.UUID <;> exact hp
        · exact hp
      apply hassigned
      split
      · split
        · exact htx
        · exact PrimaryAssigned_assignAll _ _ _ _ htx
      · exact htx

theorem legacy_addUsers_rows (tid : Nat) :
    ∀ (users : List UserRow) (tx tx2 : DB),
      models.Task.ValidateAndCreateTask.addUsers tid users tx = .ok tx2 →
      tx2.users = tx.users ∧ tx2.tasks = tx.tasks
        ∧ (∀ x ∈ tx.user_tasks, x ∈ tx2.user_tasks)
        ∧ ∀ u ∈ users, ∃ r, tx.scanUserByUUID u.UUID = .ok r
            ∧ ({ TaskID := tid, UserID := r.ID } : UserTask) ∈ tx2.user_tasks := by
  intro users
  induction users with
  | nil =>
    intro tx tx2 h
    have : tx2 = tx := (Except.ok.inj h).symm
    subst this
    exact ⟨rfl, rfl, fun _ hx => hx, fun u hu => absurd hu (List.not_mem_nil u)⟩
  | cons u rest ih =>
    intro tx tx2 h
    unfold models.Task.ValidateAndCreateTask.addUsers at h
    cases hs : tx.scanUserByUUID u.UUID with
    | error e => simp [hs] at h
    | ok r =>
      simp only [hs] at h
      cases hi : tx.insertUserTask { TaskID := tid, UserID := r.ID } with
      | error e => simp [hi] at h
      | ok tx1 =>
        simp only [hi] at h
        have htx1 := insertUserTask_store hi
        obtain ⟨h1, h2, h3, h4⟩ := ih tx1 tx2 h
        subst htx1
        refine ⟨h1, h2, fun x hx => h3 x (List.mem_append_left _ hx), ?_⟩
        intro v hv
        rcases List.mem_cons.mp hv with hvu | hvr
        · subst hvu
          exact ⟨r, hs, h3 _ (by simp)⟩
        · exact h4 v hvr

theorem build_primary (db : DB) (req : schemas.CreateTaskRequest) (task : models.Task)
    (h : controllers.Tasks.CreateTask.build db req = some task) :
    task.AssignedToID = none ∨ ∃ first ∈ task.Users, task.AssignedToID = some first.UUID := by
  unfold controllers.Tasks.CreateTask.build at h
  simp only at h
  split at h
  · cases hl : controllers.Tasks.CreateTask.lookup db req.Users [] with
    | none => simp [hl] at h
    | some users =>
      simp only [hl, Option.some.injEq] at h
      subst h
      cases users with
      | nil => left; rfl
      | cons first rest => right; exact ⟨first, by simp, rfl⟩
  · simp only [Option.some.injEq] at h
    subst h
    left; rfl

theorem PrimaryAssigned_ValidateAndCreateTask (task : models.Task) (db : DB) (now : Time)
    (fresh userUUID : uuid.UUID)
    (hp : task.AssignedToID = none ∨ ∃ first ∈ task.Users, task.AssignedToID = some first.UUID)
    (h : db.PrimaryAssigned) :
    (task.ValidateAndCreateTask db now fresh userUUID).2.2.PrimaryAssigned := by
  unfold models.Task.ValidateAndCreateTask
  split
  · exact h
  · cases db.scanUserByUUID userUUID with
    | error e => exact h
    | ok c =>
      simp only [DB.insertTask]
      cases ha : models.Task.ValidateAndCreateTask.addUsers db.nextTaskID task.Users
          { db with tasks := db.tasks ++
            [{ ID := db.nextTaskID, UUID := fresh, Title := task.Title,
               Description := task.Description, Completed := task.Completed,
               CreatedAt := if now = 0 then now else now,
               UpdatedAt := if now = 0 then now else now,
               DeletedAt := task.DeletedAt, CreatedByID := userUUID,
               AssignedToID := task.AssignedToID }] } with
      | error e => exact h
      | ok tx2 =>
        obtain ⟨h1, h2, h3, h4⟩ := legacy_addUsers_rows _ _ _ _ ha
        simp only
        intro r hr w hw
        rw [h2] at hr
        have hr2 : r ∈ db.tasks ++ _ := hr
        rcases List.mem_append.mp hr2 with hr3 | hr3
        · obtain ⟨urow, hl, huu, ut, hutm, hk, hid⟩ := h r hr3 w hw
          refine ⟨urow, ?_, huu, ut, h3 ut hutm, hk, hid⟩
          rw [liveUsers_congr h1]
          exact hl
        · simp only [List.mem_singleton] at hr3
          subst hr3
          rcases hp with hp | ⟨first, hfirst, hp⟩
          · rw [hp] at hw
            exact Option.noConfusion hw
          · have hw2 : task.AssignedToID = some w := hw
            rw [hp] at hw2
            have hfw : first.UUID = w := Option.some.inj hw2
            obtain ⟨ur, hscan, hrow⟩ := h4 first hfirst
            obtain ⟨_, huu, _, hlive⟩ := scanUserByUUID_props hscan
            refine ⟨ur, ?_, huu.trans hfw, _, hrow, rfl, rfl⟩
            rw [liveUsers_congr h1]
            exact hlive

theorem PrimaryAssigned_legacy_CreateTask (db : DB) (now : Time) (fresh userUUID : uuid.UUID)
    (val : Option schemas.CreateTaskRequest) (h : db.PrimaryAssigned) :
    (controllers.Tasks.CreateTask db now fresh userUUID val).2.PrimaryAssigned := by
  unfold controllers.Tasks.CreateTask
  cases val with
  | none => exact h
  | some req =>
    simp only
    cases hb : controllers.Tasks.CreateTask.build db req with
    | none => exact h
    | some task =>
      have hstep := PrimaryAssigned_ValidateAndCreateTask task db now fresh userUUID
        (build_primary db req task hb) h
      simp only
      rcases hres : task.ValidateAndCreateTask db now fresh userUUID with ⟨_ | err, task2, db2⟩
      · rw [hres] at hstep
        simp only
        cases models.FetchTaskByUUID db2 task2.UUID <;> exact hstep
      · rw [hres] at hstep
        exact hstep

/-- Every public workflow operation keeps the primary assignee of every task in its
assignment set. -/
theorem WorkflowOp_run_PrimaryAssigned (op : WorkflowOp) (db : DB) (h : db.PrimaryAssigned) :
    (op.run db).PrimaryAssigned := by
  cases op with
  | createUser now user => exact PrimaryAssigned_CreateUser db now user h
  | legacyCreateUser bcryptGenerate now fresh name email password =>
    exact PrimaryAssigned_legacy_CreateUser bcryptGenerate db now fresh name email password h
  | createTask parse now fresh req creatorUUID =>
    exact PrimaryAssigned_CreateTask parse db now fresh req creatorUUID h
  | legacyCreateTask now fresh userUUID val =>
    exact PrimaryAssigned_legacy_CreateTask db now fresh userUUID val h
  | assign taskUUID userUUID requestorUUID =>
    exact PrimaryAssigned_AssignTask db taskUUID userUUID requestorUUID h
  | legacyAssign task creatorUUID assignedUserUUID =>
    exact PrimaryAssigned_ValidateAndAssignTask task db creatorUUID assignedUserUUID h
  | complete now taskUUID userUUID =>
    exact PrimaryAssigned_CompleteTask db now taskUUID userUUID h
  | legacyComplete task userUUID => exact PrimaryAssigned_legacy_Complete task db userUUID h

theorem WorkflowOp_runAll_PrimaryAssigned :
    ∀ (ops : List WorkflowOp) (db : DB), db.PrimaryAssigned →
      (WorkflowOp.runAll ops db).PrimaryAssigned := by
  intro ops
  induction ops with
  | nil => intro db h; exact h
  | cons op ops ih =>
    intro db h
    exact ih (op.run db) (WorkflowOp_run_PrimaryAssigned op db h)

/-! ## C25: the primary assignee is in the assignment set -/

/-- C25. In every store reached from the empty store by a sequence of public workflow
operations, with any arguments and whether they succeed or fail (registrations, task
creations with or without assignees, assignments and completions, in the layered and in
the flat implementation), every row of `tasks` whose `assigned_to_id` is set has a row of
`user_tasks` that joins it to a user with that identifier who is not soft-deleted; so
every task read back through `GetByUUID` or `FetchTaskByUUID` with a primary assignee
lists that user among its `Users`. -/
theorem C25_primary_assignee_is_assigned (ops : List WorkflowOp) :
    (WorkflowOp.runAll ops DB.empty).PrimaryAssigned
      ∧ (∀ taskUUID t u, TaskRepository.GetByUUID (WorkflowOp.runAll ops DB.empty) taskUUID
            = .ok t → t.AssignedToID = some u → ∃ x ∈ t.Users, x.UUID = u)
      ∧ (∀ taskUUID lt u, models.FetchTaskByUUID (WorkflowOp.runAll ops DB.empty) taskUUID
            = .ok lt → lt.AssignedToID = some u → ∃ x ∈ lt.Users, x.UUID = u) := by
  have hinv : (WorkflowOp.runAll ops DB.empty).PrimaryAssigned :=
    WorkflowOp_runAll_PrimaryAssigned ops DB.empty
      (fun row hrow => absurd hrow (List.not_mem_nil row))
  refine ⟨hinv, ?_, ?_⟩
  · intro taskUUID t u ht ha
    obtain ⟨row, hrow, rfl⟩ := GetByUUID_ok_row ht
    obtain ⟨_, _, hmem⟩ := scanTaskByUUID_props hrow
    obtain ⟨urow, hl, huu, ut, hutm, hk, hid⟩ := hinv row hmem u ha
    refine ⟨TaskRepository.relatedUser urow, ?_, huu⟩
    simp only [TaskRepository.toEntity]
    exact List.mem_map_of_mem _ (mem_relUsers_of_row hl hutm hk hid)
  · intro taskUUID lt u hlt ha
    obtain ⟨row, hrow, rfl⟩ := FetchTaskByUUID_ok_row hlt
    obtain ⟨_, _, hmem⟩ := scanTaskByUUID_props hrow
    obtain ⟨urow, hl, huu, ut, hutm, hk, hid⟩ := hinv row hmem u ha
    exact ⟨urow, mem_relUsers_of_row hl hutm hk hid, huu⟩

/-- Witness of C25: from the empty store alice and bob register, alice creates task 201
with bob as assignee through the use case and task 202 with bob through the flat handler,
assigns herself to task 201 and completes it. The condition holds in the store reached,
and task 201 reads back with alice as primary assignee and among its users. -/
theorem C25_primary_assignee_is_assigned_witness :
    (WorkflowOp.runAll
        [.createUser 10 { UUID := 101, Name := "alice", Email := "alice@example.com",
                          Password := "h-a" },
         .legacyCreateUser Sample.bcryptGenerate 11 102 "bob" "bob@example.com" "b",
         .createTask Sample.parse 20 201
           { Title := "T", Description := "d", Users := [⟨"102"⟩] } 101,
         .legacyCreateTask 21 202 101
           (some { Title := "U", Description := "", Users := [⟨102⟩] }),
         .assign 201 101 101,
         .complete 30 201 101]
        DB.empty).PrimaryAssigned
      ∧ (TaskRepository.GetByUUID
          (WorkflowOp.runAll
            [.createUser 10 { UUID := 101, Name := "alice", Email := "alice@example.com",
                              Password := "h-a" },
             .legacyCreateUser Sample.bcryptGenerate 11 102 "bob" "bob@example.com" "b",
             .createTask Sample.parse 20 201
               { Title := "T", Description := "d", Users := [⟨"102"⟩] } 101,
             .legacyCreateTask 21 202 101
               (some { Title := "U", Description := "", Users := [⟨102⟩] }),
             .assign 201 101 101,
             .complete 30 201 101]
            DB.empty) 201).map
          (fun t => (t.AssignedToID, t.Users.map (fun x => x.UUID), t.Completed))
        = .ok (some 101, [102, 101], true) :=
  ⟨(C25_primary_assignee_is_assigned
      [.createUser 10 { UUID := 101, Name := "alice", Email := "alice@example.com",
                        Password := "h-a" },
       .legacyCreateUser Sample.bcryptGenerate 11 102 "bob" "bob@example.com" "b",
       .createTask Sample.parse 20 201
         { Title := "T", Description := "d", Users := [⟨"102"⟩] } 101,
       .legacyCreateTask 21 202 101
         (some { Title := "U", Description := "", Users := [⟨102⟩] }),
       .assign 201 101 101,
       .complete 30 201 101]).1, rfl⟩

end TaskApp
